import Mathlib

/-!
Verification development for the bracket-builder core of the
createBasket/create-basket repository.

The definitions below are a shallow embedding of the TypeScript sources:

* the second module of `src/unnamed/part_004` (the current
  `generateBracket.ts`: `normalizeName`, `nextPowerOfTwo`, `findNextMatch`,
  `clearDownstream`, `chunk`, `distributeByes`, `trimTrailingRounds`,
  `buildSeedOrder`, `seedTeams`, `generateBracket`, `propagateAutoAdvances`,
  `propagateWinner`, `settlePassChains`);
* the consolation-bracket effect of `src/unnamed/part_000` (`App`).

Modelling conventions:

* team names are lists of characters; `String.localeCompare` is modelled as
  code-unit lexicographic comparison (it agrees with it on the plain
  one-letter ASCII names used in the concrete examples below);
* `uuid()` is modelled by a deterministic counter: matches receive the ids
  `0, 1, 2, ...` in creation order;
* JavaScript array reads `arr[i]` (which yield `undefined` out of range)
  become `Option`-valued lookups; destructured pair components
  `const [a, b] = pair` become `Option Nat` indices, and a write through an
  undefined index is a no-op (no reachable code path performs one);
* ES2019 `Array.prototype.sort` is stable; it is modelled by a stable
  insertion sort driven by the same comparator;
* the unbounded `while`/recursion loops of the source are given explicit
  fuel; every fuel value is commented with the structural bound that makes
  it sufficient, and `settlePassChains` uses the source's own iteration cap.
-/

set_option maxRecDepth 8000

namespace CB

/-- Occupant identifier: either the pass sentinel `__PASS__` or a real team id. -/
inductive EntryId where
  | pass : EntryId
  | team : Nat → EntryId
deriving DecidableEq, Repr

/-- PASS_ID from the source. -/
def PASS_ID : EntryId := EntryId.pass

/-- isPass from the source (its argument may be undefined). -/
def isPass (id : Option EntryId) : Bool := id = some PASS_ID

/-- The entrant model (fields relevant to the bracket core). -/
structure Team where
  id : Nat
  name : List Char
  priority : Bool
deriving DecidableEq, Repr

/-- The match model of `types.ts` (fields used by the bracket core). -/
structure Match where
  id : Nat
  round : Nat
  slot : Nat
  teamAId : Option EntryId
  teamBId : Option EntryId
  winnerId : Option EntryId
deriving DecidableEq, Repr

/-- Given the characters after an opening parenthesis, the suffix after the
first closing parenthesis, if any. -/
def dropParenGroup : List Char → Option (List Char)
  | [] => none
  | c :: cs => if c = ')' then some cs else dropParenGroup cs

theorem dropParenGroup_length :
    ∀ {cs rest : List Char}, dropParenGroup cs = some rest → rest.length < cs.length := by
  intro cs
  induction cs with
  | nil => intro rest h; simp [dropParenGroup] at h
  | cons c cs ih =>
    intro rest h
    simp only [dropParenGroup] at h
    by_cases hc : c = ')'
    · rw [if_pos hc] at h
      cases h
      simp [List.length_cons]
    · rw [if_neg hc] at h
      have := ih h
      simp only [List.length_cons]
      omega

/-- The body of `stripParenGroups`, structurally recursive on a fuel that
bounds the list length (every recursive call is on a strictly shorter
list, see `dropParenGroup_length`). -/
def stripParenGroupsGo : Nat → List Char → List Char
  | 0, cs => cs
  | _, [] => []
  | fuel + 1, c :: cs =>
    if c = '(' then
      match dropParenGroup cs with
      | some rest => stripParenGroupsGo fuel rest
      | none => c :: stripParenGroupsGo fuel cs
    else
      c :: stripParenGroupsGo fuel cs

/-- The repeated non-greedy removal performed by `.replace(/\(.*?\)/g, '')`:
each `(` is matched with the first following `)` and the whole group is
dropped; an unmatched `(` is kept. -/
def stripParenGroups (cs : List Char) : List Char :=
  stripParenGroupsGo cs.length cs

/-- The character class `[a-z0-9]` with the `i` flag. -/
def isAlphaNum (c : Char) : Bool :=
  (('a' ≤ c ∧ c ≤ 'z') ∨ ('A' ≤ c ∧ c ≤ 'Z') ∨ ('0' ≤ c ∧ c ≤ '9') : Prop)

/-- normalizeName from the source.  The trailing `.trim()` is omitted: after
filtering to alphanumeric characters no whitespace remains to trim. -/
def normalizeName (value : List Char) : List Char :=
  ((stripParenGroups value).filter isAlphaNum).map Char.toLower

/-- Doubling loop: the smallest power of two that is at least `value`,
starting from `acc`; the fuel bounds the number of doublings. -/
def nextPowerOfTwoGo (value : Nat) : Nat → Nat → Nat
  | 0, acc => acc
  | fuel + 1, acc => if acc < value then nextPowerOfTwoGo value fuel (acc * 2) else acc

/-- nextPowerOfTwo from the source: `2 ** Math.ceil(Math.log2(value))`, the
least power of two that is at least `value` (and 1 for `value ≤ 1`). -/
def nextPowerOfTwo (value : Nat) : Nat :=
  if value ≤ 1 then 1 else nextPowerOfTwoGo value value 1

/-- The body of `chunk`, structurally recursive on a fuel that bounds the
list length (each step drops at least one element). -/
def chunkGo : Nat → List Nat → Nat → List (List Nat)
  | 0, _, _ => []
  | _, _, 0 => []
  | _, [], _ + 1 => []
  | fuel + 1, a :: as, s + 1 =>
    (a :: as).take (s + 1) :: chunkGo fuel (as.drop s) (s + 1)

/-- chunk from the source (only ever called with size 2). -/
def chunk (arr : List Nat) (size : Nat) : List (List Nat) :=
  chunkGo arr.length arr size

/-- Stable insertion step: `x` is placed before the first element it does not
compare greater than (so on ties earlier input elements stay first). -/
def insertByC {α : Type} (cmp : α → α → Ordering) (x : α) : List α → List α
  | [] => [x]
  | y :: ys => if cmp x y = Ordering.gt then y :: insertByC cmp x ys else x :: y :: ys

/-- Stable comparator sort modelling ES2019 `Array.prototype.sort`. -/
def sortByC {α : Type} (cmp : α → α → Ordering) : List α → List α
  | [] => []
  | x :: xs => insertByC cmp x (sortByC cmp xs)

/-- Code-unit lexicographic comparison of names, modelling `localeCompare`. -/
def cmpName : List Char → List Char → Ordering
  | [], [] => Ordering.eq
  | [], _ :: _ => Ordering.lt
  | _ :: _, [] => Ordering.gt
  | a :: as, b :: bs =>
    if a < b then Ordering.lt else if b < a then Ordering.gt else cmpName as bs

/-- The team comparator of `generateBracket`: priority first, then name. -/
def cmpTeams (a b : Team) : Ordering :=
  if a.priority = b.priority then cmpName a.name b.name
  else if a.priority then Ordering.lt else Ordering.gt

/-- The composite-score comparison of `rankSlots`: first index where the
scores differ decides (scores at each call site have equal length). -/
def cmpScores : List Nat → List Nat → Ordering
  | [], _ => Ordering.eq
  | _ :: _, [] => Ordering.eq
  | a :: as, b :: bs =>
    if a < b then Ordering.lt else if b < a then Ordering.gt else cmpScores as bs

/-- One expansion step of `buildSeedOrder`: interleave the current order with
its mirror image, never letting the result grow past `size`. -/
def seedOrderExpand (size : Nat) (order : List Nat) : List Nat :=
  let mirrorBase := order.length * 2 + 1
  let mirrored := order.map (fun seed => mirrorBase - seed)
  (order.zip mirrored).foldl
    (fun next sm =>
      let next1 := if next.length < size then next ++ [sm.1] else next
      if next1.length < size then next1 ++ [sm.2] else next1)
    []

/-- The `while (order.length < size)` loop of `buildSeedOrder`, fuelled.  Each
iteration at least doubles the length (capped at `size`), so starting from
the one-element list `[1]`, `size` iterations are more than enough. -/
def buildSeedOrderGo (size : Nat) : Nat → List Nat → List Nat
  | 0, order => order
  | fuel + 1, order =>
    if order.length < size then buildSeedOrderGo size fuel (seedOrderExpand size order)
    else order

/-- buildSeedOrder from the source. -/
def buildSeedOrder (size : Nat) : List Nat :=
  ((buildSeedOrderGo size size [1]).take size).map (fun seed => seed - 1)

/-! ### The seed placement engine (`seedTeams`) -/

/-- The `positions` array of `seedTeams`. -/
def positionsOf (bracketSize : Nat) : List Nat := List.range bracketSize

/-- The `pairGroups`/`pairs` arrays of `seedTeams`. -/
def pairGroupsOf (bracketSize : Nat) : List (List Nat) :=
  chunk (positionsOf bracketSize) 2

/-- First component of a destructured pair `[aIdx, bIdx]`. -/
def pairFst (pair : List Nat) : Option Nat := pair.get? 0

/-- Second component of a destructured pair (undefined on a singleton). -/
def pairSnd (pair : List Nat) : Option Nat := pair.get? 1

/-- A JavaScript array read `seeded[i]`. -/
def readSlot (seeded : List (Option Team)) (i : Nat) : Option Team :=
  (seeded.get? i).join

/-- A read through a possibly-undefined index. -/
def readSlotO (seeded : List (Option Team)) (i : Option Nat) : Option Team :=
  i.bind (readSlot seeded)

/-- A write through a possibly-undefined index (no reachable source path
writes through an undefined one). -/
def writeSlotO (seeded : List (Option Team)) (i : Option Nat) (v : Option Team) :
    List (Option Team) :=
  match i with
  | none => seeded
  | some j => seeded.set j v

/-- The optional-chained priority test `t?.priority` (false when absent). -/
def priorityOf (t : Option Team) : Bool :=
  match t with
  | some team => team.priority
  | none => false

/-- baseKey from `seedTeams` (empty key for an absent team). -/
def baseKey (t : Option Team) : List Char :=
  match t with
  | some team => normalizeName team.name
  | none => []

/-- The pair containing a slot (`pairGroups.find((g) => g.includes(slot))`). -/
def pairContaining (bracketSize slot : Nat) : List Nat :=
  ((pairGroupsOf bracketSize).find? (fun g => g.contains slot)).getD []

/-- The opponent index of a slot within its pair. -/
def opponentIndexOf (bracketSize slot : Nat) : Option Nat :=
  (pairContaining bracketSize slot).find? (fun idx => idx ≠ slot)

/-- The opponent occupying the other slot of a pair, if any. -/
def opponentAt (bracketSize : Nat) (seeded : List (Option Team)) (slot : Nat) :
    Option Team :=
  (opponentIndexOf bracketSize slot).bind (readSlot seeded)

/-- slotConflicts from the source, as (priorityConflict, sameSchoolConflict). -/
def slotConflicts (bracketSize : Nat) (seeded : List (Option Team)) (team : Team)
    (slot : Nat) : Bool × Bool :=
  let opponent := opponentAt bracketSize seeded slot
  (priorityOf opponent,
   match opponent with
   | some o => baseKey (some o) = baseKey (some team)
   | none => false)

/-- The two placement modes of `placeTeam`/`rankSlots`. -/
inductive PlaceMode where
  | priority : PlaceMode
  | nonPriority : PlaceMode
deriving DecidableEq, Repr

/-- The per-slot record produced by `rankSlots`. -/
structure SlotInfo where
  slot : Nat
  priorityConflict : Bool
  sameSchoolConflict : Bool
  hasOpponent : Bool
  opponentIsPriority : Bool
  compositeScore : List Nat
deriving DecidableEq, Repr

/-- The record built for one open slot inside `rankSlots`. -/
def slotInfoFor (bracketSize : Nat) (seeded : List (Option Team)) (team : Team)
    (mode : PlaceMode) (slot : Nat) : SlotInfo :=
  let conflicts := slotConflicts bracketSize seeded team slot
  let opponent := opponentAt bracketSize seeded slot
  let hasPriorityConflict := conflicts.1
  let hasSameSchoolConflict := conflicts.2
  let seedBias := (buildSeedOrder bracketSize).indexOf slot
  ⟨slot, conflicts.1, conflicts.2, opponent.isSome, priorityOf opponent,
    match mode with
    | PlaceMode.priority =>
        [if hasPriorityConflict then 4 else 0,
         if hasSameSchoolConflict then 2 else 0,
         if opponent.isSome then 0 else 3,
         if priorityOf opponent then 2 else 0,
         seedBias]
    | PlaceMode.nonPriority =>
        [if hasSameSchoolConflict then 3 else 0,
         if opponent.isSome then 0 else 3,
         if priorityOf opponent then 0 else 1]⟩

/-- The comparator closing `rankSlots`: composite score, then slot index.
`List.indexOf` already returns the list length when the element is absent,
which is exactly the `seedRank === -1 ? seedOrder.length : seedRank` bias. -/
def cmpSlotInfo (a b : SlotInfo) : Ordering :=
  let c := cmpScores a.compositeScore b.compositeScore
  if c = Ordering.eq then compare a.slot b.slot else c

/-- rankSlots from the source. -/
def rankSlots (bracketSize : Nat) (seeded : List (Option Team)) (team : Team)
    (mode : PlaceMode) : List SlotInfo :=
  let openSlots := (positionsOf bracketSize).filter (fun idx => readSlot seeded idx = none)
  sortByC cmpSlotInfo (openSlots.map (slotInfoFor bracketSize seeded team mode))

/-- placeTeam from the source. -/
def placeTeam (bracketSize : Nat) (seeded : List (Option Team)) (team : Team)
    (mode : PlaceMode) : List (Option Team) :=
  let ordered := rankSlots bracketSize seeded team mode
  match ordered.find? (fun s => !s.priorityConflict && !s.sameSchoolConflict) with
  | some perfect => seeded.set perfect.slot (some team)
  | none =>
    match mode with
    | PlaceMode.priority =>
      match ordered.find? (fun s => !s.priorityConflict) with
      | some noPriority => seeded.set noPriority.slot (some team)
      | none =>
        match ordered.find? (fun s => !s.sameSchoolConflict) with
        | some noSameSchool => seeded.set noSameSchool.slot (some team)
        | none =>
          match ordered with
          | first :: _ => seeded.set first.slot (some team)
          | [] => seeded
    | PlaceMode.nonPriority =>
      match ordered.find? (fun s => !s.sameSchoolConflict) with
      | some noSameSchool => seeded.set noSameSchool.slot (some team)
      | none =>
        match ordered with
        | first :: _ => seeded.set first.slot (some team)
        | [] => seeded

/-- One step of the post pass that borrows opponents for priority teams
facing a bye (the `pairs.forEach` block after greedy placement). -/
def donorPassStep (bracketSize : Nat) (seeded : List (Option Team))
    (pair : List Nat) : List (Option Team) :=
  let aIdx := pairFst pair
  let bIdx := pairSnd pair
  let a := readSlotO seeded aIdx
  let b := readSlotO seeded bIdx
  let targetPriority : Option Team :=
    if priorityOf a then a else if priorityOf b then b else none
  let targetEmptyIdx : Option Nat :=
    if a = none then aIdx else if b = none then bIdx else none
  if targetPriority = none ∨ targetEmptyIdx = none then seeded
  else
    -- First try to pull a non-priority from a match with two non-priorities.
    match (pairGroupsOf bracketSize).find? (fun p =>
        match readSlotO seeded (pairFst p), readSlotO seeded (pairSnd p) with
        | some x, some y => !x.priority && !y.priority
        | _, _ => false) with
    | some donor =>
      let dA := pairFst donor
      let donorTeam := readSlotO seeded dA
      writeSlotO (writeSlotO seeded targetEmptyIdx donorTeam) dA none
    | none =>
      -- Next try to pull a non-priority from a non-priority + bye match.
      match (pairGroupsOf bracketSize).find? (fun p =>
          let x := readSlotO seeded (pairFst p)
          let y := readSlotO seeded (pairSnd p)
          (x.isSome && !(priorityOf x) && y = none) ||
            (y.isSome && !(priorityOf y) && x = none)) with
      | some donorBye =>
        let dA := pairFst donorBye
        let dB := pairSnd donorBye
        let donorIdx :=
          if (readSlotO seeded dA).isSome && !(priorityOf (readSlotO seeded dA))
          then dA else dB
        let donorTeam := readSlotO seeded donorIdx
        writeSlotO (writeSlotO seeded targetEmptyIdx donorTeam) donorIdx none
      | none =>
        -- Next, try to pair with another priority that also has a bye.
        match (pairGroupsOf bracketSize).find? (fun p =>
            let x := readSlotO seeded (pairFst p)
            let y := readSlotO seeded (pairSnd p)
            (priorityOf x ≠ priorityOf y) &&
              ((x = none ∧ y ≠ none) ∨ (y = none ∧ x ≠ none))) with
        | some donorPriority =>
          let dA := pairFst donorPriority
          let dB := pairSnd donorPriority
          let donorTeam :=
            if (readSlotO seeded dA).isSome && priorityOf (readSlotO seeded dA)
            then readSlotO seeded dA else readSlotO seeded dB
          let donorIdx := if donorTeam = readSlotO seeded dA then dA else dB
          writeSlotO (writeSlotO seeded targetEmptyIdx donorTeam) donorIdx none
        | none => seeded

/-- The priority-vs-bye pairs, as (priorityIdx, emptyIdx). -/
def priorityByePairs (bracketSize : Nat) (seeded : List (Option Team)) :
    List (Option Nat × Option Nat) :=
  (pairGroupsOf bracketSize).filterMap (fun pair =>
    let aIdx := pairFst pair
    let bIdx := pairSnd pair
    let a := readSlotO seeded aIdx
    let b := readSlotO seeded bIdx
    if priorityOf a ∧ b = none then some (aIdx, bIdx)
    else if priorityOf b ∧ a = none then some (bIdx, aIdx)
    else none)

/-- moveNonPriorityTo from `resolvePriorityByes`: fill `emptyIdx` from the
first pair that holds no priority team but at least one team. -/
def moveNonPriorityTo (bracketSize : Nat) (seeded : List (Option Team))
    (emptyIdx : Option Nat) : Bool × List (Option Team) :=
  match (pairGroupsOf bracketSize).find? (fun p =>
      let a := readSlotO seeded (pairFst p)
      let b := readSlotO seeded (pairSnd p)
      if priorityOf a || priorityOf b then false
      else decide (1 ≤ (if a.isSome then 1 else 0) + (if b.isSome then 1 else 0))) with
  | none => (false, seeded)
  | some donor =>
    let dA := pairFst donor
    let dB := pairSnd donor
    let donorIdx := if (readSlotO seeded dA).isSome then dA else dB
    match readSlotO seeded donorIdx with
    | none => (false, seeded)
    | some donorTeam =>
      (true, writeSlotO (writeSlotO seeded emptyIdx (some donorTeam)) donorIdx none)

/-- One call of `resolvePriorityByes` (the body of the fixpoint loop). -/
def resolvePriorityByesOnce (bracketSize : Nat) (seeded : List (Option Team)) :
    Bool × List (Option Team) :=
  let entries := priorityByePairs bracketSize seeded
  entries.foldl
    (fun acc entry =>
      let changed := acc.1
      let st := acc.2
      if (readSlotO st entry.2).isSome then acc
      else
        let filled := moveNonPriorityTo bracketSize st entry.2
        if filled.1 then (true, filled.2)
        else
          let others :=
            (priorityByePairs bracketSize st).filter (fun e => e.1 ≠ entry.1)
          match others.find? (fun e => e.1 ≠ entry.1) with
          | none => (changed, st)
          | some other =>
            (true, writeSlotO (writeSlotO st entry.2 (readSlotO st other.1)) other.1 none))
    (false, seeded)

/-- The `while (resolvePriorityByes())` loop.  Every changed call strictly
decreases the number of priority-vs-bye pairs (at most `bracketSize / 2`),
so the fuel `bracketSize + 2` is more than enough. -/
def resolveLoop (bracketSize : Nat) : Nat → List (Option Team) → List (Option Team)
  | 0, seeded => seeded
  | fuel + 1, seeded =>
    let r := resolvePriorityByesOnce bracketSize seeded
    if r.1 then resolveLoop bracketSize fuel r.2 else r.2

/-- The singleton (non-priority team + bye) pairs, as (filledIdx, emptyIdx). -/
def collapseSingles (bracketSize : Nat) (seeded : List (Option Team)) :
    List (Option Nat × Option Nat) :=
  (pairGroupsOf bracketSize).filterMap (fun pair =>
    let aIdx := pairFst pair
    let bIdx := pairSnd pair
    let a := readSlotO seeded aIdx
    let b := readSlotO seeded bIdx
    match a, b with
    | some ta, none => if ta.priority then none else some (aIdx, bIdx)
    | none, some tb => if tb.priority then none else some (bIdx, aIdx)
    | _, _ => none)

/-- The `while (singles.length >= 2)` loop inside `collapseNonPriorityByes`. -/
def collapseGo : List (Option Nat × Option Nat) → Bool → List (Option Team) →
    Bool × List (Option Team)
  | first :: second :: rest, changed, st =>
    (match readSlotO st second.1 with
     | none => collapseGo rest changed st
     | some teamToMove =>
       collapseGo rest true (writeSlotO (writeSlotO st first.2 (some teamToMove)) second.1 none))
  | _, changed, st => (changed, st)

/-- One call of `collapseNonPriorityByes`. -/
def collapseNonPriorityByesOnce (bracketSize : Nat) (seeded : List (Option Team)) :
    Bool × List (Option Team) :=
  collapseGo (collapseSingles bracketSize seeded) false seeded

/-- The `while (collapseNonPriorityByes())` loop.  A changed call pairs up all
current singletons, and creates none, so a second call already reaches the
fixpoint; `bracketSize + 2` is generous fuel. -/
def collapseLoop (bracketSize : Nat) : Nat → List (Option Team) → List (Option Team)
  | 0, seeded => seeded
  | fuel + 1, seeded =>
    let r := collapseNonPriorityByesOnce bracketSize seeded
    if r.1 then collapseLoop bracketSize fuel r.2 else r.2

/-- distributeByes from the source (it recomputes its own pair list from the
array length). -/
def distributeByes (seeded0 : List (Option Team)) : List (Option Team) :=
  let pairs := chunk (List.range seeded0.length) 2
  pairs.foldl
    (fun st pair =>
      let aIdx := pairFst pair
      let bIdx := pairSnd pair
      if (readSlotO st aIdx).isSome ∨ (readSlotO st bIdx).isSome then st
      else
        match pairs.find? (fun p =>
            (readSlotO st (pairFst p)).isSome && (readSlotO st (pairSnd p)).isSome) with
        | none => st
        | some donor =>
          let donorIdx := pairFst donor
          let moved := readSlotO st donorIdx
          writeSlotO (writeSlotO st donorIdx none) aIdx moved)
    seeded0

/-- All ordered index pairs (i, j) with i < j, in the nested-loop order of
the source. -/
def allIJ {α : Type} : List α → List (α × α)
  | [] => []
  | x :: xs => xs.map (fun y => (x, y)) ++ allIJ xs

/-- One call of `swapPriorityByes`: find the first two priority-vs-bye pairs
and write each pair's team into the other pair's empty slot.  (The source
does not clear the original slots, so the two teams end up duplicated.) -/
def swapPriorityByesOnce (bracketSize : Nat) (seeded : List (Option Team)) :
    Option (List (Option Team)) :=
  let pbp := (pairGroupsOf bracketSize).filter (fun pair =>
    let a := readSlotO seeded (pairFst pair)
    let b := readSlotO seeded (pairSnd pair)
    (priorityOf a ∧ b = none) ∨ (priorityOf b ∧ a = none))
  (allIJ pbp).findSome? (fun pq =>
    let a1 := pairFst pq.1
    let b1 := pairSnd pq.1
    let a2 := pairFst pq.2
    let b2 := pairSnd pq.2
    let team1 := match readSlotO seeded a1 with
      | some t => some t
      | none => readSlotO seeded b1
    let team2 := match readSlotO seeded a2 with
      | some t => some t
      | none => readSlotO seeded b2
    match team1, team2 with
    | some t1, some t2 =>
      let empty1 := if (readSlotO seeded a1).isSome then b1 else a1
      let empty2 := if (readSlotO seeded a2).isSome then b2 else a2
      some (writeSlotO (writeSlotO seeded empty1 (some t2)) empty2 (some t1))
    | _, _ => none)

/-- The `while (swapPriorityByes())` loop.  Every successful call turns two
priority-vs-bye pairs into full pairs, so the count (at most
`bracketSize / 2`) shrinks by two per iteration; `bracketSize + 2` is
generous fuel. -/
def swapLoop (bracketSize : Nat) : Nat → List (Option Team) → List (Option Team)
  | 0, seeded => seeded
  | fuel + 1, seeded =>
    match swapPriorityByesOnce bracketSize seeded with
    | some seeded2 => swapLoop bracketSize fuel seeded2
    | none => seeded

/-- pairScore from the source, as the triple
(priorityConflict, sameSchoolConflict, priorityWithBye). -/
def pairScore (seeded : List (Option Team)) (pair : List Nat) :
    Bool × Bool × Bool :=
  let a := readSlotO seeded (pairFst pair)
  let b := readSlotO seeded (pairSnd pair)
  (priorityOf a && priorityOf b,
   a.isSome && b.isSome && decide (baseKey a = baseKey b),
   (priorityOf a && b.isNone) || (priorityOf b && a.isNone))

/-- totalScore from the source:
(priorityConflicts, sameSchoolConflicts, priorityByes). -/
def totalScore (bracketSize : Nat) (seeded : List (Option Team)) :
    Nat × Nat × Nat :=
  ((pairGroupsOf bracketSize).countP (fun p => (pairScore seeded p).1),
   (pairGroupsOf bracketSize).countP (fun p => (pairScore seeded p).2.1),
   (pairGroupsOf bracketSize).countP (fun p => (pairScore seeded p).2.2))

/-- The strict lexicographic improvement test of `tryImprovePairs`. -/
def scoreImproved (newScore curr : Nat × Nat × Nat) : Bool :=
  decide (newScore.1 < curr.1) ||
    (decide (newScore.1 = curr.1) && decide (newScore.2.1 < curr.2.1)) ||
    (decide (newScore.1 = curr.1) && decide (newScore.2.1 = curr.2.1) &&
      decide (newScore.2.2 < curr.2.2))

/-- The slot-index pairs visited by the nested loops of `tryImprovePairs`,
in source order: pair i, then idx1 over its two slots, then pair j > i,
then idx2 over its two slots. -/
def swapTargets : List (List Nat) → List (Option Nat × Option Nat)
  | [] => []
  | p :: rest =>
    (([pairFst p, pairSnd p].map (fun idx1 =>
        (rest.map (fun q => [(idx1, pairFst q), (idx1, pairSnd q)])).flatten)).flatten)
      ++ swapTargets rest

/-- One search of `tryImprovePairs`: the first swap whose resulting score is a
strict lexicographic improvement, if any.  The two `continue` guards are kept
literally: since `team1?.priority` already requires `team1` to exist,
`dest2Empty` (defined as `!team1`) is then false, so they never fire. -/
def tryImprovePairsStep (bracketSize : Nat) (seeded : List (Option Team)) :
    Option (List (Option Team)) :=
  let curr := totalScore bracketSize seeded
  (swapTargets (pairGroupsOf bracketSize)).findSome? (fun c =>
    if c.1 = c.2 then none
    else
      let team1 := readSlotO seeded c.1
      let team2 := readSlotO seeded c.2
      let dest1Empty := team2 = none
      let dest2Empty := team1 = none
      if priorityOf team1 ∧ dest2Empty then none
      else if priorityOf team2 ∧ dest1Empty then none
      else
        let swapped := writeSlotO (writeSlotO seeded c.1 team2) c.2 team1
        if scoreImproved (totalScore bracketSize swapped) curr then some swapped
        else none)

/-- The bound `B` used to pack a score triple into one natural number. -/
def scoreBase (bracketSize : Nat) : Nat := (pairGroupsOf bracketSize).length + 1

/-- The packed (lexicographic) value of the current total score. -/
def scoreNat (bracketSize : Nat) (seeded : List (Option Team)) : Nat :=
  let s := totalScore bracketSize seeded
  (s.1 * scoreBase bracketSize + s.2.1) * scoreBase bracketSize + s.2.2

theorem totalScore_le (bracketSize : Nat) (seeded : List (Option Team)) :
    (totalScore bracketSize seeded).1 ≤ (pairGroupsOf bracketSize).length ∧
      (totalScore bracketSize seeded).2.1 ≤ (pairGroupsOf bracketSize).length ∧
      (totalScore bracketSize seeded).2.2 ≤ (pairGroupsOf bracketSize).length := by
  refine ⟨?_, ?_, ?_⟩ <;> exact List.countP_le_length _

theorem digitLt {P x y u v : Nat} (hu : u ≤ P) (h : x < y) :
    x * (P + 1) + u < y * (P + 1) + v := by
  have h1 : x * (P + 1) + u < (x + 1) * (P + 1) := by
    have : (x + 1) * (P + 1) = x * (P + 1) + (P + 1) := by ring
    omega
  have h2 : (x + 1) * (P + 1) ≤ y * (P + 1) := Nat.mul_le_mul_right _ h
  omega

theorem lexPack_lt {P a b c a2 b2 c2 : Nat} (hb2 : b2 ≤ P) (hc2 : c2 ≤ P)
    (h : (a2 < a ∨ (a2 = a ∧ b2 < b)) ∨ ((a2 = a ∧ b2 = b) ∧ c2 < c)) :
    (a2 * (P + 1) + b2) * (P + 1) + c2 < (a * (P + 1) + b) * (P + 1) + c := by
  rcases h with (h | ⟨h1, h2⟩) | ⟨⟨h1, h2⟩, h3⟩
  · exact digitLt hc2 (digitLt hb2 h)
  · rw [h1]
    exact digitLt hc2 (Nat.add_lt_add_left h2 _)
  · rw [h1, h2]
    exact Nat.add_lt_add_left h3 _

theorem findSome?_exists {α β : Type} {f : α → Option β} :
    ∀ {l : List α} {b : β}, l.findSome? f = some b → ∃ a, a ∈ l ∧ f a = some b := by
  intro l
  induction l with
  | nil => intro b h; simp [List.findSome?] at h
  | cons x xs ih =>
    intro b h
    cases hx : f x with
    | some v =>
      refine ⟨x, List.mem_cons_self x xs, ?_⟩
      rw [hx]
      rw [List.findSome?_cons, hx] at h
      exact h
    | none =>
      rw [List.findSome?_cons, hx] at h
      obtain ⟨a, ha, hfa⟩ := ih h
      exact ⟨a, List.mem_cons_of_mem x ha, hfa⟩

/-- Accepted swaps of the local search strictly decrease the packed
lexicographic score, which is bounded below by zero: the termination measure
stated in the specification. -/
theorem tryImprovePairsStep_decreases {bracketSize : Nat}
    {seeded seeded2 : List (Option Team)}
    (h : tryImprovePairsStep bracketSize seeded = some seeded2) :
    scoreNat bracketSize seeded2 < scoreNat bracketSize seeded := by
  obtain ⟨c, _, hc⟩ := findSome?_exists h
  simp only at hc
  by_cases h1 : c.1 = c.2
  · simp [h1] at hc
  rw [if_neg h1] at hc
  have g1 : ¬(priorityOf (readSlotO seeded c.1) = true ∧ readSlotO seeded c.1 = none) := by
    rintro ⟨hp, he⟩
    rw [he] at hp
    simp [priorityOf] at hp
  have g2 : ¬(priorityOf (readSlotO seeded c.2) = true ∧ readSlotO seeded c.2 = none) := by
    rintro ⟨hp, he⟩
    rw [he] at hp
    simp [priorityOf] at hp
  rw [if_neg g1, if_neg g2] at hc
  by_cases h4 : scoreImproved
      (totalScore bracketSize
        (writeSlotO (writeSlotO seeded c.1 (readSlotO seeded c.2)) c.2 (readSlotO seeded c.1)))
      (totalScore bracketSize seeded) = true
  · rw [if_pos h4] at hc
    have hs := Option.some.inj hc
    rw [← hs]
    have hle := totalScore_le bracketSize
      (writeSlotO (writeSlotO seeded c.1 (readSlotO seeded c.2)) c.2 (readSlotO seeded c.1))
    have hle0 := totalScore_le bracketSize seeded
    unfold scoreImproved at h4
    simp only [Bool.or_eq_true, Bool.and_eq_true, decide_eq_true_eq] at h4
    unfold scoreNat scoreBase
    exact lexPack_lt hle.2.1 hle.2.2 h4
  · rw [if_neg h4] at hc
    simp at hc

/-- The `while (tryImprovePairs())` loop, fuelled.  By
`tryImprovePairsStep_decreases` every iteration strictly decreases the packed
score, so the fuel `scoreNat bracketSize seeded + 1` passed by `seedTeams`
always reaches the fixpoint (`improveLoopF_fixpoint` below proves this). -/
def improveLoopF (bracketSize : Nat) : Nat → List (Option Team) → List (Option Team)
  | 0, seeded => seeded
  | fuel + 1, seeded =>
    match tryImprovePairsStep bracketSize seeded with
    | none => seeded
    | some seeded2 => improveLoopF bracketSize fuel seeded2

/-- The fuelled local-search loop really terminates: with fuel exceeding the
packed score it reaches a state in which no improving swap exists, because
every accepted swap strictly decreases the score, which is bounded below by
zero. -/
theorem improveLoopF_fixpoint (bracketSize : Nat) :
    ∀ (fuel : Nat) (seeded : List (Option Team)), scoreNat bracketSize seeded < fuel →
      tryImprovePairsStep bracketSize (improveLoopF bracketSize fuel seeded) = none := by
  intro fuel
  induction fuel with
  | zero => intro seeded h; omega
  | succ f ih =>
    intro seeded h
    rw [improveLoopF]
    cases hs : tryImprovePairsStep bracketSize seeded with
    | none => simpa using hs
    | some seeded2 =>
      have hlt := tryImprovePairsStep_decreases hs
      exact ih seeded2 (by omega)

/-- seedTeams from the source: greedy placement followed by the repair and
optimization passes. -/
def seedTeams (sortedTeams : List Team) (bracketSize : Nat) : List (Option Team) :=
  let s0 : List (Option Team) := List.replicate bracketSize none
  let s1 := (sortedTeams.filter (fun t => t.priority)).foldl
    (fun st t => placeTeam bracketSize st t PlaceMode.priority) s0
  let s2 := (sortedTeams.filter (fun t => !t.priority)).foldl
    (fun st t => placeTeam bracketSize st t PlaceMode.nonPriority) s1
  let s3 := (pairGroupsOf bracketSize).foldl (donorPassStep bracketSize) s2
  let s4 := resolveLoop bracketSize (bracketSize + 2) s3
  let s5 := collapseLoop bracketSize (bracketSize + 2) s4
  let s6 := distributeByes s5
  let s7 := swapLoop bracketSize (bracketSize + 2) s6
  improveLoopF bracketSize (scoreNat bracketSize s7 + 1) s7

/-! ### The bracket builder (`generateBracket`) -/

/-- findNextMatch from the source: the first match of the next round whose
slot is the parent slot. -/
def findNextMatch (ms : List Match) (round slot : Nat) : Option Match :=
  ms.find? (fun m => m.round = round + 1 ∧ m.slot = slot / 2)

/-- Replace the first list element satisfying `p` (the JavaScript pattern of
mutating the object returned by `Array.prototype.find`). -/
def updFirst (p : Match → Bool) (f : Match → Match) : List Match → List Match
  | [] => []
  | m :: ms => if p m then f m :: ms else m :: updFirst p f ms

/-- Record a winner on a match. -/
def withWinner (m : Match) (w : Option EntryId) : Match :=
  ⟨m.id, m.round, m.slot, m.teamAId, m.teamBId, w⟩

/-- The two occupant fields of a match. -/
inductive SlotKey where
  | A : SlotKey
  | B : SlotKey
deriving DecidableEq, Repr

/-- Read an occupant field. -/
def getKey (m : Match) : SlotKey → Option EntryId
  | SlotKey.A => m.teamAId
  | SlotKey.B => m.teamBId

/-- Write an occupant field. -/
def setKey (k : SlotKey) (v : Option EntryId) (m : Match) : Match :=
  match k with
  | SlotKey.A => ⟨m.id, m.round, m.slot, v, m.teamBId, m.winnerId⟩
  | SlotKey.B => ⟨m.id, m.round, m.slot, m.teamAId, v, m.winnerId⟩

/-- The occupant key a feeder writes in its parent: A for an even feeder
slot, B for an odd one. -/
def targetKeyFor (slot : Nat) : SlotKey :=
  if slot % 2 = 0 then SlotKey.A else SlotKey.B

/-- The opposite occupant key. -/
def otherKey : SlotKey → SlotKey
  | SlotKey.A => SlotKey.B
  | SlotKey.B => SlotKey.A

/-- The predicate locating the parent of a match at (round, slot). -/
def isNextOf (round slot : Nat) (m : Match) : Bool :=
  m.round = round + 1 ∧ m.slot = slot / 2

/-- clearDownstream from the source, fuelled.  Each recursive step moves to a
strictly larger round at which a match exists, so at most one step per match
can happen and the fuel `matches.length + 1` passed by all callers always
reaches the natural end of the chain. -/
def clearDownstream : Nat → List Match → Nat → Nat → Bool → List Match
  | 0, st, _, _, _ => st
  | fuel + 1, st, round, slot, clearSlot =>
    match findNextMatch st round slot with
    | none => st
    | some _ =>
      let st1 := if clearSlot then updFirst (isNextOf round slot) (setKey (targetKeyFor slot) none) st
        else st
      let st2 := updFirst (isNextOf round slot) (fun m => withWinner m none) st1
      clearDownstream fuel st2 (round + 1) (slot / 2) true

/-- Clear the winner of the parent of (round, slot) and cascade from there
(the `next.winnerId = undefined; clearDownstream(updated, next, false)`
statements of the source). -/
def clearParentAndCascade (r s : Nat) (st : List Match) : List Match :=
  let cleared := updFirst (isNextOf r s) (fun m => withWinner m none) st
  clearDownstream (cleared.length + 1) cleared (r + 1) (s / 2) false

/-- The stale-parent-winner check of `propagateWinner` (line
`next.winnerId && next.winnerId !== next.teamAId && ...`). -/
def staleParentWinner (r s : Nat) (st : List Match) : Bool :=
  match findNextMatch st r s with
  | some nx =>
    decide (nx.winnerId ≠ none) && decide (nx.winnerId ≠ nx.teamAId) &&
      decide (nx.winnerId ≠ nx.teamBId)
  | none => false

/-- The stale-parent-winner fix of `propagateWinner`. -/
def coreStaleFix (r s : Nat) (mut2 : Bool) (st3 : List Match) : Bool × List Match :=
  if staleParentWinner r s st3 then (true, clearParentAndCascade r s st3)
  else (mut2, st3)

/-- The self-opponent rejection of `propagateWinner` (manual mode only). -/
def coreSelfFix (r s : Nat) (w : EntryId) (auto : Bool) (opponent : Option EntryId)
    (acc : Bool × List Match) : Bool × List Match :=
  if !auto && opponent.isSome && decide (opponent = some w) then
    (true, clearParentAndCascade r s acc.2)
  else acc

/-- The part of `propagateWinner`'s body that runs once the parent match is
known to exist: write the winner into the parent slot, clear downstream
results that depended on a different previous occupant, then the
stale-winner and self-opponent fixes. -/
def corePhase2 (r s : Nat) (w : EntryId) (auto mut1 : Bool) (next1 : Match)
    (st1 : List Match) : Bool × List Match :=
  let targetKey := targetKeyFor s
  let previousValue := getKey next1 targetKey
  let st1b :=
    if previousValue ≠ some w then updFirst (isNextOf r s) (setKey targetKey (some w)) st1
    else st1
  let mut2 : Bool := mut1 || decide (previousValue ≠ some w)
  let opponent :=
    match findNextMatch st1b r s with
    | some nx => getKey nx (otherKey targetKey)
    | none => none
  -- New winner changes downstream brackets: keep placement but clear later winners.
  let st3 :=
    if previousValue ≠ some w then clearDownstream (st1b.length + 1) st1b r s false
    else st1b
  coreSelfFix r s w auto opponent (coreStaleFix r s mut2 st3)

/-- The mutation phase of `propagateWinner` (everything before the final
auto-advance sweep), returning

* whether execution reached the end of the body (the source returns early
  when the match is unknown, when a winner is being cleared, and when the
  match has no parent; only the fall-through path runs the sweep),
* the `mutated` flag,
* the updated snapshot (equal to the input when nothing mutated, matching
  the source's `mutated ? updated : matches`).

The source's `maybeAutoAdvance(match)` call is omitted because it invokes
`propagateWinner` on a copy-on-write snapshot and discards the returned
array, so it cannot affect `updated`. -/
def propagateWinnerCore (ms : List Match) (matchId : Nat)
    (winnerId : Option EntryId) (auto : Bool) : Bool × Bool × List Match :=
  match ms.find? (fun m => m.id = matchId) with
  | none => (false, false, ms)
  | some m0 =>
    let r := m0.round
    let s := m0.slot
    let isTarget := fun (m : Match) => decide (m.id = matchId)
    match winnerId with
    | none =>
      -- Clearing a winner: remove downstream placements and winners.
      if m0.winnerId ≠ none then
        let st1 := updFirst isTarget (fun m => withWinner m none) ms
        let st2 :=
          match findNextMatch st1 r s with
          | some _ => clearDownstream (st1.length + 1) st1 r s true
          | none => st1
        (false, true, st2)
      else (false, false, ms)
    | some w =>
      let mut1 : Bool := decide (m0.winnerId ≠ some w)
      let st1 :=
        if m0.winnerId ≠ some w then updFirst isTarget (fun m => withWinner m (some w)) ms
        else ms
      match findNextMatch st1 r s with
      | none => (false, mut1, st1)
      | some next1 =>
        let res := corePhase2 r s w auto mut1 next1 st1
        (true, res.1, res.2)

/-- feederHasTeams from `propagateAutoAdvances`, reading the current
snapshot.  `sideA` selects the feeder slot `slot * 2` (side A) or
`slot * 2 + 1` (side B). -/
def feederHasTeams (updated : List Match) (round slot : Nat) (sideA : Bool) : Bool :=
  let feederSlot := slot * 2 + (if sideA then 0 else 1)
  match updated.find? (fun m => m.round + 1 = round ∧ m.slot = feederSlot) with
  | none => false
  | some feeder => feeder.teamAId.isSome || feeder.teamBId.isSome

/-- The solo occupant of a stale match, if any (the `solo` value of
`propagateAutoAdvances`). -/
def soloOf (m : Match) : Option EntryId :=
  if m.teamAId.isSome ∧ m.teamBId = none then m.teamAId
  else if m.teamAId = none ∧ m.teamBId.isSome then m.teamBId
  else none

/-- The `passAuto` value of `propagateAutoAdvances`: the real side opposite
a pass sentinel, when it is not already the recorded winner. -/
def passAutoOf (m : Match) : Option EntryId :=
  if m.teamAId = some PASS_ID ∧ m.teamBId.isSome ∧ m.winnerId ≠ m.teamBId ∧
      ¬ isPass m.teamBId then m.teamBId
  else if m.teamBId = some PASS_ID ∧ m.teamAId.isSome ∧ m.winnerId ≠ m.teamAId ∧
      ¬ isPass m.teamAId then m.teamAId
  else none

/-- The `missingSide` value of `propagateAutoAdvances` (`some true` when
side A is the missing one). -/
def missingSideAOf (m : Match) : Option Bool :=
  if m.teamAId.isSome ∧ m.teamBId = none then some false
  else if m.teamAId = none ∧ m.teamBId.isSome then some true
  else none

/-- Which automatic call (if any) one `propagateAutoAdvances` iteration
makes for the stale match `m`, given the current snapshot `st`: the winner
argument of the `propagateWinner(updated, match.id, …, true, false)` call.
The conditions are evaluated on the stale match object of the pass-start
snapshot (the source's `forEach` keeps iterating the original array), while
the feeder lookups use the current snapshot. -/
def autoPassDecision (st : List Match) (m : Match) : Option (Option EntryId) :=
  let waitingFeeder :=
    match missingSideAOf m with
    | some sideA => feederHasTeams st m.round m.slot sideA
    | none => false
  let feedersPresent :=
    feederHasTeams st m.round m.slot true || feederHasTeams st m.round m.slot false
  if (m.teamAId = none ∧ m.teamBId = none) ∧ m.winnerId = none ∧
      feedersPresent = false then
    some (some PASS_ID)
  else if (soloOf m).isSome ∧ m.winnerId = none ∧ waitingFeeder = false then
    some (soloOf m)
  else if (passAutoOf m).isSome ∧ m.winnerId = none ∧ waitingFeeder = false then
    some (passAutoOf m)
  else none

/-- One element step of a `propagateAutoAdvances` pass. -/
def autoPassStep (acc : Bool × List Match) (m : Match) : Bool × List Match :=
  match autoPassDecision acc.2 m with
  | some w => (true, (propagateWinnerCore acc.2 m.id w true).2.2)
  | none => acc

/-- One pass of `propagateAutoAdvances`: fold over the pass-start snapshot,
threading the current snapshot, with the changed flag. -/
def propagateAutoAdvancesPass (st : List Match) : Bool × List Match :=
  st.foldl autoPassStep (false, st)

/-- propagateAutoAdvances from the source, fuelled.  Informally every effect
of a pass flows to strictly larger rounds, so the number of passes that can
change anything is bounded by the number of distinct rounds; the call sites
pass `2 * length + 4`, far beyond that. -/
def propagateAutoAdvances : Nat → List Match → List Match
  | 0, st => st
  | fuel + 1, st =>
    let p := propagateAutoAdvancesPass st
    if p.1 then propagateAutoAdvances fuel p.2 else st

/-- The scan inside one `settlePassChains` iteration: find the first match
with a recorded winner whose re-propagation mutates the snapshot (the
source detects mutation via `res !== updated`), and return the mutated
snapshot. -/
def settleScan : List Match → List Match → Option (List Match)
  | [], _ => none
  | m :: rest, st =>
    if m.winnerId = none then settleScan rest st
    else
      let c := propagateWinnerCore st m.id m.winnerId true
      if c.2.1 then some c.2.2 else settleScan rest st

/-- The iteration loop of `settlePassChains`, counting outer iterations
exactly as the source does. -/
def settleGo : Nat → List Match → List Match
  | 0, st => st
  | n + 1, st =>
    match settleScan st st with
    | none => st
    | some st2 => settleGo n st2

/-- settlePassChains from the source, with its own iteration cap
`matches.length * 4 || 8`. -/
def settlePassChains (ms : List Match) : List Match :=
  let maxIterations := if ms.length * 4 = 0 then 8 else ms.length * 4
  settleGo maxIterations ms

/-- propagateWinner from the source, with its optional arguments explicit
(the source defaults are `auto = false`, `sweep = true`).  On the
fall-through path with `sweep` set, the source's final no-op test
`!mutated && result === updated` can never succeed, because
`propagateAutoAdvances` always returns a fresh array (`[...matches]`), so
the sweep result is returned unconditionally. -/
def propagateWinner (ms : List Match) (matchId : Nat)
    (winnerId : Option EntryId) (auto sweep : Bool) : List Match :=
  let c := propagateWinnerCore ms matchId winnerId auto
  if c.1 && sweep then
    settlePassChains (propagateAutoAdvances (2 * c.2.2.length + 4) c.2.2)
  else if c.2.1 then c.2.2 else ms

/-- The public winner-setting entry point (`propagateWinner` with the
source's default arguments), the spec's `setMatchWinner`. -/
def setMatchWinner (ms : List Match) (matchId : Nat)
    (winnerId : Option EntryId) : List Match :=
  propagateWinner ms matchId winnerId false true

/-- The spec's `clearMatchWinner`: `propagateWinner` with an undefined
winner. -/
def clearMatchWinner (ms : List Match) (matchId : Nat) : List Match :=
  propagateWinner ms matchId none false true

/-- The round-`round` matches created by one iteration of the
`while (teamsInRound > 1)` loop, with sequential ids from `baseId`. -/
def buildRoundMatches (seeded : List (Option Team)) (round matchCount baseId : Nat) :
    List Match :=
  (List.range matchCount).map (fun slot =>
    let index := slot * 2
    let teamA := if round = 1 then readSlot seeded index else none
    let teamB := if round = 1 then readSlot seeded (index + 1) else none
    ⟨baseId + slot, round, slot,
      teamA.map (fun t => EntryId.team t.id), teamB.map (fun t => EntryId.team t.id), none⟩)

/-- The body of `buildLoop`, structurally recursive on a fuel that bounds
`teamsInRound` (`Math.ceil(t / 2) ≤ t - 1` whenever `t ≥ 2`). -/
def buildLoopGo (seeded : List (Option Team)) : Nat → Nat → Nat → Nat → List Match
  | 0, _, _, _ => []
  | fuel + 1, teamsInRound, round, baseId =>
    if teamsInRound > 1 then
      let matchCount := (teamsInRound + 1) / 2
      buildRoundMatches seeded round matchCount baseId ++
        buildLoopGo seeded fuel matchCount (round + 1) (baseId + matchCount)
    else []

/-- The `while (teamsInRound > 1)` loop of `generateBracket`
(`matchCount = Math.ceil(teamsInRound / 2)` and the next round has
`matchCount` teams). -/
def buildLoop (seeded : List (Option Team)) (teamsInRound round baseId : Nat) :
    List Match :=
  buildLoopGo seeded teamsInRound teamsInRound round baseId

/-- trimTrailingRounds from the source: its `while (true)` loop breaks
unconditionally in its first iteration, so it returns a copy of its input. -/
def trimTrailingRounds (ms : List Match) : List Match := ms

/-- The deduplication of `generateBracket`: keep the first team for each
normalized name key. -/
def dedupeTeams (teams : List Team) : List Team :=
  (teams.foldl
    (fun acc t =>
      let key := normalizeName t.name
      if key ∈ acc.1 then acc else (key :: acc.1, acc.2 ++ [t]))
    (([] : List (List Char)), ([] : List Team))).2

/-- generateBracket from the source. -/
def generateBracket (teams : List Team) : List Match :=
  if teams = [] then []
  else
    let uniqueTeams := dedupeTeams teams
    let deDupedTeams := if uniqueTeams = [] then teams else uniqueTeams
    let sortedTeams := sortByC cmpTeams deDupedTeams
    let bracketSize := nextPowerOfTwo sortedTeams.length
    let seededTeams := seedTeams sortedTeams bracketSize
    let built := buildLoop seededTeams bracketSize 1 0
    trimTrailingRounds (settlePassChains (propagateAutoAdvances (2 * built.length + 4) built))

/-! ### The consolation-bracket effect (`App`) -/

/-- The round-1 losers of the primary bracket, in match order (`App`'s
`losers`). -/
def roundOneLosers (ms : List Match) : List EntryId :=
  (ms.filter (fun m => m.round = 1)).filterMap (fun m =>
    match m.teamAId, m.teamBId, m.winnerId with
    | some a, some b, some w => some (if w = a then b else a)
    | _, _, _ => none)

/-- `App`'s `loserTeams`: resolve the loser ids against the team list,
dropping unknown ids. -/
def loserTeamsOf (teams : List Team) (losers : List EntryId) : List Team :=
  losers.filterMap (fun id => teams.find? (fun t => EntryId.team t.id = id))

/-- The team ids occupying the previous consolation snapshot (`App`'s
`prevIds` set). -/
def prevOccupantIds (prev : List Match) : Finset EntryId :=
  ((prev.map (fun m => [m.teamAId, m.teamBId])).flatten.filterMap (fun x => x)).toFinset

/-- The `setConsolationMatches` updater of `App`: keep the previous
consolation bracket when it is nonempty and its occupant ids form the same
set as the current losers; otherwise regenerate from the loser teams. -/
def consolationUpdater (losers : List EntryId) (loserTeams : List Team)
    (prev : List Match) : List Match :=
  let prevIds := prevOccupantIds prev
  let loserIds := losers.toFinset
  let sameSet := prevIds.card = loserIds.card ∧ prevIds ⊆ loserIds
  if prev ≠ [] ∧ sameSet then prev else generateBracket loserTeams

/-- The whole consolation `useEffect` body of `App` (an empty loser list
clears the consolation bracket before the updater is reached). -/
def consolationEffect (ms : List Match) (teams : List Team)
    (prev : List Match) : List Match :=
  let losers := roundOneLosers ms
  if losers = [] then []
  else consolationUpdater losers (loserTeamsOf teams losers) prev

/-! ### Concrete example data -/

/-- Entrant A, not priority. -/
def exTeamA : Team := ⟨1, ['A'], false⟩

/-- Entrant B, not priority. -/
def exTeamB : Team := ⟨2, ['B'], false⟩

/-- Entrant C, not priority. -/
def exTeamC : Team := ⟨3, ['C'], false⟩

/-- Entrant D, not priority. -/
def exTeamD : Team := ⟨4, ['D'], false⟩

/-- Entrant E, not priority. -/
def exTeamE : Team := ⟨5, ['E'], false⟩

/-- Entrant A, priority. -/
def exPrioA : Team := ⟨1, ['A'], true⟩

/-- Entrant B, priority. -/
def exPrioB : Team := ⟨2, ['B'], true⟩

/-- Entrant C, priority. -/
def exPrioC : Team := ⟨3, ['C'], true⟩

/-- Entrant D, priority. -/
def exPrioD : Team := ⟨4, ['D'], true⟩

/-- Entrant E, priority. -/
def exPrioE : Team := ⟨5, ['E'], true⟩

/-- The spec's example entrant list: five entrants, none priority. -/
def exFive : List Team := [exTeamA, exTeamB, exTeamC, exTeamD, exTeamE]

/-- Five entrants, all priority (the failing input of C2). -/
def exFivePriority : List Team := [exPrioA, exPrioB, exPrioC, exPrioD, exPrioE]

/-- Three priority entrants plus two others (the failing input of C5). -/
def exMixed : List Team := [exPrioA, exPrioB, exPrioC, exTeamD, exTeamE]

/-- A conflict-free round-1 layout for `exMixed`: each priority entrant in
its own pair, so no two priority entrants are paired. -/
def exMixedGoodLayout : List (Option Team) :=
  [some exPrioA, some exTeamD, some exPrioB, some exTeamE,
   some exPrioC, none, none, none]

/-- A one-match snapshot used to exercise an invalid winner id. -/
def exSoloSnapshot : List Match :=
  [⟨0, 1, 0, some (EntryId.team 1), some (EntryId.team 2), none⟩]

/-- A snapshot on which `setMatchWinner` is not idempotent: match 2 is
decided but its result was never written into its parent (match 4), whose
other feeder does not exist. -/
def exStaleSnapshot : List Match :=
  [⟨1, 1, 0, some (EntryId.team 1), some (EntryId.team 2), none⟩,
   ⟨2, 1, 2, some (EntryId.team 3), some (EntryId.team 4), some (EntryId.team 3)⟩,
   ⟨3, 2, 0, none, none, none⟩,
   ⟨4, 2, 1, none, none, none⟩]

/-- A settled one-match snapshot whose winner is already recorded. -/
def exSettledSnapshot : List Match :=
  [⟨0, 1, 0, some (EntryId.team 7), some (EntryId.team 8), some (EntryId.team 7)⟩]

/-! ### Helper lemmas about the propagation engine -/

theorem mem_updFirst {q : Match → Bool} {f : Match → Match} :
    ∀ {l : List Match} {x : Match}, x ∈ updFirst q f l → ∃ m ∈ l, x = m ∨ x = f m := by
  intro l
  induction l with
  | nil => intro x h; simp [updFirst] at h
  | cons m ms ih =>
    intro x h
    rw [updFirst] at h
    by_cases hq : q m
    · rw [if_pos hq] at h
      rcases List.mem_cons.mp h with h | h
      · exact ⟨m, List.mem_cons_self m ms, Or.inr h⟩
      · exact ⟨x, List.mem_cons_of_mem m h, Or.inl rfl⟩
    · rw [if_neg hq] at h
      rcases List.mem_cons.mp h with h | h
      · exact ⟨m, List.mem_cons_self m ms, Or.inl h⟩
      · obtain ⟨m2, hm2, hx⟩ := ih h
        exact ⟨m2, List.mem_cons_of_mem m hm2, hx⟩

theorem findNextMatch_updFirst_none {l : List Match} {q : Match → Bool}
    {f : Match → Match} {r s : Nat}
    (hf : ∀ m, (f m).round = m.round ∧ (f m).slot = m.slot)
    (h : findNextMatch l r s = none) :
    findNextMatch (updFirst q f l) r s = none := by
  rw [findNextMatch, List.find?_eq_none]
  rw [findNextMatch, List.find?_eq_none] at h
  intro x hx
  obtain ⟨m, hm, hxm⟩ := mem_updFirst hx
  have := h m hm
  rcases hxm with rfl | rfl
  · exact this
  · simpa [decide_eq_true_eq, (hf m).1, (hf m).2] using this

theorem updFirst_ne_of_find {q : Match → Bool} {f : Match → Match} :
    ∀ {l : List Match} {m0 : Match}, l.find? q = some m0 → f m0 ≠ m0 →
      updFirst q f l ≠ l := by
  intro l
  induction l with
  | nil => intro m0 h _; simp at h
  | cons m ms ih =>
    intro m0 h hne
    by_cases hq : q m
    · rw [List.find?_cons_of_pos _ hq] at h
      have hm : m = m0 := Option.some.inj h
      rw [updFirst, if_pos hq]
      intro hcontra
      have h2 := (List.cons.injEq _ _ _ _).mp hcontra
      rw [hm] at h2
      exact hne h2.1
    · rw [List.find?_cons_of_neg _ hq] at h
      rw [updFirst, if_neg hq]
      intro hcontra
      have := (List.cons.injEq _ _ _ _).mp hcontra
      exact ih h hne this.2

theorem withWinner_ne {m : Match} {w : Option EntryId} (h : w ≠ m.winnerId) :
    withWinner m w ≠ m := by
  cases m
  simp [withWinner]
  intro hcontra
  exact h (by simp [hcontra])

theorem coreStaleFix_not_mutated {r s : Nat} {mut2 : Bool} {st : List Match}
    (h : (coreStaleFix r s mut2 st).1 = false) :
    mut2 = false ∧ (coreStaleFix r s mut2 st).2 = st := by
  unfold coreStaleFix at h ⊢
  by_cases hc : staleParentWinner r s st = true
  · rw [if_pos hc] at h
    simp at h
  · rw [if_neg hc] at h ⊢
    exact ⟨h, rfl⟩

theorem coreSelfFix_not_mutated {r s : Nat} {w : EntryId} {auto : Bool}
    {opponent : Option EntryId} {acc : Bool × List Match}
    (h : (coreSelfFix r s w auto opponent acc).1 = false) :
    coreSelfFix r s w auto opponent acc = acc := by
  unfold coreSelfFix at h ⊢
  by_cases hc : (!auto && opponent.isSome && decide (opponent = some w)) = true
  · rw [if_pos hc] at h
    simp at h
  · rw [if_neg hc]

theorem corePhase2_not_mutated {r s : Nat} {w : EntryId} {auto mut1 : Bool}
    {next1 : Match} {st1 : List Match}
    (h : (corePhase2 r s w auto mut1 next1 st1).1 = false) :
    mut1 = false ∧ (corePhase2 r s w auto mut1 next1 st1).2 = st1 := by
  simp only [corePhase2] at h ⊢
  by_cases hprev : getKey next1 (targetKeyFor s) ≠ some w
  · rw [if_pos hprev] at h
    have hself := coreSelfFix_not_mutated h
    rw [hself] at h
    have := (coreStaleFix_not_mutated h).1
    simp at this
    exact absurd this.2 hprev
  · simp only [if_neg hprev] at h ⊢
    have hself := coreSelfFix_not_mutated h
    rw [hself] at h ⊢
    have hstale := coreStaleFix_not_mutated h
    rw [hstale.2]
    refine ⟨?_, rfl⟩
    have := hstale.1
    simp at this
    exact this.1

/-- A flag of `false` from the mutation phase means the snapshot came back
untouched (the source's `mutated ? updated : matches`). -/
theorem core_not_mutated {ms : List Match} {mId : Nat} {w : Option EntryId}
    {auto : Bool} (h : (propagateWinnerCore ms mId w auto).2.1 = false) :
    (propagateWinnerCore ms mId w auto).2.2 = ms := by
  unfold propagateWinnerCore at h ⊢
  cases hf : ms.find? (fun m => decide (m.id = mId)) with
  | none => rfl
  | some m0 =>
    rw [hf] at h
    dsimp only at h ⊢
    cases w with
    | none =>
      dsimp only at h ⊢
      by_cases hw : m0.winnerId ≠ none
      · rw [if_pos hw] at h
        simp at h
      · rw [if_neg hw]
    | some wv =>
      dsimp only at h ⊢
      by_cases hw : m0.winnerId ≠ some wv
      · simp only [if_pos hw] at h ⊢
        cases hnx : findNextMatch
            (updFirst (fun m => decide (m.id = mId)) (fun m => withWinner m (some wv)) ms)
            m0.round m0.slot with
        | none =>
          rw [hnx] at h
          simp [hw] at h
        | some nx =>
          rw [hnx] at h
          dsimp only at h
          have := (corePhase2_not_mutated h).1
          simp [hw] at this
      · simp only [if_neg hw] at h ⊢
        cases hnx : findNextMatch ms m0.round m0.slot with
        | none =>
          simp only [hnx]
        | some nx =>
          simp only [hnx] at h ⊢
          have h2 := (corePhase2_not_mutated h).2
          rw [h2]

/-- A pass that reports no change leaves the fuelled recursion at its
input. -/
theorem propagateAutoAdvances_stable {ms : List Match}
    (h : (propagateAutoAdvancesPass ms).1 = false) :
    ∀ fuel, propagateAutoAdvances fuel ms = ms := by
  intro fuel
  cases fuel with
  | zero => rfl
  | succ f =>
    rw [propagateAutoAdvances]
    simp [h]

/-- A scan that finds nothing to re-propagate leaves `settlePassChains` at
its input. -/
theorem settlePassChains_stable {ms : List Match} (h : settleScan ms ms = none) :
    settlePassChains ms = ms := by
  rw [settlePassChains]
  cases hmi : (if ms.length * 4 = 0 then 8 else ms.length * 4) with
  | zero => rfl
  | succ n =>
    rw [settleGo, h]

/-- A layout with an improving swap, used to exercise the local-search
measure. -/
def exSeedBefore : List (Option Team) :=
  [some exPrioA, some exPrioB, some exTeamD, none]

/-- The layout the local search produces from `exSeedBefore` in one step. -/
def exSeedAfter : List (Option Team) :=
  [some exTeamD, some exPrioB, some exPrioA, none]

/-- A previous consolation snapshot occupied by teams 1 and 2. -/
def exPrevConsolation : List Match :=
  [⟨0, 1, 0, some (EntryId.team 1), some (EntryId.team 2), none⟩]

/-! ### Shape preservation: the propagation engine never changes the number
of matches nor any match's id, round or slot. -/

/-- The immutable part of a match. -/
def shape (m : Match) : Nat × Nat × Nat := (m.id, m.round, m.slot)

theorem shape_withWinner (m : Match) (w : Option EntryId) :
    shape (withWinner m w) = shape m := by
  cases m
  rfl

theorem shape_setKey (k : SlotKey) (v : Option EntryId) (m : Match) :
    shape (setKey k v m) = shape m := by
  cases m
  cases k <;> rfl

theorem updFirst_map_shape {q : Match → Bool} {f : Match → Match}
    (hf : ∀ m, shape (f m) = shape m) :
    ∀ l : List Match, (updFirst q f l).map shape = l.map shape := by
  intro l
  induction l with
  | nil => rfl
  | cons m ms ih =>
    rw [updFirst]
    by_cases hq : q m
    · rw [if_pos hq]
      simp [hf m]
    · rw [if_neg hq]
      simp [ih]

theorem clearDownstream_map_shape :
    ∀ (fuel : Nat) (st : List Match) (r s : Nat) (b : Bool),
      (clearDownstream fuel st r s b).map shape = st.map shape := by
  intro fuel
  induction fuel with
  | zero => intro st r s b; rfl
  | succ f ih =>
    intro st r s b
    rw [clearDownstream]
    cases findNextMatch st r s with
    | none => rfl
    | some nx =>
      dsimp only
      rw [ih]
      rw [updFirst_map_shape (fun m => shape_withWinner m _)]
      by_cases hb : b = true
      · rw [if_pos hb, updFirst_map_shape (shape_setKey _ _)]
      · rw [if_neg hb]

theorem clearParentAndCascade_map_shape (r s : Nat) (st : List Match) :
    (clearParentAndCascade r s st).map shape = st.map shape := by
  unfold clearParentAndCascade
  rw [clearDownstream_map_shape, updFirst_map_shape (fun m => shape_withWinner m _)]

theorem coreStaleFix_map_shape (r s : Nat) (mut2 : Bool) (st : List Match) :
    (coreStaleFix r s mut2 st).2.map shape = st.map shape := by
  unfold coreStaleFix
  by_cases hc : staleParentWinner r s st = true
  · rw [if_pos hc]
    exact clearParentAndCascade_map_shape r s st
  · rw [if_neg hc]

theorem coreSelfFix_map_shape (r s : Nat) (w : EntryId) (auto : Bool)
    (opponent : Option EntryId) (acc : Bool × List Match) :
    (coreSelfFix r s w auto opponent acc).2.map shape = acc.2.map shape := by
  unfold coreSelfFix
  by_cases hc : (!auto && opponent.isSome && decide (opponent = some w)) = true
  · rw [if_pos hc]
    exact clearParentAndCascade_map_shape r s acc.2
  · rw [if_neg hc]

theorem corePhase2_map_shape (r s : Nat) (w : EntryId) (auto mut1 : Bool)
    (next1 : Match) (st1 : List Match) :
    (corePhase2 r s w auto mut1 next1 st1).2.map shape = st1.map shape := by
  unfold corePhase2
  rw [coreSelfFix_map_shape, coreStaleFix_map_shape]
  by_cases hp : getKey next1 (targetKeyFor s) ≠ some w
  · simp only [if_pos hp]
    rw [clearDownstream_map_shape, updFirst_map_shape (shape_setKey _ _)]
  · simp only [if_neg hp]

theorem core_map_shape (ms : List Match) (mId : Nat) (w : Option EntryId)
    (auto : Bool) :
    (propagateWinnerCore ms mId w auto).2.2.map shape = ms.map shape := by
  unfold propagateWinnerCore
  cases hf : ms.find? (fun m => decide (m.id = mId)) with
  | none => rfl
  | some m0 =>
    dsimp only
    cases w with
    | none =>
      dsimp only
      by_cases hw : m0.winnerId ≠ none
      · rw [if_pos hw]
        dsimp only
        cases findNextMatch
            (updFirst (fun m => decide (m.id = mId)) (fun m => withWinner m none) ms)
            m0.round m0.slot with
        | none => exact updFirst_map_shape (fun m => shape_withWinner m _) ms
        | some nx =>
          dsimp only
          rw [clearDownstream_map_shape]
          exact updFirst_map_shape (fun m => shape_withWinner m _) ms
      · rw [if_neg hw]
    | some wv =>
      dsimp only
      have hst1 : (if m0.winnerId ≠ some wv then
          updFirst (fun m => decide (m.id = mId)) (fun m => withWinner m (some wv)) ms
        else ms).map shape = ms.map shape := by
        by_cases hw : m0.winnerId ≠ some wv
        · rw [if_pos hw]
          exact updFirst_map_shape (fun m => shape_withWinner m _) ms
        · rw [if_neg hw]
      cases findNextMatch
          (if m0.winnerId ≠ some wv then
            updFirst (fun m => decide (m.id = mId)) (fun m => withWinner m (some wv)) ms
          else ms) m0.round m0.slot with
      | none => exact hst1
      | some nx =>
        dsimp only
        rw [corePhase2_map_shape]
        exact hst1

theorem autoPassStep_map_shape (acc : Bool × List Match) (m : Match) :
    (autoPassStep acc m).2.map shape = acc.2.map shape := by
  unfold autoPassStep
  cases autoPassDecision acc.2 m with
  | none => rfl
  | some w => exact core_map_shape _ _ _ _

theorem foldl_autoPassStep_map_shape :
    ∀ (l : List Match) (acc : Bool × List Match),
      ((l.foldl autoPassStep acc).2).map shape = acc.2.map shape := by
  intro l
  induction l with
  | nil => intro acc; rfl
  | cons m ms ih =>
    intro acc
    rw [List.foldl_cons, ih, autoPassStep_map_shape]

theorem propagateAutoAdvancesPass_map_shape (st : List Match) :
    (propagateAutoAdvancesPass st).2.map shape = st.map shape := by
  unfold propagateAutoAdvancesPass
  exact foldl_autoPassStep_map_shape st (false, st)

theorem propagateAutoAdvances_map_shape :
    ∀ (fuel : Nat) (st : List Match),
      (propagateAutoAdvances fuel st).map shape = st.map shape := by
  intro fuel
  induction fuel with
  | zero => intro st; rfl
  | succ f ih =>
    intro st
    rw [propagateAutoAdvances]
    by_cases hc : (propagateAutoAdvancesPass st).1 = true
    · rw [if_pos hc, ih, propagateAutoAdvancesPass_map_shape]
    · rw [if_neg hc]

theorem settleScan_map_shape :
    ∀ (scan : List Match) (st st2 : List Match), settleScan scan st = some st2 →
      st2.map shape = st.map shape := by
  intro scan
  induction scan with
  | nil => intro st st2 h; simp [settleScan] at h
  | cons m rest ih =>
    intro st st2 h
    rw [settleScan] at h
    by_cases hw : m.winnerId = none
    · rw [if_pos hw] at h
      exact ih st st2 h
    · rw [if_neg hw] at h
      dsimp only at h
      by_cases hmut : (propagateWinnerCore st m.id m.winnerId true).2.1 = true
      · rw [if_pos hmut] at h
        cases h
        exact core_map_shape st m.id m.winnerId true
      · rw [if_neg hmut] at h
        exact ih st st2 h

theorem settleGo_map_shape :
    ∀ (fuel : Nat) (st : List Match), (settleGo fuel st).map shape = st.map shape := by
  intro fuel
  induction fuel with
  | zero => intro st; rfl
  | succ n ih =>
    intro st
    rw [settleGo]
    cases hs : settleScan st st with
    | none => rfl
    | some st2 =>
      rw [ih, settleScan_map_shape st st st2 hs]

theorem settlePassChains_map_shape (ms : List Match) :
    (settlePassChains ms).map shape = ms.map shape := by
  unfold settlePassChains
  exact settleGo_map_shape _ ms

/-! ### The structure of the freshly built bracket -/

theorem buildRoundMatches_filter_slot (seeded : List (Option Team)) :
    ∀ (l : List Nat) (r b R : Nat),
      (((l.map (fun slot =>
          (⟨b + slot, r, slot,
            (if r = 1 then readSlot seeded (slot * 2) else none).map
              (fun t => EntryId.team t.id),
            (if r = 1 then readSlot seeded (slot * 2 + 1) else none).map
              (fun t => EntryId.team t.id), none⟩ : Match)))).filter
        (fun m => m.round = R)).map Match.slot = if R = r then l else [] := by
  intro l
  induction l with
  | nil =>
    intro r b R
    by_cases h : R = r <;> simp [h]
  | cons x xs ih =>
    intro r b R
    by_cases h : R = r
    · subst h
      have hxs := ih R b R
      rw [if_pos rfl] at hxs
      simp [List.filter_cons, hxs]
    · have hxs := ih r b R
      rw [if_neg h] at hxs
      have hne : ¬ (r = R) := fun hc => h hc.symm
      simp [List.filter_cons, hne, hxs, h]

theorem buildRoundMatches_eq_map (seeded : List (Option Team))
    (r mc b : Nat) :
    buildRoundMatches seeded r mc b =
      (List.range mc).map (fun slot =>
        (⟨b + slot, r, slot,
          (if r = 1 then readSlot seeded (slot * 2) else none).map
            (fun t => EntryId.team t.id),
          (if r = 1 then readSlot seeded (slot * 2 + 1) else none).map
            (fun t => EntryId.team t.id), none⟩ : Match)) := by
  unfold buildRoundMatches
  refine List.map_congr_left ?_
  intro slot _
  dsimp only

theorem two_pow_succ_div (k e : Nat) :
    2 ^ (k + 1) / 2 ^ (e + 1) = 2 ^ k / 2 ^ e := by
  rw [pow_succ, pow_succ]
  rw [Nat.mul_comm (2 ^ k) 2, Nat.mul_comm (2 ^ e) 2]
  exact Nat.mul_div_mul_left _ _ (by omega)

theorem buildLoopGo_filter (seeded : List (Option Team)) :
    ∀ (k fuel r b R : Nat), 2 ^ k ≤ fuel →
      ((buildLoopGo seeded fuel (2 ^ k) r b).filter (fun m => m.round = R)).map
          Match.slot =
        if r ≤ R then List.range (2 ^ k / 2 ^ (R - r + 1)) else [] := by
  intro k
  induction k with
  | zero =>
    intro fuel r b R hfuel
    cases fuel with
    | zero => omega
    | succ f =>
      rw [buildLoopGo, pow_zero]
      rw [if_neg (by omega : ¬ (1 > 1))]
      have hz : (1 : Nat) / 2 ^ (R - r + 1) = 0 := by
        have heq : (2 : Nat) ^ (R - r + 1) = 2 * 2 ^ (R - r) := by
          rw [pow_succ]
          ring
        have hp : 0 < (2 : Nat) ^ (R - r) := pow_pos (by omega) _
        exact Nat.div_eq_of_lt (by omega)
      by_cases h : r ≤ R
      · rw [if_pos h, hz]
        rfl
      · rw [if_neg h]
        rfl
  | succ k ih =>
    intro fuel r b R hfuel
    have hdouble : 2 ^ (k + 1) = 2 * 2 ^ k := by
      rw [pow_succ]
      ring
    have hpk : 0 < 2 ^ k := pow_pos (by omega) _
    have h2 : 2 ^ (k + 1) > 1 := by omega
    cases fuel with
    | zero => omega
    | succ f =>
      rw [buildLoopGo]
      rw [if_pos h2]
      have hmc : (2 ^ (k + 1) + 1) / 2 = 2 ^ k := by omega
      rw [hmc]
      have hfuel2 : 2 ^ k ≤ f := by omega
      rw [List.filter_append, List.map_append]
      rw [ih f (r + 1) (b + 2 ^ k) R hfuel2]
      rw [buildRoundMatches_eq_map]
      rw [buildRoundMatches_filter_slot]
      by_cases hRr : R = r
      · rw [if_pos hRr]
        rw [if_neg (by omega : ¬ (r + 1 ≤ R))]
        rw [if_pos (by omega : r ≤ R)]
        rw [(by omega : R - r + 1 = 1)]
        rw [pow_one]
        rw [(by omega : 2 ^ (k + 1) / 2 = 2 ^ k)]
        rw [List.append_nil]
      · rw [if_neg hRr]
        by_cases hle : r ≤ R
        · rw [if_pos (by omega : r + 1 ≤ R), if_pos hle]
          rw [List.nil_append]
          rw [(by omega : R - (r + 1) + 1 = R - r)]
          rw [(by omega : R - r + 1 = (R - r) + 1)]
          rw [two_pow_succ_div k (R - r)]
        · rw [if_neg hle, if_neg (by omega : ¬ (r + 1 ≤ R))]
          simp

theorem buildLoopGo_length (seeded : List (Option Team)) :
    ∀ (k fuel r b : Nat), 2 ^ k ≤ fuel →
      (buildLoopGo seeded fuel (2 ^ k) r b).length = 2 ^ k - 1 := by
  intro k
  induction k with
  | zero =>
    intro fuel r b hfuel
    cases fuel with
    | zero => omega
    | succ f =>
      rw [buildLoopGo, pow_zero]
      rw [if_neg (by omega : ¬ (1 > 1))]
      rfl
  | succ k ih =>
    intro fuel r b hfuel
    have hdouble : 2 ^ (k + 1) = 2 * 2 ^ k := by
      rw [pow_succ]
      ring
    have hpk : 0 < 2 ^ k := pow_pos (by omega) _
    cases fuel with
    | zero => omega
    | succ f =>
      rw [buildLoopGo]
      rw [if_pos (by omega : 2 ^ (k + 1) > 1)]
      have hmc : (2 ^ (k + 1) + 1) / 2 = 2 ^ k := by omega
      rw [hmc]
      rw [List.length_append]
      rw [ih f (r + 1) (b + 2 ^ k) (by omega)]
      have hbr : (buildRoundMatches seeded r (2 ^ k) b).length = 2 ^ k := by
        rw [buildRoundMatches_eq_map, List.length_map, List.length_range]
      rw [hbr]
      omega

theorem nextPowerOfTwoGo_pow (value : Nat) :
    ∀ (fuel acc : Nat), (∃ k, acc = 2 ^ k) →
      ∃ k, nextPowerOfTwoGo value fuel acc = 2 ^ k := by
  intro fuel
  induction fuel with
  | zero =>
    intro acc h
    exact h
  | succ f ih =>
    intro acc h
    rw [nextPowerOfTwoGo]
    by_cases hc : acc < value
    · rw [if_pos hc]
      obtain ⟨k, hk⟩ := h
      exact ih (acc * 2) ⟨k + 1, by rw [hk, pow_succ]⟩
    · rw [if_neg hc]
      exact h

theorem nextPowerOfTwo_pow (value : Nat) : ∃ k, nextPowerOfTwo value = 2 ^ k := by
  unfold nextPowerOfTwo
  by_cases h : value ≤ 1
  · rw [if_pos h]
    exact ⟨0, rfl⟩
  · rw [if_neg h]
    exact nextPowerOfTwoGo_pow value value 1 ⟨0, rfl⟩

theorem insertByC_length {α : Type} (cmp : α → α → Ordering) (x : α) :
    ∀ (l : List α), (insertByC cmp x l).length = l.length + 1 := by
  intro l
  induction l with
  | nil => rfl
  | cons y ys ih =>
    rw [insertByC]
    by_cases h : cmp x y = Ordering.gt
    · rw [if_pos h]
      simp [ih]
    · rw [if_neg h]
      rfl

theorem sortByC_length {α : Type} (cmp : α → α → Ordering) :
    ∀ (l : List α), (sortByC cmp l).length = l.length := by
  intro l
  induction l with
  | nil => rfl
  | cons x xs ih =>
    rw [sortByC, insertByC_length, ih]
    rfl

theorem dedupe_foldl_ne_nil (l : List Team) :
    ∀ (acc : List (List Char) × List Team), acc.2 ≠ [] →
      (l.foldl
        (fun acc t =>
          let key := normalizeName t.name
          if key ∈ acc.1 then acc else (key :: acc.1, acc.2 ++ [t])) acc).2 ≠ [] := by
  induction l with
  | nil =>
    intro acc h
    exact h
  | cons t ts ih =>
    intro acc h
    rw [List.foldl_cons]
    apply ih
    dsimp only
    by_cases hk : normalizeName t.name ∈ acc.1
    · rw [if_pos hk]
      exact h
    · rw [if_neg hk]
      simp

theorem dedupeTeams_ne_nil (teams : List Team) (h : teams ≠ []) :
    dedupeTeams teams ≠ [] := by
  cases teams with
  | nil => exact absurd rfl h
  | cons t ts =>
    unfold dedupeTeams
    rw [List.foldl_cons]
    apply dedupe_foldl_ne_nil
    dsimp only
    rw [if_neg (by simp : ¬ normalizeName t.name ∈ ([] : List (List Char)))]
    simp

theorem length_eq_of_map_shape (ms ms2 : List Match)
    (h : ms.map shape = ms2.map shape) : ms.length = ms2.length := by
  have := congrArg List.length h
  simpa using this

theorem filter_round_slot_eq_of_map_shape :
    ∀ (ms ms2 : List Match), ms.map shape = ms2.map shape →
      ∀ (R : Nat),
        ((ms.filter (fun m => m.round = R)).map Match.slot) =
          ((ms2.filter (fun m => m.round = R)).map Match.slot) := by
  intro ms
  induction ms with
  | nil =>
    intro ms2 h R
    cases ms2 with
    | nil => rfl
    | cons y ys => simp at h
  | cons x xs ih =>
    intro ms2 h R
    cases ms2 with
    | nil => simp at h
    | cons y ys =>
      simp only [List.map_cons, List.cons.injEq] at h
      obtain ⟨hxy, hrest⟩ := h
      have hround : x.round = y.round := congrArg (fun p => p.2.1) hxy
      have hslot : x.slot = y.slot := congrArg (fun p => p.2.2) hxy
      simp only [List.filter_cons]
      by_cases hc : x.round = R
      · rw [if_pos (decide_eq_true hc), if_pos (decide_eq_true (hround ▸ hc))]
        simp only [List.map_cons]
        rw [hslot, ih ys hrest R]
      · rw [if_neg (by simpa using hc),
          if_neg (by simpa using (fun hy => hc (hround ▸ hy) : ¬ y.round = R))]
        exact ih ys hrest R

/-! ### The auto-advance fixed point reached by `generateBracket` (C3)

The development below tracks the sweep that follows the builder.  Every
operation of the sweep is an `updFirst` write that preserves ids, rounds
and slots, so an evolved snapshot stays positionally aligned with the
freshly built bracket; on top of that alignment we prove an invariant:
once a round-1 match holding a single entrant has been auto-advanced, its
winner and its occupant entry in the parent match never change again. -/

theorem setKey_fields (k : SlotKey) (v : Option EntryId) (m : Match) :
    (setKey k v m).id = m.id ∧ (setKey k v m).round = m.round ∧
      (setKey k v m).slot = m.slot ∧ (setKey k v m).winnerId = m.winnerId := by
  cases k <;> exact ⟨rfl, rfl, rfl, rfl⟩

theorem withWinner_fields (m : Match) (w : Option EntryId) :
    (withWinner m w).id = m.id ∧ (withWinner m w).round = m.round ∧
      (withWinner m w).slot = m.slot ∧ (withWinner m w).teamAId = m.teamAId ∧
      (withWinner m w).teamBId = m.teamBId ∧ (withWinner m w).winnerId = w :=
  ⟨rfl, rfl, rfl, rfl, rfl, rfl⟩

theorem getKey_setKey_same (k : SlotKey) (v : Option EntryId) (m : Match) :
    getKey (setKey k v m) k = v := by
  cases k <;> rfl

theorem getKey_setKey_ne (k k2 : SlotKey) (v : Option EntryId) (m : Match)
    (h : k ≠ k2) : getKey (setKey k v m) k2 = getKey m k2 := by
  cases k <;> cases k2 <;> first | exact absurd rfl h | rfl

theorem getKey_withWinner (m : Match) (w : Option EntryId) (k : SlotKey) :
    getKey (withWinner m w) k = getKey m k := by
  cases k <;> rfl

theorem isNextOf_iff (round slot : Nat) (m : Match) :
    isNextOf round slot m = true ↔ m.round = round + 1 ∧ m.slot = slot / 2 := by
  simp [isNextOf]

theorem targetKeyFor_inj {s1 s2 : Nat} (hh : s1 / 2 = s2 / 2)
    (hk : targetKeyFor s1 = targetKeyFor s2) : s1 = s2 := by
  unfold targetKeyFor at hk
  by_cases h1 : s1 % 2 = 0 <;> by_cases h2 : s2 % 2 = 0
  · omega
  · rw [if_pos h1, if_neg h2] at hk
    exact absurd hk (by simp)
  · rw [if_neg h1, if_pos h2] at hk
    exact absurd hk (by simp)
  · omega

theorem updFirst_of_find_none (q : Match → Bool) (f : Match → Match) :
    ∀ (l : List Match), l.find? q = none → updFirst q f l = l := by
  intro l
  induction l with
  | nil => intro _; rfl
  | cons m ms ih =>
    intro h
    rw [updFirst]
    by_cases hq : q m
    · rw [List.find?_cons_of_pos _ hq] at h
      exact absurd h (by simp)
    · rw [List.find?_cons_of_neg _ hq] at h
      rw [if_neg hq, ih h]

theorem updFirst_decomp (q : Match → Bool) (f : Match → Match) :
    ∀ (l : List Match) (m0 : Match), l.find? q = some m0 →
      ∃ l1 l2, l = l1 ++ m0 :: l2 ∧ (∀ x ∈ l1, q x = false) ∧
        updFirst q f l = l1 ++ f m0 :: l2 := by
  intro l
  induction l with
  | nil => intro m0 h; simp at h
  | cons m ms ih =>
    intro m0 h
    by_cases hq : q m
    · rw [List.find?_cons_of_pos _ hq] at h
      refine ⟨[], ms, ?_, ?_, ?_⟩
      · simpa using Option.some.inj h
      · intro x hx
        simp at hx
      · rw [updFirst, if_pos hq]
        simpa using congrArg f (Option.some.inj h)
    · rw [List.find?_cons_of_neg _ hq] at h
      obtain ⟨l1, l2, hsplit, hl1, hupd⟩ := ih m0 h
      refine ⟨m :: l1, l2, ?_, ?_, ?_⟩
      · rw [List.cons_append, hsplit]
      · intro x hx
        rcases List.mem_cons.mp hx with rfl | hx
        · simpa using hq
        · exact hl1 x hx
      · rw [updFirst, if_neg hq, hupd, List.cons_append]

/-- Pointwise relation between a match of the freshly built bracket and its
positional counterpart in an evolved snapshot: the id, round and slot never
change, and for round-1 matches the occupants never change either. -/
def EvolRel (m0 m : Match) : Prop :=
  shape m = shape m0 ∧ (m0.round = 1 → m.teamAId = m0.teamAId ∧ m.teamBId = m0.teamBId)

/-- A snapshot `st` evolved from the built bracket `b` by sweep operations. -/
def Evolved (b st : List Match) : Prop := List.Forall₂ EvolRel b st

theorem evolRel_refl (m : Match) : EvolRel m m :=
  ⟨rfl, fun _ => ⟨rfl, rfl⟩⟩

theorem evolved_refl (l : List Match) : Evolved l l := by
  induction l with
  | nil => exact List.Forall₂.nil
  | cons m ms ih => exact List.Forall₂.cons (evolRel_refl m) ih

theorem evolRel_id {m0 m : Match} (h : EvolRel m0 m) : m.id = m0.id :=
  congrArg Prod.fst h.1

theorem evolRel_round {m0 m : Match} (h : EvolRel m0 m) : m.round = m0.round :=
  congrArg (fun p => p.2.1) h.1

theorem evolRel_slot {m0 m : Match} (h : EvolRel m0 m) : m.slot = m0.slot :=
  congrArg (fun p => p.2.2) h.1

theorem evolRel_solo {m0 m : Match} (h : EvolRel m0 m) (h1 : m0.round = 1) :
    soloOf m = soloOf m0 := by
  obtain ⟨ha, hb⟩ := h.2 h1
  unfold soloOf
  rw [ha, hb]

theorem evolved_map_shape {b st : List Match} (h : Evolved b st) :
    st.map shape = b.map shape := by
  induction h with
  | nil => rfl
  | cons hr _ ih =>
    simp only [List.map_cons, ih, List.cons.injEq]
    exact ⟨hr.1, trivial⟩

theorem evolved_mem_right {b st : List Match} (h : Evolved b st) :
    ∀ m ∈ st, ∃ m0 ∈ b, EvolRel m0 m := by
  induction h with
  | nil => intro m hm; simp at hm
  | cons hr _ ih =>
    intro m hm
    rcases List.mem_cons.mp hm with rfl | hm
    · exact ⟨_, List.mem_cons_self _ _, hr⟩
    · obtain ⟨m0, hm0, hrel⟩ := ih m hm
      exact ⟨m0, List.mem_cons_of_mem _ hm0, hrel⟩

theorem evolved_rounds {b st : List Match} (hb : ∀ m0 ∈ b, 1 ≤ m0.round)
    (h : Evolved b st) : ∀ m ∈ st, 1 ≤ m.round := by
  intro m hm
  obtain ⟨m0, hm0, hrel⟩ := evolved_mem_right h m hm
  rw [evolRel_round hrel]
  exact hb m0 hm0

theorem evolved_map_id {b st : List Match} (h : Evolved b st) :
    st.map Match.id = b.map Match.id := by
  have h1 : ∀ (l : List Match), l.map Match.id = (l.map shape).map Prod.fst := by
    intro l
    rw [List.map_map]
    exact List.map_congr_left (fun m _ => rfl)
  rw [h1, h1, evolved_map_shape h]

theorem evolved_map_pair {b st : List Match} (h : Evolved b st) :
    st.map (fun m => (m.round, m.slot)) = b.map (fun m => (m.round, m.slot)) := by
  have h1 : ∀ (l : List Match), l.map (fun m => (m.round, m.slot)) =
      (l.map shape).map (fun p => (p.2.1, p.2.2)) := by
    intro l
    rw [List.map_map]
    exact List.map_congr_left (fun m _ => rfl)
  rw [h1, h1, evolved_map_shape h]

theorem evolved_rel_of_id {b st : List Match} (hids : (b.map Match.id).Nodup)
    (hE : Evolved b st) :
    ∀ m0 ∈ b, ∀ m ∈ st, m.id = m0.id → EvolRel m0 m := by
  induction hE with
  | nil => intro m0 hm0; simp at hm0
  | @cons m0h mh bt stt hr htail ih =>
    intro m0 hm0 m hm hid
    rw [List.map_cons, List.nodup_cons] at hids
    rcases List.mem_cons.mp hm0 with rfl | hm0
    · rcases List.mem_cons.mp hm with rfl | hm
      · exact hr
      · exfalso
        apply hids.1
        rw [← hid]
        have hmap := evolved_map_id htail
        have hmem : m.id ∈ List.map Match.id stt := List.mem_map_of_mem Match.id hm
        rw [hmap] at hmem
        exact hmem
    · rcases List.mem_cons.mp hm with rfl | hm
      · exfalso
        apply hids.1
        rw [← evolRel_id hr, hid]
        exact List.mem_map_of_mem Match.id hm0
      · exact ih hids.2 m0 hm0 m hm hid

theorem evolved_find_id {b st : List Match} (hids : (b.map Match.id).Nodup)
    (hE : Evolved b st) :
    ∀ m0 ∈ b, ∃ mt, st.find? (fun m => m.id = m0.id) = some mt ∧ EvolRel m0 mt := by
  induction hE with
  | nil => intro m0 hm0; simp at hm0
  | @cons m0h mh bt stt hr htail ih =>
    intro m0 hm0
    rw [List.map_cons, List.nodup_cons] at hids
    rcases List.mem_cons.mp hm0 with rfl | hm0
    · refine ⟨mh, ?_, hr⟩
      rw [List.find?_cons_of_pos _ (by simpa using evolRel_id hr)]
    · have hne : ¬ (mh.id = m0.id) := by
        rw [evolRel_id hr]
        intro hcontra
        apply hids.1
        rw [hcontra]
        exact List.mem_map_of_mem Match.id hm0
      obtain ⟨mt, hfind, hrel⟩ := ih hids.2 m0 hm0
      refine ⟨mt, ?_, hrel⟩
      rw [List.find?_cons_of_neg _ (by simpa using hne), hfind]

theorem evolved_updFirst {b st : List Match} (p : Match → Bool) (f : Match → Match)
    (hE : Evolved b st)
    (hsh : ∀ m, shape (f m) = shape m)
    (hocc : ∀ m, p m = true → m.round = 1 →
      (f m).teamAId = m.teamAId ∧ (f m).teamBId = m.teamBId) :
    Evolved b (updFirst p f st) := by
  induction hE with
  | nil => exact List.Forall₂.nil
  | @cons m0h mh bt stt hr htail ih =>
    rw [updFirst]
    by_cases hq : p mh
    · rw [if_pos hq]
      refine List.Forall₂.cons ⟨(hsh mh).trans hr.1, ?_⟩ htail
      intro h1
      have hmh1 : mh.round = 1 := by rw [evolRel_round hr]; exact h1
      obtain ⟨ha, hb2⟩ := hocc mh hq hmh1
      obtain ⟨ha0, hb0⟩ := hr.2 h1
      exact ⟨ha.trans ha0, hb2.trans hb0⟩
    · rw [if_neg hq]
      exact List.Forall₂.cons hr ih

theorem clearDownstream_evolved {b : List Match} :
    ∀ (fuel : Nat) (st : List Match) (r s : Nat) (cs : Bool), 1 ≤ r →
      Evolved b st → Evolved b (clearDownstream fuel st r s cs) := by
  intro fuel
  induction fuel with
  | zero => intro st r s cs _ hE; exact hE
  | succ f ih =>
    intro st r s cs hr hE
    rw [clearDownstream]
    cases findNextMatch st r s with
    | none => exact hE
    | some nx =>
      dsimp only
      apply ih _ (r + 1) (s / 2) true (by omega)
      refine evolved_updFirst _ _ ?_ (fun m => shape_withWinner m none)
        (fun m _ _ => ⟨rfl, rfl⟩)
      by_cases hcs : cs = true
      · rw [if_pos hcs]
        apply evolved_updFirst _ _ hE (shape_setKey _ _)
        intro m hp h1
        have := ((isNextOf_iff r s m).mp hp).1
        omega
      · rw [if_neg hcs]
        exact hE

theorem clearParentAndCascade_evolved {b : List Match} (r s : Nat)
    (st : List Match) (hr : 1 ≤ r) (hE : Evolved b st) :
    Evolved b (clearParentAndCascade r s st) := by
  unfold clearParentAndCascade
  apply clearDownstream_evolved _ _ _ _ _ (by omega)
  exact evolved_updFirst _ _ hE (fun m => shape_withWinner m _)
    (fun m _ _ => ⟨rfl, rfl⟩)

theorem coreStaleFix_evolved {b : List Match} (r s : Nat) (mut2 : Bool)
    (st : List Match) (hr : 1 ≤ r) (hE : Evolved b st) :
    Evolved b (coreStaleFix r s mut2 st).2 := by
  unfold coreStaleFix
  by_cases hc : staleParentWinner r s st = true
  · rw [if_pos hc]
    exact clearParentAndCascade_evolved r s st hr hE
  · rw [if_neg hc]
    exact hE

theorem coreSelfFix_evolved {b : List Match} (r s : Nat) (w : EntryId)
    (auto : Bool) (opponent : Option EntryId) (acc : Bool × List Match)
    (hr : 1 ≤ r) (hE : Evolved b acc.2) :
    Evolved b (coreSelfFix r s w auto opponent acc).2 := by
  unfold coreSelfFix
  by_cases hc : (!auto && opponent.isSome && decide (opponent = some w)) = true
  · rw [if_pos hc]
    exact clearParentAndCascade_evolved r s acc.2 hr hE
  · rw [if_neg hc]
    exact hE

theorem corePhase2_evolved {b : List Match} (r s : Nat) (w : EntryId)
    (auto mut1 : Bool) (next1 : Match) (st1 : List Match) (hr : 1 ≤ r)
    (hE : Evolved b st1) :
    Evolved b (corePhase2 r s w auto mut1 next1 st1).2 := by
  unfold corePhase2
  apply coreSelfFix_evolved _ _ _ _ _ _ hr
  apply coreStaleFix_evolved _ _ _ _ hr
  by_cases hp : getKey next1 (targetKeyFor s) ≠ some w
  · simp only [if_pos hp]
    apply clearDownstream_evolved _ _ _ _ _ hr
    apply evolved_updFirst _ _ hE (shape_setKey _ _)
    intro m hpm h1
    have := ((isNextOf_iff r s m).mp hpm).1
    omega
  · simp only [if_neg hp]
    exact hE

theorem core_evolved {b : List Match} (ms : List Match) (mId : Nat)
    (w : Option EntryId) (auto : Bool)
    (hb1 : ∀ m0 ∈ b, 1 ≤ m0.round) (hE : Evolved b ms) :
    Evolved b (propagateWinnerCore ms mId w auto).2.2 := by
  unfold propagateWinnerCore
  cases hf : ms.find? (fun m => decide (m.id = mId)) with
  | none => exact hE
  | some m0 =>
    have hm0 : m0 ∈ ms := List.mem_of_find?_eq_some hf
    have hr : 1 ≤ m0.round := evolved_rounds hb1 hE m0 hm0
    dsimp only
    cases w with
    | none =>
      dsimp only
      by_cases hw : m0.winnerId ≠ none
      · rw [if_pos hw]
        dsimp only
        have hE1 : Evolved b
            (updFirst (fun m => decide (m.id = mId)) (fun m => withWinner m none) ms) :=
          evolved_updFirst _ _ hE (fun m => shape_withWinner m _) (fun m _ _ => ⟨rfl, rfl⟩)
        cases findNextMatch
            (updFirst (fun m => decide (m.id = mId)) (fun m => withWinner m none) ms)
            m0.round m0.slot with
        | none => exact hE1
        | some nx =>
          dsimp only
          exact clearDownstream_evolved _ _ _ _ _ hr hE1
      · rw [if_neg hw]
        exact hE
    | some wv =>
      dsimp only
      have hst1 : Evolved b (if m0.winnerId ≠ some wv then
          updFirst (fun m => decide (m.id = mId)) (fun m => withWinner m (some wv)) ms
        else ms) := by
        by_cases hw : m0.winnerId ≠ some wv
        · rw [if_pos hw]
          exact evolved_updFirst _ _ hE (fun m => shape_withWinner m _)
            (fun m _ _ => ⟨rfl, rfl⟩)
        · rw [if_neg hw]
          exact hE
      cases findNextMatch
          (if m0.winnerId ≠ some wv then
            updFirst (fun m => decide (m.id = mId)) (fun m => withWinner m (some wv)) ms
          else ms) m0.round m0.slot with
      | none => exact hst1
      | some nx =>
        dsimp only
        exact corePhase2_evolved _ _ _ _ _ _ _ hr hst1

/-- The winner recorded on the match with id `mid` stays `v`. -/
def WinClause (st : List Match) (mid : Nat) (v : Option EntryId) : Prop :=
  ∀ m ∈ st, m.id = mid → m.winnerId = v

/-- The occupant entry written by the round-1 feeder at slot `s` into its
round-2 parent stays `v`. -/
def KeyClause (st : List Match) (s : Nat) (v : Option EntryId) : Prop :=
  ∀ p ∈ st, p.round = 2 → p.slot = s / 2 → getKey p (targetKeyFor s) = v

/-- The id `mid` belongs to a round-1 match. -/
def IdRound1 (st : List Match) (mid : Nat) : Prop :=
  ∀ m ∈ st, m.id = mid → m.round = 1

theorem mem_updFirst_strong {q : Match → Bool} {f : Match → Match} :
    ∀ {l : List Match} {x : Match}, x ∈ updFirst q f l →
      x ∈ l ∨ ∃ m ∈ l, q m = true ∧ x = f m := by
  intro l
  induction l with
  | nil => intro x h; simp [updFirst] at h
  | cons m ms ih =>
    intro x h
    rw [updFirst] at h
    by_cases hq : q m
    · rw [if_pos hq] at h
      rcases List.mem_cons.mp h with rfl | h
      · exact Or.inr ⟨m, List.mem_cons_self m ms, hq, rfl⟩
      · exact Or.inl (List.mem_cons_of_mem m h)
    · rw [if_neg hq] at h
      rcases List.mem_cons.mp h with rfl | h
      · exact Or.inl (List.mem_cons_self x ms)
      · rcases ih h with h | ⟨m2, hm2, hq2, hx⟩
        · exact Or.inl (List.mem_cons_of_mem m h)
        · exact Or.inr ⟨m2, List.mem_cons_of_mem m hm2, hq2, hx⟩

theorem evolved_mem_left {b st : List Match} (h : Evolved b st) :
    ∀ m0 ∈ b, ∃ m ∈ st, EvolRel m0 m := by
  induction h with
  | nil => intro m0 hm0; simp at hm0
  | @cons m0h mh bt stt hr htail ih =>
    intro m0 hm0
    rcases List.mem_cons.mp hm0 with rfl | hm0
    · exact ⟨mh, List.mem_cons_self _ _, hr⟩
    · obtain ⟨m, hm, hrel⟩ := ih m0 hm0
      exact ⟨m, List.mem_cons_of_mem _ hm, hrel⟩

theorem idRound1_updFirst {st : List Match} {mid : Nat} (p : Match → Bool)
    (f : Match → Match)
    (hpres : ∀ m, (f m).id = m.id ∧ (f m).round = m.round)
    (h : IdRound1 st mid) : IdRound1 (updFirst p f st) mid := by
  intro m hm hid
  rcases mem_updFirst_strong hm with hm | ⟨x, hx, _, rfl⟩
  · exact h m hm hid
  · rw [(hpres x).2]
    exact h x hx (by rw [← (hpres x).1]; exact hid)

theorem winClause_updFirst {st : List Match} {mid : Nat} {v : Option EntryId}
    (p : Match → Bool) (f : Match → Match)
    (h : WinClause st mid v)
    (hid : ∀ m, (f m).id = m.id)
    (hf : ∀ m ∈ st, p m = true → m.id = mid → (f m).winnerId = v) :
    WinClause (updFirst p f st) mid v := by
  intro m hm hmid
  rcases mem_updFirst_strong hm with hm | ⟨x, hx, hq, rfl⟩
  · exact h m hm hmid
  · exact hf x hx hq (by rw [← hid x]; exact hmid)

theorem keyClause_updFirst {st : List Match} {s0 : Nat} {v : Option EntryId}
    (p : Match → Bool) (f : Match → Match)
    (h : KeyClause st s0 v)
    (hrs : ∀ m, (f m).round = m.round ∧ (f m).slot = m.slot)
    (hf : ∀ m ∈ st, p m = true → m.round = 2 → m.slot = s0 / 2 →
      getKey (f m) (targetKeyFor s0) = v) :
    KeyClause (updFirst p f st) s0 v := by
  intro m hm h2 hs
  rcases mem_updFirst_strong hm with hm | ⟨x, hx, hq, rfl⟩
  · exact h m hm h2 hs
  · exact hf x hx hq (by rw [← (hrs x).1]; exact h2) (by rw [← (hrs x).2]; exact hs)

theorem idRound1_clearDownstream {mid : Nat} :
    ∀ (fuel : Nat) (st : List Match) (r s : Nat) (cs : Bool),
      IdRound1 st mid → IdRound1 (clearDownstream fuel st r s cs) mid := by
  intro fuel
  induction fuel with
  | zero => intro st r s cs h; exact h
  | succ f ih =>
    intro st r s cs h
    rw [clearDownstream]
    cases findNextMatch st r s with
    | none => exact h
    | some nx =>
      dsimp only
      apply ih
      apply idRound1_updFirst _ _
        (fun m => ⟨(withWinner_fields m none).1, (withWinner_fields m none).2.1⟩)
      by_cases hcs : cs = true
      · rw [if_pos hcs]
        exact idRound1_updFirst _ _
          (fun m => ⟨(setKey_fields _ _ m).1, (setKey_fields _ _ m).2.1⟩) h
      · rw [if_neg hcs]
        exact h

theorem winClause_clearDownstream {mid : Nat} {v : Option EntryId} :
    ∀ (fuel : Nat) (st : List Match) (r s : Nat) (cs : Bool), 1 ≤ r →
      IdRound1 st mid → WinClause st mid v →
      WinClause (clearDownstream fuel st r s cs) mid v := by
  intro fuel
  induction fuel with
  | zero => intro st r s cs _ _ h; exact h
  | succ f ih =>
    intro st r s cs hr hidr h
    rw [clearDownstream]
    cases findNextMatch st r s with
    | none => exact h
    | some nx =>
      dsimp only
      have hst1 : IdRound1 (if cs = true then
          updFirst (isNextOf r s) (setKey (targetKeyFor s) none) st else st) mid ∧
          WinClause (if cs = true then
          updFirst (isNextOf r s) (setKey (targetKeyFor s) none) st else st) mid v := by
        by_cases hcs : cs = true
        · rw [if_pos hcs]
          refine ⟨idRound1_updFirst _ _
            (fun m => ⟨(setKey_fields _ _ m).1, (setKey_fields _ _ m).2.1⟩) hidr, ?_⟩
          refine winClause_updFirst _ _ h (fun m => (setKey_fields _ _ m).1) ?_
          intro m hm _ hmid
          rw [(setKey_fields _ _ m).2.2.2]
          exact h m hm hmid
        · rw [if_neg hcs]
          exact ⟨hidr, h⟩
      apply ih _ (r + 1) (s / 2) true (by omega)
      · exact idRound1_updFirst _ _
          (fun m => ⟨(withWinner_fields m none).1, (withWinner_fields m none).2.1⟩) hst1.1
      · refine winClause_updFirst _ _ hst1.2 (fun m => (withWinner_fields m none).1) ?_
        intro m hm hq hmid
        exfalso
        have h1 := ((isNextOf_iff r s m).mp hq).1
        have h2 := hst1.1 m hm hmid
        omega

theorem keyClause_clearDownstream {s0 : Nat} {v : Option EntryId} :
    ∀ (fuel : Nat) (st : List Match) (r s : Nat) (cs : Bool),
      1 ≤ r → (cs = true → 2 ≤ r) →
      KeyClause st s0 v → KeyClause (clearDownstream fuel st r s cs) s0 v := by
  intro fuel
  induction fuel with
  | zero => intro st r s cs _ _ h; exact h
  | succ f ih =>
    intro st r s cs hr hcs2 h
    rw [clearDownstream]
    cases findNextMatch st r s with
    | none => exact h
    | some nx =>
      dsimp only
      have hst1 : KeyClause (if cs = true then
          updFirst (isNextOf r s) (setKey (targetKeyFor s) none) st else st) s0 v := by
        by_cases hcs : cs = true
        · rw [if_pos hcs]
          refine keyClause_updFirst _ _ h
            (fun m => ⟨(setKey_fields _ _ m).2.1, (setKey_fields _ _ m).2.2.1⟩) ?_
          intro m hm hq h2 _
          exfalso
          have h1 := ((isNextOf_iff r s m).mp hq).1
          have := hcs2 hcs
          omega
        · rw [if_neg hcs]
          exact h
      apply ih _ (r + 1) (s / 2) true (by omega) (by omega)
      refine keyClause_updFirst _ _ hst1
        (fun m => ⟨(withWinner_fields m none).2.1, (withWinner_fields m none).2.2.1⟩) ?_
      intro m hm _ h2 hs2
      rw [getKey_withWinner]
      exact hst1 m hm h2 hs2

theorem idRound1_cpc {mid : Nat} (r s : Nat) (st : List Match)
    (h : IdRound1 st mid) : IdRound1 (clearParentAndCascade r s st) mid := by
  unfold clearParentAndCascade
  apply idRound1_clearDownstream
  exact idRound1_updFirst _ _
    (fun m => ⟨(withWinner_fields m none).1, (withWinner_fields m none).2.1⟩) h

theorem winClause_cpc {mid : Nat} {v : Option EntryId} (r s : Nat)
    (st : List Match) (hr : 1 ≤ r) (hidr : IdRound1 st mid)
    (h : WinClause st mid v) :
    WinClause (clearParentAndCascade r s st) mid v := by
  unfold clearParentAndCascade
  have hidr1 : IdRound1 (updFirst (isNextOf r s) (fun m => withWinner m none) st) mid :=
    idRound1_updFirst _ _
      (fun m => ⟨(withWinner_fields m none).1, (withWinner_fields m none).2.1⟩) hidr
  apply winClause_clearDownstream _ _ (r + 1) (s / 2) false (by omega) hidr1
  refine winClause_updFirst _ _ h (fun m => (withWinner_fields m none).1) ?_
  intro m hm hq hmid
  exfalso
  have h1 := ((isNextOf_iff r s m).mp hq).1
  have h2 := hidr m hm hmid
  omega

theorem keyClause_cpc {s0 : Nat} {v : Option EntryId} (r s : Nat)
    (st : List Match) (hr : 1 ≤ r) (h : KeyClause st s0 v) :
    KeyClause (clearParentAndCascade r s st) s0 v := by
  unfold clearParentAndCascade
  apply keyClause_clearDownstream _ _ (r + 1) (s / 2) false (by omega) (by simp)
  refine keyClause_updFirst _ _ h
    (fun m => ⟨(withWinner_fields m none).2.1, (withWinner_fields m none).2.2.1⟩) ?_
  intro m hm _ h2 hs2
  rw [getKey_withWinner]
  exact h m hm h2 hs2

theorem idRound1_staleFix {mid : Nat} (r s : Nat) (mut2 : Bool) (st : List Match)
    (h : IdRound1 st mid) : IdRound1 (coreStaleFix r s mut2 st).2 mid := by
  unfold coreStaleFix
  by_cases hc : staleParentWinner r s st = true
  · rw [if_pos hc]
    exact idRound1_cpc r s st h
  · rw [if_neg hc]
    exact h

theorem coreStaleFix_clauses {mid s0 : Nat} {v : Option EntryId} (r s : Nat)
    (mut2 : Bool) (st : List Match) (hr : 1 ≤ r) (hidr : IdRound1 st mid)
    (hW : WinClause st mid v) (hK : KeyClause st s0 v) :
    WinClause (coreStaleFix r s mut2 st).2 mid v ∧
      KeyClause (coreStaleFix r s mut2 st).2 s0 v := by
  unfold coreStaleFix
  by_cases hc : staleParentWinner r s st = true
  · rw [if_pos hc]
    exact ⟨winClause_cpc r s st hr hidr hW, keyClause_cpc r s st hr hK⟩
  · rw [if_neg hc]
    exact ⟨hW, hK⟩

theorem coreSelfFix_clauses {mid s0 : Nat} {v : Option EntryId} (r s : Nat)
    (w : EntryId) (auto : Bool) (opponent : Option EntryId)
    (acc : Bool × List Match) (hr : 1 ≤ r) (hidr : IdRound1 acc.2 mid)
    (hW : WinClause acc.2 mid v) (hK : KeyClause acc.2 s0 v) :
    WinClause (coreSelfFix r s w auto opponent acc).2 mid v ∧
      KeyClause (coreSelfFix r s w auto opponent acc).2 s0 v := by
  unfold coreSelfFix
  by_cases hc : (!auto && opponent.isSome && decide (opponent = some w)) = true
  · rw [if_pos hc]
    exact ⟨winClause_cpc r s acc.2 hr hidr hW, keyClause_cpc r s acc.2 hr hK⟩
  · rw [if_neg hc]
    exact ⟨hW, hK⟩

theorem corePhase2_clauses {mid s0 : Nat} {v : Option EntryId} (r s : Nat)
    (w : EntryId) (auto mut1 : Bool) (next1 : Match) (st1 : List Match)
    (hr : 1 ≤ r) (hidr : IdRound1 st1 mid)
    (hW : WinClause st1 mid v) (hK : KeyClause st1 s0 v)
    (hdisc : r = 1 → s = s0 → some w = v) :
    WinClause (corePhase2 r s w auto mut1 next1 st1).2 mid v ∧
      KeyClause (corePhase2 r s w auto mut1 next1 st1).2 s0 v := by
  unfold corePhase2
  dsimp only
  by_cases hp : getKey next1 (targetKeyFor s) ≠ some w
  · simp only [if_pos hp]
    have hidr1b : IdRound1
        (updFirst (isNextOf r s) (setKey (targetKeyFor s) (some w)) st1) mid :=
      idRound1_updFirst _ _
        (fun m => ⟨(setKey_fields _ _ m).1, (setKey_fields _ _ m).2.1⟩) hidr
    have hW1b : WinClause
        (updFirst (isNextOf r s) (setKey (targetKeyFor s) (some w)) st1) mid v := by
      refine winClause_updFirst _ _ hW (fun m => (setKey_fields _ _ m).1) ?_
      intro m hm _ hmid
      rw [(setKey_fields _ _ m).2.2.2]
      exact hW m hm hmid
    have hK1b : KeyClause
        (updFirst (isNextOf r s) (setKey (targetKeyFor s) (some w)) st1) s0 v := by
      refine keyClause_updFirst _ _ hK
        (fun m => ⟨(setKey_fields _ _ m).2.1, (setKey_fields _ _ m).2.2.1⟩) ?_
      intro m hm hq h2 hs2
      have hq1 := (isNextOf_iff r s m).mp hq
      have hr1 : r = 1 := by omega
      by_cases hkk : targetKeyFor s = targetKeyFor s0
      · have hss : s = s0 := targetKeyFor_inj (by omega : s / 2 = s0 / 2) hkk
        rw [hkk, getKey_setKey_same]
        exact hdisc hr1 hss
      · rw [getKey_setKey_ne _ _ _ _ hkk]
        exact hK m hm h2 hs2
    have hidr3 := idRound1_clearDownstream
      ((updFirst (isNextOf r s) (setKey (targetKeyFor s) (some w)) st1).length + 1)
      _ r s false hidr1b
    have hW3 := winClause_clearDownstream
      ((updFirst (isNextOf r s) (setKey (targetKeyFor s) (some w)) st1).length + 1)
      _ r s false hr hidr1b hW1b
    have hK3 := keyClause_clearDownstream
      ((updFirst (isNextOf r s) (setKey (targetKeyFor s) (some w)) st1).length + 1)
      _ r s false hr (by simp) hK1b
    refine coreSelfFix_clauses r s w auto _ _ hr
      (idRound1_staleFix r s _ _ hidr3)
      (coreStaleFix_clauses r s _ _ hr hidr3 hW3 hK3).1
      (coreStaleFix_clauses r s _ _ hr hidr3 hW3 hK3).2
  · simp only [if_neg hp]
    refine coreSelfFix_clauses r s w auto _ _ hr
      (idRound1_staleFix r s _ st1 hidr)
      (coreStaleFix_clauses r s _ st1 hr hidr hW hK).1
      (coreStaleFix_clauses r s _ st1 hr hidr hW hK).2

theorem core_clauses {b ms : List Match} {mId : Nat} {wv : EntryId}
    {auto : Bool} {mid s0 : Nat} {v : Option EntryId}
    (hb1 : ∀ m0 ∈ b, 1 ≤ m0.round)
    (hE : Evolved b ms)
    (hidr : IdRound1 ms mid)
    (hW : WinClause ms mid v) (hK : KeyClause ms s0 v)
    (hdiscW : ∀ mt, ms.find? (fun m => m.id = mId) = some mt → mt.id = mid →
      some wv = v)
    (hdiscK : ∀ mt, ms.find? (fun m => m.id = mId) = some mt → mt.round = 1 →
      mt.slot = s0 → some wv = v) :
    WinClause (propagateWinnerCore ms mId (some wv) auto).2.2 mid v ∧
      KeyClause (propagateWinnerCore ms mId (some wv) auto).2.2 s0 v := by
  unfold propagateWinnerCore
  cases hf : ms.find? (fun m => decide (m.id = mId)) with
  | none => exact ⟨hW, hK⟩
  | some m0 =>
    have hm0 : m0 ∈ ms := List.mem_of_find?_eq_some hf
    have hr : 1 ≤ m0.round := evolved_rounds hb1 hE m0 hm0
    have hm0id : m0.id = mId := by
      have := List.find?_some hf
      simpa using this
    dsimp only
    have hst1 : IdRound1 (if m0.winnerId ≠ some wv then
        updFirst (fun m => decide (m.id = mId)) (fun m => withWinner m (some wv)) ms
        else ms) mid ∧
        WinClause (if m0.winnerId ≠ some wv then
        updFirst (fun m => decide (m.id = mId)) (fun m => withWinner m (some wv)) ms
        else ms) mid v ∧
        KeyClause (if m0.winnerId ≠ some wv then
        updFirst (fun m => decide (m.id = mId)) (fun m => withWinner m (some wv)) ms
        else ms) s0 v := by
      by_cases hw : m0.winnerId ≠ some wv
      · rw [if_pos hw]
        refine ⟨idRound1_updFirst _ _
            (fun m => ⟨(withWinner_fields m _).1, (withWinner_fields m _).2.1⟩) hidr,
          ?_, ?_⟩
        · refine winClause_updFirst _ _ hW (fun m => (withWinner_fields m _).1) ?_
          intro m hm hq hmid
          rw [(withWinner_fields m _).2.2.2.2.2]
          refine hdiscW m0 hf ?_
          rw [hm0id, ← (by simpa using hq : m.id = mId), hmid]
        · refine keyClause_updFirst _ _ hK
            (fun m => ⟨(withWinner_fields m _).2.1, (withWinner_fields m _).2.2.1⟩) ?_
          intro m hm _ h2 hs2
          rw [getKey_withWinner]
          exact hK m hm h2 hs2
      · rw [if_neg hw]
        exact ⟨hidr, hW, hK⟩
    cases findNextMatch
        (if m0.winnerId ≠ some wv then
          updFirst (fun m => decide (m.id = mId)) (fun m => withWinner m (some wv)) ms
        else ms) m0.round m0.slot with
    | none => exact ⟨hst1.2.1, hst1.2.2⟩
    | some next1 =>
      dsimp only
      exact corePhase2_clauses m0.round m0.slot wv auto _ next1 _ hr hst1.1
        hst1.2.1 hst1.2.2 (fun h1 hs => hdiscK m0 hf h1 hs)

theorem nodup_map_append_cons {α β : Type} (f : α → β) (l1 l2 : List α) (x : α)
    (h : ((l1 ++ x :: l2).map f).Nodup) : ∀ y ∈ l2, f y ≠ f x := by
  rw [List.map_append, List.map_cons] at h
  have h2 := h.of_append_right
  have h3 := (List.nodup_cons.mp h2).1
  intro y hy hcontra
  exact h3 (hcontra ▸ List.mem_map_of_mem f hy)

theorem corePhase2_establish {mid : Nat} (s : Nat) (w : EntryId)
    (auto mut1 : Bool) (next1 : Match) (st1 : List Match)
    (hidr : IdRound1 st1 mid)
    (hW : WinClause st1 mid (some w))
    (hnext : st1.find? (isNextOf 1 s) = some next1)
    (hpairs1 : (st1.map (fun m => (m.round, m.slot))).Nodup) :
    WinClause (corePhase2 1 s w auto mut1 next1 st1).2 mid (some w) ∧
      KeyClause (corePhase2 1 s w auto mut1 next1 st1).2 s (some w) := by
  have hnextmem : next1 ∈ st1 := List.mem_of_find?_eq_some hnext
  have hnextp := (isNextOf_iff 1 s next1).mp (by simpa using List.find?_some hnext)
  unfold corePhase2
  dsimp only
  by_cases hp : getKey next1 (targetKeyFor s) ≠ some w
  · simp only [if_pos hp]
    obtain ⟨l1, l2, hsp, hl1, hupd⟩ :=
      updFirst_decomp (isNextOf 1 s) (setKey (targetKeyFor s) (some w)) st1 next1 hnext
    have hK1b : KeyClause
        (updFirst (isNextOf 1 s) (setKey (targetKeyFor s) (some w)) st1) s (some w) := by
      intro p hpmem h2 hs2
      rw [hupd] at hpmem
      rcases List.mem_append.mp hpmem with hpmem | hpmem
      · exfalso
        have hfalse := hl1 p hpmem
        have htrue : isNextOf 1 s p = true := (isNextOf_iff 1 s p).mpr ⟨by omega, hs2⟩
        rw [htrue] at hfalse
        simp at hfalse
      · rcases List.mem_cons.mp hpmem with rfl | hpmem
        · exact getKey_setKey_same _ _ next1
        · exfalso
          rw [hsp] at hpairs1
          have hne := nodup_map_append_cons (fun m => (m.round, m.slot)) l1 l2
            next1 hpairs1 p hpmem
          apply hne
          show (p.round, p.slot) = (next1.round, next1.slot)
          rw [h2, hs2, hnextp.1, hnextp.2]
    have hW1b : WinClause
        (updFirst (isNextOf 1 s) (setKey (targetKeyFor s) (some w)) st1) mid (some w) := by
      refine winClause_updFirst _ _ hW (fun m => (setKey_fields _ _ m).1) ?_
      intro m hm _ hmid
      rw [(setKey_fields _ _ m).2.2.2]
      exact hW m hm hmid
    have hidr1b : IdRound1
        (updFirst (isNextOf 1 s) (setKey (targetKeyFor s) (some w)) st1) mid :=
      idRound1_updFirst _ _
        (fun m => ⟨(setKey_fields _ _ m).1, (setKey_fields _ _ m).2.1⟩) hidr
    have hidr3 := idRound1_clearDownstream
      ((updFirst (isNextOf 1 s) (setKey (targetKeyFor s) (some w)) st1).length + 1)
      _ 1 s false hidr1b
    have hW3 := winClause_clearDownstream
      ((updFirst (isNextOf 1 s) (setKey (targetKeyFor s) (some w)) st1).length + 1)
      _ 1 s false (by omega) hidr1b hW1b
    have hK3 := keyClause_clearDownstream
      ((updFirst (isNextOf 1 s) (setKey (targetKeyFor s) (some w)) st1).length + 1)
      _ 1 s false (by omega) (by simp) hK1b
    refine coreSelfFix_clauses 1 s w auto _ _ (by omega)
      (idRound1_staleFix 1 s _ _ hidr3)
      (coreStaleFix_clauses 1 s _ _ (by omega) hidr3 hW3 hK3).1
      (coreStaleFix_clauses 1 s _ _ (by omega) hidr3 hW3 hK3).2
  · simp only [if_neg hp]
    push_neg at hp
    have hK1 : KeyClause st1 s (some w) := by
      intro p hpmem h2 hs2
      have hpn : p = next1 := by
        refine List.inj_on_of_nodup_map hpairs1 hpmem hnextmem ?_
        rw [h2, hs2, hnextp.1, hnextp.2]
      rw [hpn]
      exact hp
    refine coreSelfFix_clauses 1 s w auto _ _ (by omega)
      (idRound1_staleFix 1 s _ st1 hidr)
      (coreStaleFix_clauses 1 s _ st1 (by omega) hidr hW hK1).1
      (coreStaleFix_clauses 1 s _ st1 (by omega) hidr hW hK1).2

theorem core_establish {b ms : List Match} {mId : Nat} {wv : EntryId} {auto : Bool}
    (hids : (b.map Match.id).Nodup)
    (hpairs : (b.map (fun m => (m.round, m.slot))).Nodup)
    (hE : Evolved b ms)
    (mt : Match) (hf : ms.find? (fun m => m.id = mId) = some mt)
    (h1 : mt.round = 1) :
    WinClause (propagateWinnerCore ms mId (some wv) auto).2.2 mt.id (some wv) ∧
      KeyClause (propagateWinnerCore ms mId (some wv) auto).2.2 mt.slot (some wv) := by
  have hmt : mt ∈ ms := List.mem_of_find?_eq_some hf
  have hmtid : mt.id = mId := by simpa using List.find?_some hf
  have msids : (ms.map Match.id).Nodup := by
    rw [evolved_map_id hE]
    exact hids
  obtain ⟨e, he, hrel⟩ := evolved_mem_right hE mt hmt
  unfold propagateWinnerCore
  rw [hf]
  dsimp only
  have hst1 : IdRound1 (if mt.winnerId ≠ some wv then
      updFirst (fun m => decide (m.id = mId)) (fun m => withWinner m (some wv)) ms
      else ms) mt.id ∧
      WinClause (if mt.winnerId ≠ some wv then
      updFirst (fun m => decide (m.id = mId)) (fun m => withWinner m (some wv)) ms
      else ms) mt.id (some wv) := by
    refine ⟨?_, ?_⟩
    · have hE1 : Evolved b (if mt.winnerId ≠ some wv then
          updFirst (fun m => decide (m.id = mId)) (fun m => withWinner m (some wv)) ms
          else ms) := by
        by_cases hw : mt.winnerId ≠ some wv
        · rw [if_pos hw]
          exact evolved_updFirst _ _ hE (fun m => shape_withWinner m _)
            (fun m _ _ => ⟨rfl, rfl⟩)
        · rw [if_neg hw]
          exact hE
      intro m hm hmid
      have hrelm := evolved_rel_of_id hids hE1 e he m hm
        (by rw [hmid, evolRel_id hrel])
      rw [evolRel_round hrelm, ← evolRel_round hrel, h1]
    · by_cases hw : mt.winnerId ≠ some wv
      · rw [if_pos hw]
        obtain ⟨l1, l2, hsp, hl1, hupd⟩ := updFirst_decomp
          (fun m => decide (m.id = mId)) (fun m => withWinner m (some wv)) ms mt hf
        intro m hm hmid
        rw [hupd] at hm
        rcases List.mem_append.mp hm with hm | hm
        · exfalso
          have := hl1 m hm
          rw [hmid, hmtid] at this
          simp at this
        · rcases List.mem_cons.mp hm with rfl | hm
          · rfl
          · exfalso
            rw [hsp] at msids
            exact nodup_map_append_cons Match.id l1 l2 mt msids m hm hmid
      · rw [if_neg hw]
        push_neg at hw
        intro m hm hmid
        rw [List.inj_on_of_nodup_map msids hm hmt hmid]
        exact hw
  cases hnx : findNextMatch
      (if mt.winnerId ≠ some wv then
        updFirst (fun m => decide (m.id = mId)) (fun m => withWinner m (some wv)) ms
      else ms) mt.round mt.slot with
  | none =>
    refine ⟨hst1.2, ?_⟩
    intro p hpmem h2 hs2
    exfalso
    rw [findNextMatch, List.find?_eq_none] at hnx
    exact absurd (by simp only [decide_eq_true_eq]; omega :
      decide (p.round = mt.round + 1 ∧ p.slot = mt.slot / 2) = true) (hnx p hpmem)
  | some next1 =>
    dsimp only
    have hE1 : Evolved b (if mt.winnerId ≠ some wv then
        updFirst (fun m => decide (m.id = mId)) (fun m => withWinner m (some wv)) ms
        else ms) := by
      by_cases hw : mt.winnerId ≠ some wv
      · rw [if_pos hw]
        exact evolved_updFirst _ _ hE (fun m => shape_withWinner m _)
          (fun m _ _ => ⟨rfl, rfl⟩)
      · rw [if_neg hw]
        exact hE
    have hpairs1 : ((if mt.winnerId ≠ some wv then
        updFirst (fun m => decide (m.id = mId)) (fun m => withWinner m (some wv)) ms
        else ms).map (fun m => (m.round, m.slot))).Nodup := by
      rw [evolved_map_pair hE1]
      exact hpairs
    have hnext1 : (if mt.winnerId ≠ some wv then
        updFirst (fun m => decide (m.id = mId)) (fun m => withWinner m (some wv)) ms
        else ms).find? (isNextOf 1 mt.slot) = some next1 := by
      rw [← h1]
      exact hnx
    have := corePhase2_establish mt.slot wv auto
      (decide (¬ mt.winnerId = some wv)) next1 _ hst1.1 hst1.2 hnext1 hpairs1
    rw [h1]
    exact this

/-- The facts about the freshly built bracket that drive the sweep
invariant. -/
structure BuiltFacts (b : List Match) : Prop where
  rounds : ∀ m ∈ b, 1 ≤ m.round
  ids : (b.map Match.id).Nodup
  rs : (b.map (fun m => (m.round, m.slot))).Nodup
  winners : ∀ m ∈ b, m.winnerId = none
  nonpass : ∀ m ∈ b, m.teamAId ≠ some PASS_ID ∧ m.teamBId ≠ some PASS_ID

/-- The sweep invariant: every round-1 match of the built bracket holding
a single entrant has that entrant recorded as its winner, and written at
the parity key of its round-2 parent. -/
def GlobalInv (b st : List Match) : Prop :=
  ∀ m0 ∈ b, m0.round = 1 → (soloOf m0).isSome = true →
    WinClause st m0.id (soloOf m0) ∧ KeyClause st m0.slot (soloOf m0)

theorem soloOf_isSome_cases {m : Match} (h : (soloOf m).isSome = true) :
    (m.teamAId.isSome = true ∧ m.teamBId = none ∧ soloOf m = m.teamAId) ∨
    (m.teamAId = none ∧ m.teamBId.isSome = true ∧ soloOf m = m.teamBId) := by
  unfold soloOf at h ⊢
  by_cases h1 : m.teamAId.isSome = true ∧ m.teamBId = none
  · rw [if_pos h1]
    exact Or.inl ⟨h1.1, h1.2, rfl⟩
  · rw [if_neg h1] at h ⊢
    by_cases h2 : m.teamAId = none ∧ m.teamBId.isSome = true
    · rw [if_pos h2]
      exact Or.inr ⟨h2.1, h2.2, rfl⟩
    · rw [if_neg h2] at h
      simp at h

theorem passAutoOf_none_of_nonpass {m : Match}
    (hA : m.teamAId ≠ some PASS_ID) (hB : m.teamBId ≠ some PASS_ID) :
    passAutoOf m = none := by
  unfold passAutoOf
  rw [if_neg (fun hc => hA hc.1), if_neg (fun hc => hB hc.1)]

theorem feederHasTeams_round1 {st : List Match} (hr : ∀ m ∈ st, 1 ≤ m.round)
    (s : Nat) (side : Bool) : feederHasTeams st 1 s side = false := by
  unfold feederHasTeams
  dsimp only
  have hnone : st.find?
      (fun m => m.round + 1 = 1 ∧ m.slot = s * 2 + (if side = true then 0 else 1)) =
      none := by
    rw [List.find?_eq_none]
    intro x hx
    have := hr x hx
    simp only [decide_eq_true_eq, not_and]
    intro h1
    omega
  rw [hnone]

/-- Analysis of one `propagateAutoAdvances` decision for a round-1 match
with one occupant and no pass sentinels: the decision auto-advances the
occupant exactly when no winner is recorded yet. -/
theorem autoPassDecision_solo {st : List Match} {x : Match}
    (hr : ∀ m ∈ st, 1 ≤ m.round)
    (h1 : x.round = 1) (hsolo : (soloOf x).isSome = true)
    (hA : x.teamAId ≠ some PASS_ID) (hB : x.teamBId ≠ some PASS_ID) :
    autoPassDecision st x =
      if x.winnerId = none then some (soloOf x) else none := by
  unfold autoPassDecision
  dsimp only
  have hwait : (match missingSideAOf x with
      | some sideA => feederHasTeams st x.round x.slot sideA
      | none => false) = false := by
    cases missingSideAOf x with
    | none => rfl
    | some side =>
      rw [h1]
      exact feederHasTeams_round1 hr _ _
  rw [hwait]
  have hboth : ¬ ((x.teamAId = none ∧ x.teamBId = none) ∧ x.winnerId = none ∧
      (feederHasTeams st x.round x.slot true || feederHasTeams st x.round x.slot false)
        = false) := by
    rintro ⟨⟨ha, hb2⟩, -, -⟩
    rcases soloOf_isSome_cases hsolo with ⟨hsa, -, -⟩ | ⟨-, hsb, -⟩
    · rw [ha] at hsa
      simp at hsa
    · rw [hb2] at hsb
      simp at hsb
  rw [if_neg hboth]
  by_cases hw : x.winnerId = none
  · rw [if_pos hw, if_pos ⟨hsolo, hw, rfl⟩]
  · rw [if_neg hw,
      if_neg (fun hc => hw hc.2.1),
      if_neg (fun hc => hw hc.2.1)]

theorem autoPassDecision_isSome {st : List Match} {x : Match} {w : Option EntryId}
    (hdec : autoPassDecision st x = some w) : ∃ wv : EntryId, w = some wv := by
  unfold autoPassDecision at hdec
  dsimp only at hdec
  by_cases h1 : (x.teamAId = none ∧ x.teamBId = none) ∧ x.winnerId = none ∧
      (feederHasTeams st x.round x.slot true || feederHasTeams st x.round x.slot false)
        = false
  · rw [if_pos h1] at hdec
    exact ⟨PASS_ID, (Option.some.inj hdec).symm⟩
  · rw [if_neg h1] at hdec
    by_cases h2 : (soloOf x).isSome = true ∧ x.winnerId = none ∧
        (match missingSideAOf x with
          | some sideA => feederHasTeams st x.round x.slot sideA
          | none => false) = false
    · rw [if_pos h2] at hdec
      obtain ⟨wv, hwv⟩ := Option.isSome_iff_exists.mp h2.1
      exact ⟨wv, by rw [← Option.some.inj hdec, hwv]⟩
    · rw [if_neg h2] at hdec
      by_cases h3 : (passAutoOf x).isSome = true ∧ x.winnerId = none ∧
          (match missingSideAOf x with
            | some sideA => feederHasTeams st x.round x.slot sideA
            | none => false) = false
      · rw [if_pos h3] at hdec
        obtain ⟨wv, hwv⟩ := Option.isSome_iff_exists.mp h3.1
        exact ⟨wv, by rw [← Option.some.inj hdec, hwv]⟩
      · rw [if_neg h3] at hdec
        exact absurd hdec (by simp)

theorem foldl_autoPassStep_true :
    ∀ (l : List Match) (st : List Match),
      (l.foldl autoPassStep (true, st)).1 = true := by
  intro l
  induction l with
  | nil => intro st; rfl
  | cons x rest ih =>
    intro st
    rw [List.foldl_cons]
    unfold autoPassStep
    cases autoPassDecision st x with
    | none => exact ih st
    | some w => exact ih _

theorem foldl_autoPassStep_noop :
    ∀ (l : List Match) (st : List Match),
      (l.foldl autoPassStep (false, st)).1 = false →
      (l.foldl autoPassStep (false, st)).2 = st := by
  intro l
  induction l with
  | nil => intro st _; rfl
  | cons x rest ih =>
    intro st h
    rw [List.foldl_cons] at h ⊢
    cases hdec : autoPassDecision st x with
    | none =>
      have hstep : autoPassStep (false, st) x = (false, st) := by
        unfold autoPassStep
        rw [hdec]
      rw [hstep] at h ⊢
      exact ih st h
    | some w =>
      exfalso
      have hstep : autoPassStep (false, st) x =
          (true, (propagateWinnerCore st x.id w true).2.2) := by
        unfold autoPassStep
        rw [hdec]
      rw [hstep] at h
      rw [foldl_autoPassStep_true] at h
      exact absurd h (by simp)

/-- An automatic call whose stale subject shares its id with the protected
round-1 solo match `m0` can only pass `m0`'s solo occupant as the winner. -/
theorem autoStep_discipline {b st0 stc : List Match} (hb : BuiltFacts b)
    (hE0 : Evolved b st0) (hEc : Evolved b stc)
    {x : Match} (hx : x ∈ st0) {w : Option EntryId}
    (hdec : autoPassDecision stc x = some w)
    {m0 : Match} (hm0 : m0 ∈ b) (h1 : m0.round = 1)
    (hsolo : (soloOf m0).isSome = true)
    (hlink : x.id = m0.id) :
    w = soloOf m0 := by
  obtain ⟨e, he, hrele⟩ := evolved_mem_right hE0 x hx
  have hem0 : e = m0 :=
    List.inj_on_of_nodup_map hb.ids he hm0 (by rw [← evolRel_id hrele, hlink])
  rw [hem0] at hrele
  have hx1 : x.round = 1 := by rw [evolRel_round hrele, h1]
  have hxsolo : soloOf x = soloOf m0 := evolRel_solo hrele h1
  have hxA : x.teamAId ≠ some PASS_ID := by
    rw [(hrele.2 h1).1]
    exact (hb.nonpass m0 hm0).1
  have hxB : x.teamBId ≠ some PASS_ID := by
    rw [(hrele.2 h1).2]
    exact (hb.nonpass m0 hm0).2
  have hrc : ∀ m ∈ stc, 1 ≤ m.round := evolved_rounds hb.rounds hEc
  rw [autoPassDecision_solo hrc hx1 (by rw [hxsolo]; exact hsolo) hxA hxB] at hdec
  by_cases hw : x.winnerId = none
  · rw [if_pos hw] at hdec
    rw [← Option.some.inj hdec, hxsolo]
  · rw [if_neg hw] at hdec
    simp at hdec

/-- One pass of `propagateAutoAdvances`, folded from the left: processed
round-1 solo matches satisfy the sweep clauses, unprocessed ones are still
listed with no recorded winner; at the end of the pass every round-1 solo
match has been settled. -/
theorem foldl_autoPassStep_globalInv {b st0 : List Match} (hb : BuiltFacts b)
    (hE0 : Evolved b st0) :
    ∀ (l : List Match), (∀ x ∈ l, x ∈ st0) →
      ∀ (acc : Bool × List Match), Evolved b acc.2 →
      (∀ m0 ∈ b, m0.round = 1 → (soloOf m0).isSome = true →
        (WinClause acc.2 m0.id (soloOf m0) ∧ KeyClause acc.2 m0.slot (soloOf m0)) ∨
        (∃ x ∈ l, x.id = m0.id ∧ x.winnerId = none)) →
      Evolved b (l.foldl autoPassStep acc).2 ∧
        GlobalInv b (l.foldl autoPassStep acc).2 := by
  intro l
  induction l with
  | nil =>
    intro _ acc hEacc hinv
    refine ⟨hEacc, ?_⟩
    intro m0 hm0 h1 hsolo
    rcases hinv m0 hm0 h1 hsolo with h | ⟨x, hx, _, _⟩
    · exact h
    · simp at hx
  | cons x rest ih =>
    intro hsub acc hEacc hinv
    rw [List.foldl_cons]
    have hxst0 : x ∈ st0 := hsub x (List.mem_cons_self x rest)
    have hidr1 : ∀ (m0 : Match), m0 ∈ b → m0.round = 1 → IdRound1 acc.2 m0.id := by
      intro m0 hm0 h1 m hm hmid
      have hrel := evolved_rel_of_id hb.ids hEacc m0 hm0 m hm hmid
      rw [evolRel_round hrel, h1]
    cases hdec : autoPassDecision acc.2 x with
    | none =>
      have hstep : autoPassStep acc x = acc := by
        unfold autoPassStep
        rw [hdec]
      rw [hstep]
      apply ih (fun y hy => hsub y (List.mem_cons_of_mem x hy)) acc hEacc
      intro m0 hm0 h1 hsolo
      rcases hinv m0 hm0 h1 hsolo with h | ⟨y, hy, hyid, hyw⟩
      · exact Or.inl h
      · rcases List.mem_cons.mp hy with rfl | hy
        · exfalso
          obtain ⟨e, he, hrele⟩ := evolved_mem_right hE0 y hxst0
          have hem0 : e = m0 :=
            List.inj_on_of_nodup_map hb.ids he hm0 (by rw [← evolRel_id hrele, hyid])
          rw [hem0] at hrele
          have hy1 : y.round = 1 := by rw [evolRel_round hrele, h1]
          have hysolo : soloOf y = soloOf m0 := evolRel_solo hrele h1
          have hyA : y.teamAId ≠ some PASS_ID := by
            rw [(hrele.2 h1).1]
            exact (hb.nonpass m0 hm0).1
          have hyB : y.teamBId ≠ some PASS_ID := by
            rw [(hrele.2 h1).2]
            exact (hb.nonpass m0 hm0).2
          have hrc : ∀ m ∈ acc.2, 1 ≤ m.round := evolved_rounds hb.rounds hEacc
          rw [autoPassDecision_solo hrc hy1 (by rw [hysolo]; exact hsolo) hyA hyB,
            if_pos hyw] at hdec
          exact absurd hdec (by simp)
        · exact Or.inr ⟨y, hy, hyid, hyw⟩
    | some w =>
      obtain ⟨wv, rfl⟩ := autoPassDecision_isSome hdec
      have hstep : autoPassStep acc x =
          (true, (propagateWinnerCore acc.2 x.id (some wv) true).2.2) := by
        unfold autoPassStep
        rw [hdec]
      rw [hstep]
      apply ih (fun y hy => hsub y (List.mem_cons_of_mem x hy))
      · exact core_evolved _ _ _ _ hb.rounds hEacc
      · intro m0 hm0 h1 hsolo
        rcases hinv m0 hm0 h1 hsolo with h | ⟨y, hy, hyid, hyw⟩
        · left
          refine core_clauses hb.rounds hEacc (hidr1 m0 hm0 h1) h.1 h.2 ?_ ?_
          · intro mt hf hmtid
            have hmtx : mt.id = x.id := by simpa using List.find?_some hf
            exact autoStep_discipline hb hE0 hEacc hxst0 hdec hm0 h1 hsolo
              (by rw [← hmtx, hmtid])
          · intro mt hf hmt1 hmts
            have hmtx : mt.id = x.id := by simpa using List.find?_some hf
            have hmtmem : mt ∈ acc.2 := List.mem_of_find?_eq_some hf
            obtain ⟨e, he, hrele⟩ := evolved_mem_right hEacc mt hmtmem
            have hem0 : e = m0 := by
              refine List.inj_on_of_nodup_map hb.rs he hm0 ?_
              show (e.round, e.slot) = (m0.round, m0.slot)
              rw [← evolRel_round hrele, ← evolRel_slot hrele, hmt1, hmts, h1]
            rw [hem0] at hrele
            exact autoStep_discipline hb hE0 hEacc hxst0 hdec hm0 h1 hsolo
              (by rw [← evolRel_id hrele, hmtx])
        · rcases List.mem_cons.mp hy with rfl | hy
          · left
            obtain ⟨e, he, hrele⟩ := evolved_mem_right hE0 y hxst0
            have hem0 : e = m0 :=
              List.inj_on_of_nodup_map hb.ids he hm0 (by rw [← evolRel_id hrele, hyid])
            rw [hem0] at hrele
            have hwv : some wv = soloOf m0 :=
              autoStep_discipline hb hE0 hEacc hxst0 hdec hm0 h1 hsolo hyid
            obtain ⟨mt, hfind, hrelmt⟩ := evolved_find_id hb.ids hEacc m0 hm0
            have hmt1 : mt.round = 1 := by rw [evolRel_round hrelmt, h1]
            rw [hyid]
            have hest := @core_establish b acc.2 m0.id wv true hb.ids hb.rs hEacc
              mt hfind hmt1
            rw [evolRel_id hrelmt, evolRel_slot hrelmt] at hest
            rw [← hwv]
            exact hest
          · exact Or.inr ⟨y, hy, hyid, hyw⟩

theorem pass_globalInv {b st0 : List Match} (hb : BuiltFacts b)
    (hE0 : Evolved b st0)
    (hinit : ∀ m0 ∈ b, m0.round = 1 → (soloOf m0).isSome = true →
      (WinClause st0 m0.id (soloOf m0) ∧ KeyClause st0 m0.slot (soloOf m0)) ∨
      (∃ x ∈ st0, x.id = m0.id ∧ x.winnerId = none)) :
    Evolved b (propagateAutoAdvancesPass st0).2 ∧
      GlobalInv b (propagateAutoAdvancesPass st0).2 := by
  unfold propagateAutoAdvancesPass
  exact foldl_autoPassStep_globalInv hb hE0 st0 (fun x hx => hx) (false, st0) hE0 hinit

theorem globalInv_init {b st : List Match} (hG : GlobalInv b st) :
    ∀ m0 ∈ b, m0.round = 1 → (soloOf m0).isSome = true →
      (WinClause st m0.id (soloOf m0) ∧ KeyClause st m0.slot (soloOf m0)) ∨
      (∃ x ∈ st, x.id = m0.id ∧ x.winnerId = none) :=
  fun m0 hm0 h1 hs => Or.inl (hG m0 hm0 h1 hs)

theorem autoAdv_globalInv_pres {b : List Match} (hb : BuiltFacts b) :
    ∀ (fuel : Nat) (st : List Match), Evolved b st → GlobalInv b st →
      Evolved b (propagateAutoAdvances fuel st) ∧
        GlobalInv b (propagateAutoAdvances fuel st) := by
  intro fuel
  induction fuel with
  | zero => intro st hE hG; exact ⟨hE, hG⟩
  | succ f ih =>
    intro st hE hG
    rw [propagateAutoAdvances]
    by_cases hc : (propagateAutoAdvancesPass st).1 = true
    · rw [if_pos hc]
      have hp := pass_globalInv hb hE (globalInv_init hG)
      exact ih _ hp.1 hp.2
    · rw [if_neg hc]
      exact ⟨hE, hG⟩

theorem autoAdv_globalInv {b st0 : List Match} (hb : BuiltFacts b)
    (hE0 : Evolved b st0)
    (hinit : ∀ m0 ∈ b, m0.round = 1 → (soloOf m0).isSome = true →
      (WinClause st0 m0.id (soloOf m0) ∧ KeyClause st0 m0.slot (soloOf m0)) ∨
      (∃ x ∈ st0, x.id = m0.id ∧ x.winnerId = none)) :
    ∀ (fuel : Nat), 1 ≤ fuel →
      Evolved b (propagateAutoAdvances fuel st0) ∧
        GlobalInv b (propagateAutoAdvances fuel st0) := by
  intro fuel hfuel
  cases fuel with
  | zero => omega
  | succ f =>
    rw [propagateAutoAdvances]
    have hp := pass_globalInv hb hE0 hinit
    by_cases hc : (propagateAutoAdvancesPass st0).1 = true
    · rw [if_pos hc]
      exact autoAdv_globalInv_pres hb f _ hp.1 hp.2
    · rw [if_neg hc]
      have hnoop : (propagateAutoAdvancesPass st0).2 = st0 := by
        unfold propagateAutoAdvancesPass at hc ⊢
        exact foldl_autoPassStep_noop st0 st0 (by simpa using hc)
      rw [← hnoop]
      exact hp

theorem settleScan_globalInv {b : List Match} (hb : BuiltFacts b) :
    ∀ (scan st st2 : List Match), (∀ x ∈ scan, x ∈ st) →
      Evolved b st → GlobalInv b st → settleScan scan st = some st2 →
      Evolved b st2 ∧ GlobalInv b st2 := by
  intro scan
  induction scan with
  | nil =>
    intro st st2 _ _ _ h
    simp [settleScan] at h
  | cons m rest ih =>
    intro st st2 hsub hE hG h
    rw [settleScan] at h
    by_cases hw : m.winnerId = none
    · rw [if_pos hw] at h
      exact ih st st2 (fun x hx => hsub x (List.mem_cons_of_mem _ hx)) hE hG h
    · rw [if_neg hw] at h
      dsimp only at h
      by_cases hmut : (propagateWinnerCore st m.id m.winnerId true).2.1 = true
      · rw [if_pos hmut] at h
        cases h
        obtain ⟨wv, hwv⟩ := Option.ne_none_iff_exists.mp hw
        have hmmem : m ∈ st := hsub m (List.mem_cons_self m rest)
        have hstids : (st.map Match.id).Nodup := by
          rw [evolved_map_id hE]
          exact hb.ids
        constructor
        · exact core_evolved _ _ _ _ hb.rounds hE
        · intro m0 hm0 h1 hsolo
          rw [← hwv]
          have hdisc : ∀ mt, st.find? (fun m2 => m2.id = m.id) = some mt →
              mt.id = m0.id → some wv = soloOf m0 := by
            intro mt hf hmtid
            have hmtmem : mt ∈ st := List.mem_of_find?_eq_some hf
            have hmtx : mt.id = m.id := by simpa using List.find?_some hf
            have hmeq : m = mt := List.inj_on_of_nodup_map hstids hmmem hmtmem hmtx.symm
            have hwin := (hG m0 hm0 h1 hsolo).1 mt hmtmem hmtid
            rw [← hwin, ← hmeq, ← hwv]
          have hidr : IdRound1 st m0.id := by
            intro m2 hm2 hmid
            have hrel := evolved_rel_of_id hb.ids hE m0 hm0 m2 hm2 hmid
            rw [evolRel_round hrel, h1]
          refine core_clauses hb.rounds hE hidr
            ((hG m0 hm0 h1 hsolo).1) ((hG m0 hm0 h1 hsolo).2) hdisc ?_
          intro mt hf hmt1 hmts
          have hmtmem : mt ∈ st := List.mem_of_find?_eq_some hf
          obtain ⟨e, he, hrele⟩ := evolved_mem_right hE mt hmtmem
          have hem0 : e = m0 := by
            refine List.inj_on_of_nodup_map hb.rs he hm0 ?_
            show (e.round, e.slot) = (m0.round, m0.slot)
            rw [← evolRel_round hrele, ← evolRel_slot hrele, hmt1, hmts, h1]
          rw [hem0] at hrele
          exact hdisc mt hf (by rw [evolRel_id hrele])
      · rw [if_neg hmut] at h
        exact ih st st2 (fun x hx => hsub x (List.mem_cons_of_mem _ hx)) hE hG h

theorem settleGo_globalInv {b : List Match} (hb : BuiltFacts b) :
    ∀ (n : Nat) (st : List Match), Evolved b st → GlobalInv b st →
      Evolved b (settleGo n st) ∧ GlobalInv b (settleGo n st) := by
  intro n
  induction n with
  | zero => intro st hE hG; exact ⟨hE, hG⟩
  | succ k ih =>
    intro st hE hG
    rw [settleGo]
    cases hs : settleScan st st with
    | none => exact ⟨hE, hG⟩
    | some st2 =>
      have h2 := settleScan_globalInv hb st st st2 (fun x hx => hx) hE hG hs
      exact ih st2 h2.1 h2.2

theorem settlePassChains_globalInv {b st : List Match} (hb : BuiltFacts b)
    (hE : Evolved b st) (hG : GlobalInv b st) :
    Evolved b (settlePassChains st) ∧ GlobalInv b (settlePassChains st) := by
  unfold settlePassChains
  exact settleGo_globalInv hb _ st hE hG

theorem buildLoopGo_mem_facts (seeded : List (Option Team)) :
    ∀ (fuel t r bId : Nat), ∀ m ∈ buildLoopGo seeded fuel t r bId,
      r ≤ m.round ∧ m.winnerId = none ∧
      m.teamAId ≠ some PASS_ID ∧ m.teamBId ≠ some PASS_ID := by
  intro fuel
  induction fuel with
  | zero => intro t r bId m hm; simp [buildLoopGo] at hm
  | succ f ih =>
    intro t r bId m hm
    rw [buildLoopGo] at hm
    by_cases ht : t > 1
    · rw [if_pos ht] at hm
      dsimp only at hm
      rcases List.mem_append.mp hm with hm | hm
      · rw [buildRoundMatches_eq_map] at hm
        obtain ⟨slot, -, rfl⟩ := List.mem_map.mp hm
        refine ⟨le_refl r, rfl, ?_, ?_⟩
        · intro hc
          rw [Option.map_eq_some'] at hc
          obtain ⟨tm, -, hteq⟩ := hc
          simp [PASS_ID] at hteq
        · intro hc
          rw [Option.map_eq_some'] at hc
          obtain ⟨tm, -, hteq⟩ := hc
          simp [PASS_ID] at hteq
      · have hrec := ih _ (r + 1) _ m hm
        exact ⟨by omega, hrec.2.1, hrec.2.2⟩
    · rw [if_neg ht] at hm
      simp at hm

theorem buildLoopGo_map_id (seeded : List (Option Team)) :
    ∀ (k fuel r bId : Nat), 2 ^ k ≤ fuel →
      (buildLoopGo seeded fuel (2 ^ k) r bId).map Match.id =
        List.range' bId (2 ^ k - 1) := by
  intro k
  induction k with
  | zero =>
    intro fuel r bId hfuel
    cases fuel with
    | zero => omega
    | succ f =>
      rw [buildLoopGo, pow_zero, if_neg (by omega : ¬ (1 > 1))]
      rfl
  | succ k ih =>
    intro fuel r bId hfuel
    have hdouble : 2 ^ (k + 1) = 2 * 2 ^ k := by
      rw [pow_succ]
      ring
    have hpk : 0 < 2 ^ k := pow_pos (by omega) _
    cases fuel with
    | zero => omega
    | succ f =>
      rw [buildLoopGo, if_pos (by omega : 2 ^ (k + 1) > 1)]
      have hmc : (2 ^ (k + 1) + 1) / 2 = 2 ^ k := by omega
      rw [hmc]
      rw [List.map_append, ih f (r + 1) (bId + 2 ^ k) (by omega)]
      have hfront : (buildRoundMatches seeded r (2 ^ k) bId).map Match.id =
          List.range' bId (2 ^ k) := by
        rw [buildRoundMatches_eq_map, List.map_map, List.range'_eq_map_range]
        exact List.map_congr_left (fun i _ => rfl)
      rw [hfront]
      have h21 : 2 ^ (k + 1) - 1 = 2 ^ k + (2 ^ k - 1) := by omega
      rw [h21, Nat.add_comm (2 ^ k) (2 ^ k - 1)]
      simpa using List.range'_append bId (2 ^ k) (2 ^ k - 1) 1

theorem pairsNodup_of_filters :
    ∀ (l : List Match),
      (∀ R, ((l.filter (fun m => m.round = R)).map Match.slot).Nodup) →
      (l.map (fun m => (m.round, m.slot))).Nodup := by
  intro l
  induction l with
  | nil => intro _; exact List.nodup_nil
  | cons x xs ih =>
    intro h
    rw [List.map_cons, List.nodup_cons]
    constructor
    · intro hc
      obtain ⟨y, hy, hpair⟩ := List.mem_map.mp hc
      have hyr : y.round = x.round := congrArg Prod.fst hpair
      have hys : y.slot = x.slot := congrArg Prod.snd hpair
      have hfil := h x.round
      rw [List.filter_cons, if_pos (by simp)] at hfil
      rw [List.map_cons, List.nodup_cons] at hfil
      apply hfil.1
      rw [← hys]
      exact List.mem_map_of_mem Match.slot
        (List.mem_filter.mpr ⟨hy, by simp [hyr]⟩)
    · apply ih
      intro R
      have hfil := h R
      rw [List.filter_cons] at hfil
      by_cases hr : x.round = R
      · rw [if_pos (by simp [hr])] at hfil
        rw [List.map_cons] at hfil
        exact hfil.of_cons
      · rw [if_neg (by simp [hr])] at hfil
        exact hfil

theorem builtFacts_buildLoop (seeded : List (Option Team)) (k : Nat) :
    BuiltFacts (buildLoop seeded (2 ^ k) 1 0) := by
  unfold buildLoop
  refine ⟨?_, ?_, ?_, ?_, ?_⟩
  · intro m hm
    exact (buildLoopGo_mem_facts seeded _ _ _ _ m hm).1
  · rw [buildLoopGo_map_id seeded k (2 ^ k) 1 0 (le_refl _)]
    exact List.nodup_range' _ _ 1 (by omega)
  · apply pairsNodup_of_filters
    intro R
    rw [buildLoopGo_filter seeded k (2 ^ k) 1 0 R (le_refl _)]
    by_cases h : 1 ≤ R
    · rw [if_pos h]
      exact List.nodup_range _
    · rw [if_neg h]
      exact List.nodup_nil
  · intro m hm
    exact (buildLoopGo_mem_facts seeded _ _ _ _ m hm).2.1
  · intro m hm
    exact ⟨(buildLoopGo_mem_facts seeded _ _ _ _ m hm).2.2.1,
      (buildLoopGo_mem_facts seeded _ _ _ _ m hm).2.2.2⟩

theorem generateBracket_eq (teams : List Team) (hne : teams ≠ []) (k : Nat)
    (hk : nextPowerOfTwo (dedupeTeams teams).length = 2 ^ k) :
    generateBracket teams =
      settlePassChains (propagateAutoAdvances
        (2 * (buildLoop (seedTeams (sortByC cmpTeams (dedupeTeams teams)) (2 ^ k))
            (2 ^ k) 1 0).length + 4)
        (buildLoop (seedTeams (sortByC cmpTeams (dedupeTeams teams)) (2 ^ k))
          (2 ^ k) 1 0)) := by
  unfold generateBracket
  rw [if_neg hne]
  dsimp only
  rw [if_neg (dedupeTeams_ne_nil teams hne)]
  rw [sortByC_length cmpTeams (dedupeTeams teams), hk]
  rfl

theorem generateBracket_sweep (teams : List Team) (hne : teams ≠ []) (k : Nat)
    (hk : nextPowerOfTwo (dedupeTeams teams).length = 2 ^ k) :
    Evolved (buildLoop (seedTeams (sortByC cmpTeams (dedupeTeams teams)) (2 ^ k))
        (2 ^ k) 1 0) (generateBracket teams) ∧
      GlobalInv (buildLoop (seedTeams (sortByC cmpTeams (dedupeTeams teams)) (2 ^ k))
        (2 ^ k) 1 0) (generateBracket teams) := by
  have hb := builtFacts_buildLoop (seedTeams (sortByC cmpTeams (dedupeTeams teams))
    (2 ^ k)) k
  rw [generateBracket_eq teams hne k hk]
  have hinit : ∀ m0 ∈ buildLoop (seedTeams (sortByC cmpTeams (dedupeTeams teams))
      (2 ^ k)) (2 ^ k) 1 0, m0.round = 1 → (soloOf m0).isSome = true →
      (WinClause (buildLoop (seedTeams (sortByC cmpTeams (dedupeTeams teams))
          (2 ^ k)) (2 ^ k) 1 0) m0.id (soloOf m0) ∧
        KeyClause (buildLoop (seedTeams (sortByC cmpTeams (dedupeTeams teams))
          (2 ^ k)) (2 ^ k) 1 0) m0.slot (soloOf m0)) ∨
      (∃ x ∈ buildLoop (seedTeams (sortByC cmpTeams (dedupeTeams teams))
          (2 ^ k)) (2 ^ k) 1 0, x.id = m0.id ∧ x.winnerId = none) :=
    fun m0 hm0 _ _ => Or.inr ⟨m0, hm0, rfl, hb.winners m0 hm0⟩
  have hauto := autoAdv_globalInv hb (evolved_refl _) hinit
    (2 * (buildLoop (seedTeams (sortByC cmpTeams (dedupeTeams teams)) (2 ^ k))
      (2 ^ k) 1 0).length + 4) (by omega)
  exact settlePassChains_globalInv hb hauto.1 hauto.2

/-- The auto-advance fixed point of the snapshot returned by
`generateBracket`: every round-1 match holding exactly one entrant has that
entrant recorded as its winner and written at the parity key of its
round-2 parent. -/
theorem generateBracket_fixedPoint (teams : List Team) :
    ∀ m ∈ generateBracket teams, m.round = 1 → (soloOf m).isSome = true →
      m.winnerId = soloOf m ∧
      ∀ p ∈ generateBracket teams, p.round = 2 → p.slot = m.slot / 2 →
        getKey p (targetKeyFor m.slot) = soloOf m := by
  intro m hm h1 hsolo
  by_cases hne : teams = []
  · rw [hne] at hm
    simp [generateBracket] at hm
  · obtain ⟨k, hk⟩ := nextPowerOfTwo_pow (dedupeTeams teams).length
    have hsw := generateBracket_sweep teams hne k hk
    obtain ⟨e, he, hrel⟩ := evolved_mem_right hsw.1 m hm
    have he1 : e.round = 1 := by rw [← evolRel_round hrel, h1]
    have hsoloeq : soloOf m = soloOf e := evolRel_solo hrel he1
    have hG := hsw.2 e he he1 (by rw [← hsoloeq]; exact hsolo)
    constructor
    · rw [hG.1 m hm (evolRel_id hrel), hsoloeq]
    · intro p hp h2 hs2
      rw [evolRel_slot hrel] at hs2 ⊢
      rw [hG.2 p hp h2 hs2, hsoloeq]

/-! ### The cascade on a winner change (C4) -/

/-- Every match at coordinates `(R, S)` has no recorded winner. -/
def NoneAt (st : List Match) (R S : Nat) : Prop :=
  ∀ p ∈ st, p.round = R → p.slot = S → p.winnerId = none

/-- The occupant entry written by the feeder at `(r0, s0)` into its parent
stays `v` (the round-agnostic version of `KeyClause`). -/
def KeyAt (st : List Match) (r0 s0 : Nat) (v : Option EntryId) : Prop :=
  ∀ p ∈ st, p.round = r0 + 1 → p.slot = s0 / 2 → getKey p (targetKeyFor s0) = v

theorem mem_updFirst_forward (p : Match → Bool) (f : Match → Match) :
    ∀ (l : List Match), ∀ x ∈ l, x ∈ updFirst p f l ∨ f x ∈ updFirst p f l := by
  intro l
  induction l with
  | nil => intro x hx; simp at hx
  | cons m ms ih =>
    intro x hx
    rw [updFirst]
    by_cases hq : p m
    · rw [if_pos hq]
      rcases List.mem_cons.mp hx with rfl | hx
      · exact Or.inr (List.mem_cons_self _ _)
      · exact Or.inl (List.mem_cons_of_mem _ hx)
    · rw [if_neg hq]
      rcases List.mem_cons.mp hx with rfl | hx
      · exact Or.inl (List.mem_cons_self _ _)
      · rcases ih x hx with h | h
        · exact Or.inl (List.mem_cons_of_mem _ h)
        · exact Or.inr (List.mem_cons_of_mem _ h)

theorem map_pair_eq_of_map_shape {st st2 : List Match}
    (h : st2.map shape = st.map shape) :
    st2.map (fun m => (m.round, m.slot)) = st.map (fun m => (m.round, m.slot)) := by
  have h1 : ∀ (l : List Match), l.map (fun m => (m.round, m.slot)) =
      (l.map shape).map (fun p => (p.2.1, p.2.2)) := by
    intro l
    rw [List.map_map]
    exact List.map_congr_left (fun m _ => rfl)
  rw [h1, h1, h]

theorem countP_round_eq_of_map_shape {st st2 : List Match} (r : Nat)
    (h : st2.map shape = st.map shape) :
    st2.countP (fun m => r < m.round) = st.countP (fun m => r < m.round) := by
  have h1 : ∀ (l : List Match), l.countP (fun m => r < m.round) =
      (l.map shape).countP (fun p => r < p.2.1) := by
    intro l
    rw [List.countP_map]
    rfl
  rw [h1, h1, h]

theorem countP_lt_of_mem {α : Type} {l : List α} {p q : α → Bool}
    (hpq : ∀ x ∈ l, q x = true → p x = true)
    {x : α} (hx : x ∈ l) (hxp : p x = true) (hxq : q x = false) :
    l.countP q < l.countP p := by
  induction l with
  | nil => simp at hx
  | cons y ys ih =>
    rw [List.countP_cons, List.countP_cons]
    have hmono : ys.countP q ≤ ys.countP p :=
      List.countP_mono_left (fun z hz => hpq z (List.mem_cons_of_mem y hz))
    rcases List.mem_cons.mp hx with rfl | hx
    · rw [if_pos hxp, if_neg (by simp [hxq] : ¬ q x = true)]
      omega
    · have hys := ih (fun z hz => hpq z (List.mem_cons_of_mem y hz)) hx
      by_cases hqy : q y = true
      · rw [if_pos hqy, if_pos (hpq y (List.mem_cons_self y ys) hqy)]
        omega
      · rw [if_neg hqy]
        by_cases hpy : p y = true
        · rw [if_pos hpy]
          omega
        · rw [if_neg hpy]
          omega

theorem noneAt_updFirst {st : List Match} {R S : Nat}
    (p : Match → Bool) (f : Match → Match)
    (h : NoneAt st R S)
    (hrs : ∀ m, (f m).round = m.round ∧ (f m).slot = m.slot)
    (hf : ∀ m, (f m).winnerId = m.winnerId ∨ (f m).winnerId = none) :
    NoneAt (updFirst p f st) R S := by
  intro m hm hR hS
  rcases mem_updFirst_strong hm with hm | ⟨x, hx, _, rfl⟩
  · exact h m hm hR hS
  · rcases hf x with hfx | hfx
    · rw [hfx]
      exact h x hx (by rw [← (hrs x).1]; exact hR) (by rw [← (hrs x).2]; exact hS)
    · exact hfx

theorem keyAt_updFirst {st : List Match} {r0 s0 : Nat} {v : Option EntryId}
    (p : Match → Bool) (f : Match → Match)
    (h : KeyAt st r0 s0 v)
    (hrs : ∀ m, (f m).round = m.round ∧ (f m).slot = m.slot)
    (hf : ∀ m ∈ st, p m = true → m.round = r0 + 1 → m.slot = s0 / 2 →
      getKey (f m) (targetKeyFor s0) = v) :
    KeyAt (updFirst p f st) r0 s0 v := by
  intro m hm hR hS
  rcases mem_updFirst_strong hm with hm | ⟨x, hx, hq, rfl⟩
  · exact h m hm hR hS
  · exact hf x hx hq (by rw [← (hrs x).1]; exact hR) (by rw [← (hrs x).2]; exact hS)

theorem noneAt_clearDownstream {R S : Nat} :
    ∀ (fuel : Nat) (st : List Match) (r s : Nat) (cs : Bool),
      NoneAt st R S → NoneAt (clearDownstream fuel st r s cs) R S := by
  intro fuel
  induction fuel with
  | zero => intro st r s cs h; exact h
  | succ f ih =>
    intro st r s cs h
    rw [clearDownstream]
    cases findNextMatch st r s with
    | none => exact h
    | some nx =>
      dsimp only
      apply ih
      apply noneAt_updFirst _ _ _
        (fun m => ⟨(withWinner_fields m none).2.1, (withWinner_fields m none).2.2.1⟩)
        (fun m => Or.inr (withWinner_fields m none).2.2.2.2.2)
      by_cases hcs : cs = true
      · rw [if_pos hcs]
        exact noneAt_updFirst _ _ h
          (fun m => ⟨(setKey_fields _ _ m).2.1, (setKey_fields _ _ m).2.2.1⟩)
          (fun m => Or.inl (setKey_fields _ _ m).2.2.2)
      · rw [if_neg hcs]
        exact h

theorem keyAt_clearDownstream {r0 s0 : Nat} {v : Option EntryId} :
    ∀ (fuel : Nat) (st : List Match) (r s : Nat) (cs : Bool),
      r0 ≤ r → (cs = true → ¬ (r = r0 ∧ s = s0)) →
      KeyAt st r0 s0 v → KeyAt (clearDownstream fuel st r s cs) r0 s0 v := by
  intro fuel
  induction fuel with
  | zero => intro st r s cs _ _ h; exact h
  | succ f ih =>
    intro st r s cs hr0 hcs0 h
    rw [clearDownstream]
    cases findNextMatch st r s with
    | none => exact h
    | some nx =>
      dsimp only
      apply ih _ (r + 1) (s / 2) true (by omega) (by rintro - ⟨h1, -⟩; omega)
      have hst1 : KeyAt (if cs = true then
          updFirst (isNextOf r s) (setKey (targetKeyFor s) none) st else st) r0 s0 v := by
        by_cases hcs : cs = true
        · rw [if_pos hcs]
          refine keyAt_updFirst _ _ h
            (fun m => ⟨(setKey_fields _ _ m).2.1, (setKey_fields _ _ m).2.2.1⟩) ?_
          intro m hm hq hR hS
          have hq1 := (isNextOf_iff r s m).mp hq
          have hrr0 : r = r0 := by omega
          by_cases hkk : targetKeyFor s = targetKeyFor s0
          · exfalso
            exact hcs0 hcs ⟨hrr0, targetKeyFor_inj (by omega) hkk⟩
          · rw [getKey_setKey_ne _ _ _ _ hkk]
            exact h m hm hR hS
        · rw [if_neg hcs]
          exact h
      refine keyAt_updFirst _ _ hst1
        (fun m => ⟨(withWinner_fields m none).2.1, (withWinner_fields m none).2.2.1⟩)
        ?_
      intro m hm _ hR hS
      rw [getKey_withWinner]
      exact hst1 m hm hR hS

theorem noneAt_cpc {R S : Nat} (r s : Nat) (st : List Match)
    (h : NoneAt st R S) : NoneAt (clearParentAndCascade r s st) R S := by
  unfold clearParentAndCascade
  apply noneAt_clearDownstream
  exact noneAt_updFirst _ _ h
    (fun m => ⟨(withWinner_fields m none).2.1, (withWinner_fields m none).2.2.1⟩)
    (fun m => Or.inr (withWinner_fields m none).2.2.2.2.2)

theorem keyAt_cpc {r0 s0 : Nat} {v : Option EntryId} (r s : Nat) (st : List Match)
    (hr : r0 ≤ r) (h : KeyAt st r0 s0 v) :
    KeyAt (clearParentAndCascade r s st) r0 s0 v := by
  unfold clearParentAndCascade
  apply keyAt_clearDownstream _ _ (r + 1) (s / 2) false (by omega) (by simp)
  refine keyAt_updFirst _ _ h
    (fun m => ⟨(withWinner_fields m none).2.1, (withWinner_fields m none).2.2.1⟩) ?_
  intro m hm _ hR hS
  rw [getKey_withWinner]
  exact h m hm hR hS

theorem noneAt_staleFix {R S : Nat} (r s : Nat) (mut2 : Bool) (st : List Match)
    (h : NoneAt st R S) : NoneAt (coreStaleFix r s mut2 st).2 R S := by
  unfold coreStaleFix
  by_cases hc : staleParentWinner r s st = true
  · rw [if_pos hc]
    exact noneAt_cpc r s st h
  · rw [if_neg hc]
    exact h

theorem keyAt_staleFix {r0 s0 : Nat} {v : Option EntryId} (r s : Nat)
    (mut2 : Bool) (st : List Match) (hr : r0 ≤ r) (h : KeyAt st r0 s0 v) :
    KeyAt (coreStaleFix r s mut2 st).2 r0 s0 v := by
  unfold coreStaleFix
  by_cases hc : staleParentWinner r s st = true
  · rw [if_pos hc]
    exact keyAt_cpc r s st hr h
  · rw [if_neg hc]
    exact h

theorem noneAt_selfFix {R S : Nat} (r s : Nat) (w : EntryId) (auto : Bool)
    (opponent : Option EntryId) (acc : Bool × List Match)
    (h : NoneAt acc.2 R S) : NoneAt (coreSelfFix r s w auto opponent acc).2 R S := by
  unfold coreSelfFix
  by_cases hc : (!auto && opponent.isSome && decide (opponent = some w)) = true
  · rw [if_pos hc]
    exact noneAt_cpc r s acc.2 h
  · rw [if_neg hc]
    exact h

theorem keyAt_selfFix {r0 s0 : Nat} {v : Option EntryId} (r s : Nat) (w : EntryId)
    (auto : Bool) (opponent : Option EntryId) (acc : Bool × List Match)
    (hr : r0 ≤ r) (h : KeyAt acc.2 r0 s0 v) :
    KeyAt (coreSelfFix r s w auto opponent acc).2 r0 s0 v := by
  unfold coreSelfFix
  by_cases hc : (!auto && opponent.isSome && decide (opponent = some w)) = true
  · rw [if_pos hc]
    exact keyAt_cpc r s acc.2 hr h
  · rw [if_neg hc]
    exact h

theorem exists_coords_updFirst (p : Match → Bool) (f : Match → Match)
    (hrs : ∀ m, (f m).round = m.round ∧ (f m).slot = m.slot)
    (st : List Match) (R S : Nat) (h : ∃ x ∈ st, x.round = R ∧ x.slot = S) :
    ∃ x ∈ updFirst p f st, x.round = R ∧ x.slot = S := by
  obtain ⟨x, hx, hR, hS⟩ := h
  rcases mem_updFirst_forward p f st x hx with h2 | h2
  · exact ⟨x, h2, hR, hS⟩
  · exact ⟨f x, h2, by rw [(hrs x).1]; exact hR, by rw [(hrs x).2]; exact hS⟩

theorem noneAt_winnerClear (st1 : List Match) (r s : Nat)
    (hpairs1 : (st1.map (fun m => (m.round, m.slot))).Nodup)
    (hexists : ∃ x ∈ st1, x.round = r + 1 ∧ x.slot = s / 2) :
    NoneAt (updFirst (isNextOf r s) (fun m => withWinner m none) st1)
      (r + 1) (s / 2) := by
  cases hfind : st1.find? (isNextOf r s) with
  | none =>
    exfalso
    obtain ⟨x, hx, hR, hS⟩ := hexists
    rw [List.find?_eq_none] at hfind
    exact absurd ((isNextOf_iff r s x).mpr ⟨hR, hS⟩) (by simpa using hfind x hx)
  | some nx1 =>
    obtain ⟨l1, l2, hsp, hl1, hupd⟩ :=
      updFirst_decomp (isNextOf r s) (fun m => withWinner m none) st1 nx1 hfind
    have hnx1p := (isNextOf_iff r s nx1).mp (by simpa using List.find?_some hfind)
    intro q hq hR hS
    rw [hupd] at hq
    rcases List.mem_append.mp hq with hq | hq
    · exfalso
      have hfalse := hl1 q hq
      have htrue : isNextOf r s q = true := (isNextOf_iff r s q).mpr ⟨hR, hS⟩
      rw [htrue] at hfalse
      simp at hfalse
    · rcases List.mem_cons.mp hq with rfl | hq
      · rfl
      · exfalso
        rw [hsp] at hpairs1
        have hne := nodup_map_append_cons (fun m => (m.round, m.slot)) l1 l2
          nx1 hpairs1 q hq
        apply hne
        show (q.round, q.slot) = (nx1.round, nx1.slot)
        rw [hR, hS, hnx1p.1, hnx1p.2]

theorem clearDownstream_clears :
    ∀ (fuel : Nat) (st : List Match) (r s : Nat) (cs : Bool),
      st.countP (fun m => r < m.round) < fuel →
      (st.map (fun m => (m.round, m.slot))).Nodup →
      ∀ (J : Nat),
        (∀ i, 1 ≤ i → i ≤ J → ∃ q ∈ st, q.round = r + i ∧ q.slot = s / 2 ^ i) →
        ∀ j, 1 ≤ j → j ≤ J →
          NoneAt (clearDownstream fuel st r s cs) (r + j) (s / 2 ^ j) := by
  intro fuel
  induction fuel with
  | zero =>
    intro st r s cs hfuel
    exact absurd hfuel (by omega)
  | succ f ih =>
    intro st r s cs hfuel hpairs J hchain j hj1 hjJ
    obtain ⟨p1, hp1mem, hp1r, hp1s⟩ := hchain 1 (le_refl 1) (by omega)
    rw [pow_one] at hp1s
    rw [clearDownstream]
    cases hnx : findNextMatch st r s with
    | none =>
      exfalso
      rw [findNextMatch, List.find?_eq_none] at hnx
      exact absurd (show p1.round = r + 1 ∧ p1.slot = s / 2 from ⟨hp1r, hp1s⟩)
        (by simpa using hnx p1 hp1mem)
    | some nx =>
      dsimp only
      have hrsset : ∀ m : Match, (setKey (targetKeyFor s) none m).round = m.round ∧
          (setKey (targetKeyFor s) none m).slot = m.slot :=
        fun m => ⟨(setKey_fields _ _ m).2.1, (setKey_fields _ _ m).2.2.1⟩
      have hrswin : ∀ m : Match, (withWinner m none).round = m.round ∧
          (withWinner m none).slot = m.slot :=
        fun m => ⟨(withWinner_fields m none).2.1, (withWinner_fields m none).2.2.1⟩
      have hsh1 : (if cs = true then
          updFirst (isNextOf r s) (setKey (targetKeyFor s) none) st else st).map shape =
          st.map shape := by
        by_cases hcs : cs = true
        · rw [if_pos hcs]
          exact updFirst_map_shape (shape_setKey _ _) st
        · rw [if_neg hcs]
      have hsh2 : (updFirst (isNextOf r s) (fun m => withWinner m none)
          (if cs = true then
            updFirst (isNextOf r s) (setKey (targetKeyFor s) none) st else st)).map
            shape = st.map shape := by
        rw [updFirst_map_shape (fun m => shape_withWinner m _), hsh1]
      have hpairs2 : ((updFirst (isNextOf r s) (fun m => withWinner m none)
          (if cs = true then
            updFirst (isNextOf r s) (setKey (targetKeyFor s) none) st else st)).map
            (fun m => (m.round, m.slot))).Nodup := by
        rw [map_pair_eq_of_map_shape hsh2]
        exact hpairs
      have hchain2 : ∀ i, 1 ≤ i → i ≤ J →
          ∃ q ∈ updFirst (isNextOf r s) (fun m => withWinner m none)
            (if cs = true then
              updFirst (isNextOf r s) (setKey (targetKeyFor s) none) st else st),
            q.round = r + i ∧ q.slot = s / 2 ^ i := by
        intro i h1 hi
        apply exists_coords_updFirst _ _ hrswin
        by_cases hcs : cs = true
        · rw [if_pos hcs]
          exact exists_coords_updFirst _ _ hrsset st _ _ (hchain i h1 hi)
        · rw [if_neg hcs]
          exact hchain i h1 hi
      have hcount2 : (updFirst (isNextOf r s) (fun m => withWinner m none)
          (if cs = true then
            updFirst (isNextOf r s) (setKey (targetKeyFor s) none) st else st)).countP
            (fun m => r + 1 < m.round) < f := by
        rw [countP_round_eq_of_map_shape (r + 1) hsh2]
        have hlt : st.countP (fun m => r + 1 < m.round) <
            st.countP (fun m => r < m.round) := by
          refine countP_lt_of_mem ?_ hp1mem ?_ ?_
          · intro x hx hq
            simp only [decide_eq_true_eq] at hq ⊢
            omega
          · simp only [decide_eq_true_eq]
            omega
          · simp [hp1r]
        omega
      rcases Nat.lt_or_ge j 2 with hj2 | hj2
      · have hj : j = 1 := by omega
        subst hj
        rw [pow_one]
        apply noneAt_clearDownstream
        apply noneAt_winnerClear
        · rw [map_pair_eq_of_map_shape hsh1]
          exact hpairs
        · by_cases hcs : cs = true
          · rw [if_pos hcs]
            exact exists_coords_updFirst _ _ hrsset st _ _ ⟨p1, hp1mem, hp1r, hp1s⟩
          · rw [if_neg hcs]
            exact ⟨p1, hp1mem, hp1r, hp1s⟩
      · have hchainR : ∀ i, 1 ≤ i → i ≤ J - 1 →
            ∃ q ∈ updFirst (isNextOf r s) (fun m => withWinner m none)
              (if cs = true then
                updFirst (isNextOf r s) (setKey (targetKeyFor s) none) st else st),
              q.round = (r + 1) + i ∧ q.slot = (s / 2) / 2 ^ i := by
          intro i h1 hi
          obtain ⟨q, hq, hqr, hqs⟩ := hchain2 (i + 1) (by omega) (by omega)
          refine ⟨q, hq, by omega, ?_⟩
          rw [Nat.div_div_eq_div_mul, ← pow_succ']
          exact hqs
        have hrec := ih _ (r + 1) (s / 2) true hcount2 hpairs2 (J - 1) hchainR
          (j - 1) (by omega) (by omega)
        have hcoord1 : (r + 1) + (j - 1) = r + j := by omega
        have hcoord2 : (s / 2) / 2 ^ (j - 1) = s / 2 ^ j := by
          rw [Nat.div_div_eq_div_mul, ← pow_succ']
          have hj : j - 1 + 1 = j := by omega
          rw [hj]
        rw [hcoord1, hcoord2] at hrec
        exact hrec

theorem keyAt_parent_write (st1 : List Match) (r s : Nat) (Y : EntryId)
    (next1 : Match)
    (hpairs1 : (st1.map (fun m => (m.round, m.slot))).Nodup)
    (hfind2 : st1.find? (isNextOf r s) = some next1) :
    KeyAt (updFirst (isNextOf r s) (setKey (targetKeyFor s) (some Y)) st1)
      r s (some Y) := by
  obtain ⟨l1, l2, hsp, hl1, hupd⟩ :=
    updFirst_decomp (isNextOf r s) (setKey (targetKeyFor s) (some Y)) st1 next1 hfind2
  have hnextp := (isNextOf_iff r s next1).mp (by simpa using List.find?_some hfind2)
  intro p hpmem hR hS
  rw [hupd] at hpmem
  rcases List.mem_append.mp hpmem with hpmem | hpmem
  · exfalso
    have hfalse := hl1 p hpmem
    have htrue : isNextOf r s p = true := (isNextOf_iff r s p).mpr ⟨hR, hS⟩
    rw [htrue] at hfalse
    simp at hfalse
  · rcases List.mem_cons.mp hpmem with rfl | hpmem
    · exact getKey_setKey_same _ _ next1
    · exfalso
      rw [hsp] at hpairs1
      have hne := nodup_map_append_cons (fun m => (m.round, m.slot)) l1 l2
        next1 hpairs1 p hpmem
      apply hne
      show (p.round, p.slot) = (next1.round, next1.slot)
      rw [hR, hS, hnextp.1, hnextp.2]

/-- The cascade performed by one `propagateWinner` mutation phase on a
winner change: when the parent slot fed by the target match currently holds
`X` and the new winner is `Y ≠ X`, the call records `Y` in that parent slot
and clears the recorded winner of every match on the contiguous downstream
chain above the target. -/
theorem core_cascade (st : List Match) (mId : Nat) (Y : EntryId) (auto : Bool)
    (mt : Match) (X : EntryId) (J : Nat)
    (hpairs : (st.map (fun m => (m.round, m.slot))).Nodup)
    (hfind : st.find? (fun m => m.id = mId) = some mt)
    (hparent : ∃ p ∈ st, p.round = mt.round + 1 ∧ p.slot = mt.slot / 2)
    (hprev : ∀ p ∈ st, p.round = mt.round + 1 → p.slot = mt.slot / 2 →
      getKey p (targetKeyFor mt.slot) = some X)
    (hXY : X ≠ Y)
    (hchain : ∀ i, 1 ≤ i → i ≤ J →
      ∃ q ∈ st, q.round = mt.round + i ∧ q.slot = mt.slot / 2 ^ i) :
    KeyAt (propagateWinnerCore st mId (some Y) auto).2.2 mt.round mt.slot (some Y) ∧
    ∀ j, 1 ≤ j → j ≤ J →
      NoneAt (propagateWinnerCore st mId (some Y) auto).2.2
        (mt.round + j) (mt.slot / 2 ^ j) := by
  unfold propagateWinnerCore
  rw [hfind]
  dsimp only
  have hrswin : ∀ m : Match, (withWinner m (some Y)).round = m.round ∧
      (withWinner m (some Y)).slot = m.slot :=
    fun m => ⟨(withWinner_fields m _).2.1, (withWinner_fields m _).2.2.1⟩
  have hsh1 : (if mt.winnerId ≠ some Y then
      updFirst (fun m => decide (m.id = mId)) (fun m => withWinner m (some Y)) st
      else st).map shape = st.map shape := by
    by_cases hw : mt.winnerId ≠ some Y
    · rw [if_pos hw]
      exact updFirst_map_shape (fun m => shape_withWinner m _) st
    · rw [if_neg hw]
  have hpairs1 : ((if mt.winnerId ≠ some Y then
      updFirst (fun m => decide (m.id = mId)) (fun m => withWinner m (some Y)) st
      else st).map (fun m => (m.round, m.slot))).Nodup := by
    rw [map_pair_eq_of_map_shape hsh1]
    exact hpairs
  have hprev1 : ∀ p ∈ (if mt.winnerId ≠ some Y then
      updFirst (fun m => decide (m.id = mId)) (fun m => withWinner m (some Y)) st
      else st), p.round = mt.round + 1 → p.slot = mt.slot / 2 →
      getKey p (targetKeyFor mt.slot) = some X := by
    by_cases hw : mt.winnerId ≠ some Y
    · rw [if_pos hw]
      intro p hp hR hS
      rcases mem_updFirst_strong hp with hp | ⟨x, hx, _, rfl⟩
      · exact hprev p hp hR hS
      · rw [getKey_withWinner]
        exact hprev x hx (by rw [← (hrswin x).1]; exact hR)
          (by rw [← (hrswin x).2]; exact hS)
    · rw [if_neg hw]
      exact hprev
  have hparent1 : ∃ p ∈ (if mt.winnerId ≠ some Y then
      updFirst (fun m => decide (m.id = mId)) (fun m => withWinner m (some Y)) st
      else st), p.round = mt.round + 1 ∧ p.slot = mt.slot / 2 := by
    by_cases hw : mt.winnerId ≠ some Y
    · rw [if_pos hw]
      exact exists_coords_updFirst _ _ hrswin st _ _ hparent
    · rw [if_neg hw]
      exact hparent
  have hchain1 : ∀ i, 1 ≤ i → i ≤ J → ∃ q ∈ (if mt.winnerId ≠ some Y then
      updFirst (fun m => decide (m.id = mId)) (fun m => withWinner m (some Y)) st
      else st), q.round = mt.round + i ∧ q.slot = mt.slot / 2 ^ i := by
    intro i h1 hi
    by_cases hw : mt.winnerId ≠ some Y
    · rw [if_pos hw]
      exact exists_coords_updFirst _ _ hrswin st _ _ (hchain i h1 hi)
    · rw [if_neg hw]
      exact hchain i h1 hi
  cases hnx : findNextMatch
      (if mt.winnerId ≠ some Y then
        updFirst (fun m => decide (m.id = mId)) (fun m => withWinner m (some Y)) st
      else st) mt.round mt.slot with
  | none =>
    exfalso
    obtain ⟨p, hp, hR, hS⟩ := hparent1
    rw [findNextMatch, List.find?_eq_none] at hnx
    exact absurd (show p.round = mt.round + 1 ∧ p.slot = mt.slot / 2 from ⟨hR, hS⟩)
      (by simpa using hnx p hp)
  | some next1 =>
    dsimp only
    have hnextmem : next1 ∈ (if mt.winnerId ≠ some Y then
        updFirst (fun m => decide (m.id = mId)) (fun m => withWinner m (some Y)) st
        else st) := List.mem_of_find?_eq_some hnx
    have hnextp : next1.round = mt.round + 1 ∧ next1.slot = mt.slot / 2 := by
      have := List.find?_some hnx
      simpa using this
    have hp : getKey next1 (targetKeyFor mt.slot) ≠ some Y := by
      rw [hprev1 next1 hnextmem hnextp.1 hnextp.2]
      intro hc
      exact hXY (Option.some.inj hc)
    unfold corePhase2
    dsimp only
    simp only [if_pos hp]
    have hrsset : ∀ m : Match,
        (setKey (targetKeyFor mt.slot) (some Y) m).round = m.round ∧
        (setKey (targetKeyFor mt.slot) (some Y) m).slot = m.slot :=
      fun m => ⟨(setKey_fields _ _ m).2.1, (setKey_fields _ _ m).2.2.1⟩
    have hfind2 : (if mt.winnerId ≠ some Y then
        updFirst (fun m => decide (m.id = mId)) (fun m => withWinner m (some Y)) st
        else st).find? (isNextOf mt.round mt.slot) = some next1 := hnx
    have hK1b := keyAt_parent_write _ mt.round mt.slot Y next1 hpairs1 hfind2
    have hsh1b : (updFirst (isNextOf mt.round mt.slot)
        (setKey (targetKeyFor mt.slot) (some Y))
        (if mt.winnerId ≠ some Y then
          updFirst (fun m => decide (m.id = mId)) (fun m => withWinner m (some Y)) st
          else st)).map shape = st.map shape := by
      rw [updFirst_map_shape (shape_setKey _ _), hsh1]
    have hpairs1b : ((updFirst (isNextOf mt.round mt.slot)
        (setKey (targetKeyFor mt.slot) (some Y))
        (if mt.winnerId ≠ some Y then
          updFirst (fun m => decide (m.id = mId)) (fun m => withWinner m (some Y)) st
          else st)).map (fun m => (m.round, m.slot))).Nodup := by
      rw [map_pair_eq_of_map_shape hsh1b]
      exact hpairs
    have hchain1b : ∀ i, 1 ≤ i → i ≤ J →
        ∃ q ∈ updFirst (isNextOf mt.round mt.slot)
          (setKey (targetKeyFor mt.slot) (some Y))
          (if mt.winnerId ≠ some Y then
            updFirst (fun m => decide (m.id = mId)) (fun m => withWinner m (some Y)) st
            else st), q.round = mt.round + i ∧ q.slot = mt.slot / 2 ^ i := by
      intro i h1 hi
      exact exists_coords_updFirst _ _ hrsset _ _ _ (hchain1 i h1 hi)
    have hcount1b : (updFirst (isNextOf mt.round mt.slot)
        (setKey (targetKeyFor mt.slot) (some Y))
        (if mt.winnerId ≠ some Y then
          updFirst (fun m => decide (m.id = mId)) (fun m => withWinner m (some Y)) st
          else st)).countP (fun m => mt.round < m.round) <
        (updFirst (isNextOf mt.round mt.slot)
        (setKey (targetKeyFor mt.slot) (some Y))
        (if mt.winnerId ≠ some Y then
          updFirst (fun m => decide (m.id = mId)) (fun m => withWinner m (some Y)) st
          else st)).length + 1 :=
      Nat.lt_succ_of_le (List.countP_le_length _)
    have hK3 := keyAt_clearDownstream ((updFirst (isNextOf mt.round mt.slot)
        (setKey (targetKeyFor mt.slot) (some Y))
        (if mt.winnerId ≠ some Y then
          updFirst (fun m => decide (m.id = mId)) (fun m => withWinner m (some Y)) st
          else st)).length + 1) _ mt.round mt.slot false (le_refl _) (by simp) hK1b
    constructor
    · exact keyAt_selfFix _ _ _ _ _ _ (le_refl _)
        (keyAt_staleFix _ _ _ _ (le_refl _) hK3)
    · intro j hj1 hjJ
      have hN3 := clearDownstream_clears ((updFirst (isNextOf mt.round mt.slot)
          (setKey (targetKeyFor mt.slot) (some Y))
          (if mt.winnerId ≠ some Y then
            updFirst (fun m => decide (m.id = mId)) (fun m => withWinner m (some Y)) st
            else st)).length + 1) _ mt.round mt.slot false hcount1b hpairs1b
          J hchain1b j hj1 hjJ
      exact noneAt_selfFix _ _ _ _ _ _ (noneAt_staleFix _ _ _ _ hN3)
end CB

namespace CB

/-! ### The claims -/

/-- C2: the claim that `seedTeams` places every input team in exactly one
slot and leaves exactly `bracketSize - count` slots empty FAILS on the
code: for the five all-priority entrants A..E (deduplication keeps all
five and `bracketSize = 8`), `swapPriorityByes` copies two teams into the
empty slots of two priority-vs-bye pairs without clearing their original
slots, so team A ends up in two slots and only one slot is empty instead
of three.  The spec states the invariant must never be violated, so this
is a bug in the code. -/
theorem claim_C2 :
    dedupeTeams exFivePriority = exFivePriority ∧
    nextPowerOfTwo exFivePriority.length = 8 ∧
    (seedTeams (sortByC cmpTeams exFivePriority) 8).countP
      (fun t => t = some exPrioA) = 2 ∧
    (seedTeams (sortByC cmpTeams exFivePriority) 8).countP (fun t => t = none) = 1 ∧
    8 - exFivePriority.length = 3 := by
  decide

/-- C5: the claim that no two priority entrants are paired in round 1
whenever a conflict-free assignment exists FAILS on the code: for the
entrants A, B, C (priority) and D, E (not), a conflict-free layout exists
(`exMixedGoodLayout` places each priority entrant in its own pair and
every entrant exactly once), yet the layout the engine produces pairs two
priority entrants — a consequence of the duplicating `swapPriorityByes`
pass, after which the local search is stuck in a local optimum. -/
theorem claim_C5 :
    ((pairGroupsOf 8).countP
      (fun p => (pairScore (seedTeams (sortByC cmpTeams exMixed) 8) p).1) = 1) ∧
    exMixedGoodLayout.length = 8 ∧
    (∀ t ∈ exMixed, exMixedGoodLayout.countP (fun o => o = some t) = 1) ∧
    ((pairGroupsOf 8).countP (fun p => (pairScore exMixedGoodLayout p).1) = 0) := by
  decide

/-- C6 counterexample: a winner id that matches neither occupant is not
rejected — `setMatchWinner` does not return the input snapshot
unchanged. -/
theorem claim_C6_counterexample :
    setMatchWinner exSoloSnapshot 0 (some (EntryId.team 99)) ≠ exSoloSnapshot := by
  decide

/-- C6 (amended): `propagateWinner` performs no validation of `winnerId`
against the occupants of the target match: the given winner is recorded on
the match and a changed snapshot is returned (shown here for a match
without a parent, where the update is exactly the winner write). -/
theorem claim_C6 {ms : List Match} {mId : Nat} {w : EntryId} {m0 : Match}
    (hfind : ms.find? (fun m => decide (m.id = mId)) = some m0)
    (hdiff : m0.winnerId ≠ some w)
    (hnoparent : findNextMatch ms m0.round m0.slot = none) :
    setMatchWinner ms mId (some w) =
      updFirst (fun m => decide (m.id = mId)) (fun m => withWinner m (some w)) ms ∧
    setMatchWinner ms mId (some w) ≠ ms := by
  have hwne : withWinner m0 (some w) ≠ m0 := withWinner_ne (Ne.symm hdiff)
  have hupd : updFirst (fun m => decide (m.id = mId))
      (fun m => withWinner m (some w)) ms ≠ ms :=
    updFirst_ne_of_find hfind hwne
  have hnonext : findNextMatch
      (updFirst (fun m => decide (m.id = mId)) (fun m => withWinner m (some w)) ms)
      m0.round m0.slot = none :=
    findNextMatch_updFirst_none (fun m => ⟨rfl, rfl⟩) hnoparent
  have hcore : propagateWinnerCore ms mId (some w) false =
      (false, true,
        updFirst (fun m => decide (m.id = mId)) (fun m => withWinner m (some w)) ms) := by
    unfold propagateWinnerCore
    rw [hfind]
    dsimp only
    simp only [if_pos hdiff]
    rw [hnonext]
    simp [hdiff]
  constructor
  · show propagateWinner ms mId (some w) false true = _
    unfold propagateWinner
    rw [hcore]
    rfl
  · show propagateWinner ms mId (some w) false true ≠ ms
    unfold propagateWinner
    rw [hcore]
    exact hupd

/-- C6 witness: the amended theorem applied to a concrete snapshot. -/
theorem claim_C6_witness :
    setMatchWinner exSoloSnapshot 0 (some (EntryId.team 42)) =
      updFirst (fun m => decide (m.id = 0))
        (fun m => withWinner m (some (EntryId.team 42))) exSoloSnapshot ∧
    setMatchWinner exSoloSnapshot 0 (some (EntryId.team 42)) ≠ exSoloSnapshot :=
  @claim_C6 exSoloSnapshot 0 (EntryId.team 42)
    ⟨0, 1, 0, some (EntryId.team 1), some (EntryId.team 2), none⟩
    (by decide) (by decide) (by decide)

/-- C7 counterexample: `setMatchWinner` is not idempotent.  On
`exStaleSnapshot` the first call's sweep settles a stale chain only after
the auto-advance passes have run, leaving match 4 as an unadvanced solo;
the second identical call advances it, so the two results differ. -/
theorem claim_C7_counterexample :
    setMatchWinner (setMatchWinner exStaleSnapshot 1 (some (EntryId.team 1))) 1
        (some (EntryId.team 1)) ≠
      setMatchWinner exStaleSnapshot 1 (some (EntryId.team 1)) := by
  decide

/-- C7 (amended): when the snapshot is sweep-stable — the call mutates
nothing, one auto-advance pass reports no change and the settle scan finds
nothing — `setMatchWinner` returns the input snapshot and is therefore
idempotent there; and on the snapshots produced by `generateBracket` for
the five-entrant example, calling `setMatchWinner` twice with the same
occupant yields the same snapshot as calling it once (checked for every
match and occupant). -/
theorem claim_C7 :
    (∀ (ms : List Match) (mId : Nat) (w : Option EntryId),
      (propagateWinnerCore ms mId w false).2.1 = false →
      (propagateAutoAdvancesPass ms).1 = false →
      settleScan ms ms = none →
      setMatchWinner ms mId w = ms ∧
        setMatchWinner (setMatchWinner ms mId w) mId w = setMatchWinner ms mId w) ∧
    (∀ m ∈ generateBracket exFive, ∀ w ∈ [m.teamAId, m.teamBId], w.isSome = true →
      setMatchWinner (setMatchWinner (generateBracket exFive) m.id w) m.id w =
        setMatchWinner (generateBracket exFive) m.id w) := by
  constructor
  · intro ms mId w h1 h2 h3
    have hcore := core_not_mutated h1
    have hres : setMatchWinner ms mId w = ms := by
      unfold setMatchWinner propagateWinner
      dsimp only
      cases hre : (propagateWinnerCore ms mId w false).1 with
      | true =>
        rw [if_pos (show ((true : Bool) && true) = true from rfl)]
        rw [hcore, propagateAutoAdvances_stable h2, settlePassChains_stable h3]
      | false =>
        rw [if_neg (show ¬ ((false : Bool) && true) = true from by decide)]
        rw [h1]
        simp
    exact ⟨hres, by rw [hres]; exact hres⟩
  · decide

/-- C7 witness: the stable-snapshot clause applied to a settled one-match
snapshot whose winner is already recorded. -/
theorem claim_C7_witness :
    setMatchWinner exSettledSnapshot 0 (some (EntryId.team 7)) = exSettledSnapshot ∧
      setMatchWinner (setMatchWinner exSettledSnapshot 0 (some (EntryId.team 7))) 0
          (some (EntryId.team 7)) =
        setMatchWinner exSettledSnapshot 0 (some (EntryId.team 7)) :=
  claim_C7.1 exSettledSnapshot 0 (some (EntryId.team 7)) (by decide) (by decide) (by decide)

/-- C9: the termination measure of the local search.  Every accepted swap of
`tryImprovePairs` strictly decreases the packed lexicographic score
(priority conflicts, same-school conflicts, priority byes), which is a
natural number and hence bounded below by zero; consequently the loop —
run with fuel exceeding the initial score, as `seedTeams` does — reaches a
state in which no improving swap exists.  The remaining repair loops of
`seedTeams` are bounded by the shrinking number of priority-vs-bye or
singleton pairs (their fuel in this embedding), and `settlePassChains`
carries the source's own `4 × matchCount` iteration cap. -/
theorem claim_C9 :
    (∀ (bracketSize : Nat) (seeded seeded2 : List (Option Team)),
      tryImprovePairsStep bracketSize seeded = some seeded2 →
      scoreNat bracketSize seeded2 < scoreNat bracketSize seeded) ∧
    (∀ (bracketSize fuel : Nat) (seeded : List (Option Team)),
      scoreNat bracketSize seeded < fuel →
      tryImprovePairsStep bracketSize (improveLoopF bracketSize fuel seeded) = none) := by
  constructor
  · intro bracketSize seeded seeded2 h
    exact tryImprovePairsStep_decreases h
  · intro bracketSize fuel seeded h
    exact improveLoopF_fixpoint bracketSize fuel seeded h

/-- C9 witness: the measure theorem applied to a concrete improving swap. -/
theorem claim_C9_witness :
    scoreNat 4 exSeedAfter < scoreNat 4 exSeedBefore ∧
      tryImprovePairsStep 4 (improveLoopF 4 (scoreNat 4 exSeedBefore + 1) exSeedBefore) = none :=
  ⟨claim_C9.1 4 exSeedBefore exSeedAfter (by decide),
   claim_C9.2 4 (scoreNat 4 exSeedBefore + 1) exSeedBefore (Nat.lt_succ_self _)⟩

/-- C10: the consolation updater keeps the previous non-empty consolation
bracket exactly when the set of team ids occupying it equals the current
loser id set (the code compares sizes plus one-sided containment, which is
equivalent to set equality), and otherwise regenerates a fresh bracket
from the loser teams. -/
theorem claim_C10 (losers : List EntryId) (teams : List Team) (prev : List Match)
    (hne : prev ≠ []) :
    (prevOccupantIds prev = losers.toFinset →
      consolationUpdater losers (loserTeamsOf teams losers) prev = prev) ∧
    (prevOccupantIds prev ≠ losers.toFinset →
      consolationUpdater losers (loserTeamsOf teams losers) prev =
        generateBracket (loserTeamsOf teams losers)) := by
  constructor
  · intro heq
    unfold consolationUpdater
    rw [if_pos ⟨hne, by rw [heq], by rw [heq]⟩]
  · intro hneq
    unfold consolationUpdater
    rw [if_neg ?_]
    rintro ⟨-, hcard, hsub⟩
    exact hneq (Finset.eq_of_subset_of_card_le hsub (le_of_eq hcard.symm))

/-- C10 witness: a previous consolation bracket over teams 1 and 2 is kept
when exactly those teams are the round-1 losers. -/
theorem claim_C10_witness :
    consolationUpdater [EntryId.team 1, EntryId.team 2]
        (loserTeamsOf [] [EntryId.team 1, EntryId.team 2]) exPrevConsolation =
      exPrevConsolation :=
  (claim_C10 [EntryId.team 1, EntryId.team 2] [] exPrevConsolation (by decide)).1
    (by decide)

/-- C1: for every non-empty entrant list, with `N` the deduplicated count,
`generateBracket` returns exactly `nextPowerOfTwo N - 1` matches.  The
bracket size is a power of two `2 ^ k`, the rounds are `1 .. k`
(`log2 bracketSize` of them), and for every round `R ≥ 1` the matches of
round `R`, in order, carry exactly the slot indices
`0 .. bracketSize / 2 ^ R - 1` (so rounds beyond `k` are empty). -/
theorem claim_C1 (teams : List Team) (hne : teams ≠ []) :
    ∃ k : Nat,
      nextPowerOfTwo (dedupeTeams teams).length = 2 ^ k ∧
      (generateBracket teams).length = 2 ^ k - 1 ∧
      ∀ R : Nat, 1 ≤ R →
        ((generateBracket teams).filter (fun m => m.round = R)).map Match.slot =
          List.range (2 ^ k / 2 ^ R) := by
  obtain ⟨k, hk⟩ := nextPowerOfTwo_pow (dedupeTeams teams).length
  have hlen : (sortByC cmpTeams (dedupeTeams teams)).length =
      (dedupeTeams teams).length := sortByC_length _ _
  have hgen : generateBracket teams =
      settlePassChains (propagateAutoAdvances
        (2 * (buildLoop (seedTeams (sortByC cmpTeams (dedupeTeams teams)) (2 ^ k))
            (2 ^ k) 1 0).length + 4)
        (buildLoop (seedTeams (sortByC cmpTeams (dedupeTeams teams)) (2 ^ k))
          (2 ^ k) 1 0)) := by
    unfold generateBracket
    rw [if_neg hne]
    dsimp only
    rw [if_neg (dedupeTeams_ne_nil teams hne)]
    rw [hlen, hk]
    rfl
  have hshape : (generateBracket teams).map shape =
      (buildLoop (seedTeams (sortByC cmpTeams (dedupeTeams teams)) (2 ^ k))
        (2 ^ k) 1 0).map shape := by
    rw [hgen, settlePassChains_map_shape, propagateAutoAdvances_map_shape]
  have hbuilt : (buildLoop (seedTeams (sortByC cmpTeams (dedupeTeams teams)) (2 ^ k))
      (2 ^ k) 1 0).length = 2 ^ k - 1 := by
    unfold buildLoop
    exact buildLoopGo_length _ k (2 ^ k) 1 0 (le_refl _)
  refine ⟨k, hk, ?_, ?_⟩
  · rw [length_eq_of_map_shape _ _ hshape, hbuilt]
  · intro R hR
    rw [filter_round_slot_eq_of_map_shape _ _ hshape R]
    unfold buildLoop
    have := buildLoopGo_filter
      (seedTeams (sortByC cmpTeams (dedupeTeams teams)) (2 ^ k))
      k (2 ^ k) 1 0 R (le_refl _)
    rw [if_pos hR] at this
    rw [this, (by omega : R - 1 + 1 = R)]

/-- C1 witness: the claim instantiated on the five example entrants, whose
deduplicated count 5 gives bracket size 8. -/
theorem claim_C1_witness :
    exFive ≠ [] ∧
    ∃ k : Nat,
      nextPowerOfTwo (dedupeTeams exFive).length = 2 ^ k ∧
      (generateBracket exFive).length = 2 ^ k - 1 ∧
      ∀ R : Nat, 1 ≤ R →
        ((generateBracket exFive).filter (fun m => m.round = R)).map Match.slot =
          List.range (2 ^ k / 2 ^ R) :=
  ⟨by decide, claim_C1 exFive (by decide)⟩

/-- A round-1 match of the bracket generated from the five example
entrants that holds a single entrant (team 5 in slot 2). -/
def exC3Solo : Match := ⟨2, 1, 2, some (EntryId.team 5), none, some (EntryId.team 5)⟩

/-- C3: the snapshot returned by `generateBracket` is an auto-advance fixed
point: every round-1 match holding exactly one entrant has that entrant as
its recorded winner and written into the correct occupant key of its
round-2 parent (`teamAId` for an even feeder slot, `teamBId` for an odd
one, per `targetKeyFor`); in particular for the 5 example entrants exactly
3 round-1 matches come back with a winner recorded automatically, and
exactly 1 round-1 match holds two real entrants with no winner. -/
theorem claim_C3 :
    (∀ (teams : List Team), ∀ m ∈ generateBracket teams,
      m.round = 1 → (soloOf m).isSome = true →
      m.winnerId = soloOf m ∧
      ∀ p ∈ generateBracket teams, p.round = 2 → p.slot = m.slot / 2 →
        getKey p (targetKeyFor m.slot) = soloOf m) ∧
    ((generateBracket exFive).countP
        (fun m => m.round = 1 && m.winnerId.isSome) = 3 ∧
      (generateBracket exFive).countP
        (fun m => m.round = 1 && m.teamAId.isSome && m.teamBId.isSome &&
          m.winnerId = none) = 1) :=
  ⟨fun teams => generateBracket_fixedPoint teams, by decide, by decide⟩

/-- C3 witness: the fixed-point clause instantiated on the generated
five-entrant bracket at the solo round-1 match of slot 2. -/
theorem claim_C3_witness :
    exC3Solo ∈ generateBracket exFive ∧
    (exC3Solo.winnerId = soloOf exC3Solo ∧
      ∀ p ∈ generateBracket exFive, p.round = 2 → p.slot = exC3Solo.slot / 2 →
        getKey p (targetKeyFor exC3Solo.slot) = soloOf exC3Solo) :=
  ⟨by decide, claim_C3.1 exFive exC3Solo (by decide) (by decide) (by decide)⟩

/-- The five-entrant bracket after the contested round-1 match (id 1) is
decided for team 3 and the round-2 match (id 4) for team 2: a snapshot in
which match 1 feeds a decided downstream chain. -/
def exDecidedChain : List Match :=
  setMatchWinner (setMatchWinner (generateBracket exFive) 1
    (some (EntryId.team 3))) 4 (some (EntryId.team 2))

/-- The stale copy of match 1 inside `exDecidedChain`. -/
def exC4Target : Match :=
  ⟨1, 1, 1, some (EntryId.team 3), some (EntryId.team 4), some (EntryId.team 3)⟩

/-- C4: when the parent slot fed by match `mt` holds the previously
propagated occupant `X` and the winner of `mt` is changed to `Y ≠ X`, the
mutation phase of `propagateWinner` (everything `setMatchWinner` runs
before its auto-advance sweep) records `Y` in `mt`'s parent slot and clears
the `winnerId` of every match on the contiguous downstream chain from the
parent toward the final; concretely, on the five-entrant bracket with
match 1 decided for team 3 and its parent match 4 decided for team 2,
re-deciding match 1 for team 4 leaves match 4 with no winner and team 4 as
its second occupant. -/
theorem claim_C4 :
    (∀ (st : List Match) (mId : Nat) (X Y : EntryId) (mt : Match) (J : Nat),
      (st.map (fun m => (m.round, m.slot))).Nodup →
      st.find? (fun m => m.id = mId) = some mt →
      (∃ p ∈ st, p.round = mt.round + 1 ∧ p.slot = mt.slot / 2) →
      (∀ p ∈ st, p.round = mt.round + 1 → p.slot = mt.slot / 2 →
        getKey p (targetKeyFor mt.slot) = some X) →
      X ≠ Y →
      (∀ i, 1 ≤ i → i ≤ J →
        ∃ q ∈ st, q.round = mt.round + i ∧ q.slot = mt.slot / 2 ^ i) →
      KeyAt (propagateWinnerCore st mId (some Y) false).2.2
        mt.round mt.slot (some Y) ∧
      ∀ j, 1 ≤ j → j ≤ J →
        NoneAt (propagateWinnerCore st mId (some Y) false).2.2
          (mt.round + j) (mt.slot / 2 ^ j)) ∧
    (∀ m ∈ exDecidedChain, m.id = 4 → m.winnerId = some (EntryId.team 2)) ∧
    (∀ m ∈ setMatchWinner exDecidedChain 1 (some (EntryId.team 4)),
      m.id = 4 → m.winnerId = none ∧ m.teamBId = some (EntryId.team 4)) :=
  ⟨fun st mId X Y mt J h1 h2 h3 h4 h5 h6 =>
    core_cascade st mId Y false mt X J h1 h2 h3 h4 h5 h6,
   by decide, by decide⟩

/-- C4 witness: the cascade theorem applied to the decided-chain snapshot,
changing the winner of match 1 from team 3 to team 4: team 4 lands in the
parent slot and the two downstream matches lose their winners. -/
theorem claim_C4_witness :
    KeyAt (propagateWinnerCore exDecidedChain 1 (some (EntryId.team 4))
      false).2.2 exC4Target.round exC4Target.slot (some (EntryId.team 4)) ∧
    NoneAt (propagateWinnerCore exDecidedChain 1 (some (EntryId.team 4))
      false).2.2 (exC4Target.round + 1) (exC4Target.slot / 2 ^ 1) ∧
    NoneAt (propagateWinnerCore exDecidedChain 1 (some (EntryId.team 4))
      false).2.2 (exC4Target.round + 2) (exC4Target.slot / 2 ^ 2) := by
  have h := claim_C4.1 exDecidedChain 1 (EntryId.team 3) (EntryId.team 4)
    exC4Target 2 (by decide) (by decide) (by decide) (by decide) (by decide)
    (by
      intro i h1 h2
      rcases (by omega : i = 1 ∨ i = 2) with rfl | rfl
      · decide
      · decide)
  exact ⟨h.1, h.2 1 (by omega) (by omega), h.2 2 (by omega) (by omega)⟩

end CB
